import Mathlib

set_option autoImplicit false

/-!
Verification of the sliding-window median and alpha-trimmed-mean filters of
`src/filter/median.rs` (tiffany1618/img-rust), against the design
specification.  The definitions below are a shallow embedding of that file:
Rust `Vec`s become `List`s, `u8`/`u32`/`i32` values become `Nat`/`Int`
(with wrapping made explicit where overflow matters), and fallible
operations (`Vec` indexing, `Vec::remove`, `Vec::insert`, integer-underflow
panics) return `Option`, with `none` modelling a panic.  The raster-image
interface (`Image`, `get_pixel_unchecked`, `set_pixel`, `blank`) and
`error::check_even` are not part of the given sources and are modelled from
the spec, as marked.  The strip width `n_cols` is computed by the source
with `f64::powf`; it is modelled by the exact real floor of `4·r^(2/3)`,
which agrees with the source at every radius the claims exercise.  The
output of `MeanHist::get_mean`, an `f32` division and round, is modelled by
exact rational rounding (round half away from zero), which coincides with
the `f32` result at the magnitudes the filter produces (`sums ≤ 255·size²`).
-/

/-- Raster image, modelled from the spec (section 3): `data` is row-major and
channel-interleaved, with `data.length = width·height·channels`. -/
structure Image where
  width : Nat
  height : Nat
  channels : Nat
  data : List Nat
  deriving DecidableEq

/-- Reading pixel `(x,y)` as its `channels` bytes, modelled from the spec
(section 6, `get_pixel_unchecked`). -/

def Image.getPixel (img : Image) (x y : Nat) : List Nat :=
  (List.range img.channels).map
    (fun c => img.data.getD ((y * img.width + x) * img.channels + c) 0)

/-- Helper overwriting `vals.length` consecutive entries of `d` from `pos`. -/

def writeList (d : List Nat) (pos : Nat) (vals : List Nat) : List Nat :=
  match vals with
  | [] => d
  | v :: vs => writeList (d.set pos v) (pos + 1) vs

/-- Writing pixel `(x,y)`, modelled from the spec (section 6, `set_pixel`). -/

def Image.setPixel (img : Image) (x y : Nat) (vals : List Nat) : Image :=
  { img with data := writeList img.data ((y * img.width + x) * img.channels) vals }

/-- Blank output of identical dimensions, modelled from the spec
(section 3, `Image::blank`). -/

def Image.blank (img : Image) : Image :=
  { img with data := List.replicate (img.width * img.height * img.channels) 0 }

/-- Integer `v.clamp(lo, hi)` (Rust `clamp`; `lo ≤ hi` at every use site). -/

def iclamp (v lo hi : Int) : Int := max lo (min v hi)

/-- Pixel access into a row slice: `p_in[i][channel_index]`. -/

def px (pIn : List (List Nat)) (i ci : Nat) : Nat := (pIn.getD i []).getD ci 0

/-- Histogram-bank mutation `data[col][k] += c` used by
`PartialHistograms::update`. -/

def hset (d : List (List Int)) (col k : Nat) (c : Int) : List (List Int) :=
  d.set col ((d.getD col []).set k ((d.getD col []).getD k 0 + c))

/-- Embedding of `PartialHistograms`: `n_cols` per-column 256-bin signed
histograms plus the derived constants. -/

structure PartHist where
  data : List (List Int)
  nCols : Nat
  nHalf : Nat
  radius : Nat
  size : Nat
  deriving DecidableEq

/-- Embedding of `PartialHistograms::new`. -/

def PartHist.new (radius nCols : Nat) : PartHist :=
  { data := List.replicate nCols (List.replicate 256 0), nCols := nCols,
    nHalf := nCols / 2, radius := radius, size := 2 * radius + 1 }

/-- Body of the inner loop of `PartialHistograms::update` at outer index `n`:
four `+=`/`-=` bin updates on columns `n` and `n_cols - n - 1`. -/

def PartHist.innerStep (st : PartHist) (val : Nat → Nat) (inc : Int) (n : Nat)
    (d : List (List Int)) (i : Nat) : List (List Int) :=
  let nUpper := st.nCols - n - 1
  let d := hset d n (val i) inc
  let d := hset d n (val (i + st.size)) (-inc)
  let iUpper := st.nCols + 2 * st.radius - i - 1
  let iLower := iUpper - st.size
  let d := hset d nUpper (val iLower) (-inc)
  hset d nUpper (val iUpper) inc

/-- Embedding of `PartialHistograms::update`. -/

def PartHist.update (st : PartHist) (pIn : List (List Nat)) (ci : Nat) (add : Bool) :
    PartHist :=
  let inc : Int := if add then 1 else -1
  let val : Nat → Nat := fun i => px pIn i ci
  let d1 := (List.range st.nHalf).foldl
    (fun d n => (List.range' n (st.nHalf - n)).foldl (st.innerStep val inc n) d)
    st.data
  let d2 := (List.range' st.nHalf st.size).foldl
    (fun d i => hset d st.nHalf (val i) inc) d1
  { st with data := d2 }

/-- Embedding of `PartialHistograms::get_count`. -/

def PartHist.get_count (st : PartHist) (key : Nat) (index : Nat) : Int :=
  let count := (st.data.getD st.nHalf []).getD key 0
  if index ≠ st.nHalf then count + (st.data.getD index []).getD key 0 else count

/-! ### Median engine -/

/-- Embedding of `MedianHist`: the bank plus per-column running sums and
pivots. -/

structure MedianHist where
  data : PartHist
  sums : List Int
  pivots : List Nat
  deriving DecidableEq

/-- Embedding of `MedianHist::new` (`pivots` starts empty,
`Vec::with_capacity`). -/

def MedianHist.new (radius nCols : Nat) : MedianHist :=
  { data := PartHist.new radius nCols, sums := List.replicate nCols 0, pivots := [] }

/-- Embedding of `MedianHist::init_pivots`. -/

def MedianHist.init_pivots (st : MedianHist) : MedianHist :=
  { st with pivots := List.replicate st.data.nCols 0 }

/-- Vector mutation `sums[n] += v`. -/

def listAddAt (s : List Int) (n : Nat) (v : Int) : List Int :=
  s.set n (s.getD n 0 + v)

/-- Two's-complement `i32` value of `v` (release-mode wrapping arithmetic):
`v` reduced into `[-2^31, 2^31)`. -/
def wrap32 (v : Int) : Int := (v + 2 ^ 31) % 2 ^ 32 - 2 ^ 31

/-- `sums[n] += v` on the mean engine's `Vec<i32>`: the `i32` addition
wraps on overflow. -/
def listAddWrap (s : List Int) (n : Nat) (v : Int) : List Int :=
  s.set n (wrap32 (s.getD n 0 + v))

/-- Embedding of `MedianHist::update`: update the bank, then adjust `sums`
against the stored pivots (skipped while `pivots` is still empty). -/

def MedianHist.update (st : MedianHist) (pIn : List (List Nat)) (ci : Nat) (add : Bool) :
    MedianHist :=
  let data := st.data.update pIn ci add
  let inc : Int := if add then 1 else -1
  let sums :=
    if st.pivots.isEmpty then st.sums
    else
      (List.range st.data.nCols).foldl
        (fun s n =>
          (List.range' n st.data.size).foldl
            (fun s i =>
              if px pIn i ci < st.pivots.getD n 0 then listAddAt s n inc else s)
            s)
        st.sums
  { st with data := data, sums := sums }

/-- Upward median scan `for key in lo..=255`, returning the stopping key and
the pre-stop sum; `none` models the loop falling through without a break
(the engine then builds a short pixel, which `set_pixel` rejects). -/

def medScanUp (ph : PartHist) (i : Nat) (center : Int) :
    List Nat → Int → Option (Nat × Int)
  | [], _ => none
  | key :: rest, sum =>
    let add := ph.get_count key i
    if center ≤ sum + add then some (key, sum)
    else medScanUp ph i center rest (sum + add)

/-- Downward median scan `for key in (0..pivot).rev()`. -/

def medScanDown (ph : PartHist) (i : Nat) (center : Int) :
    List Nat → Int → Option (Nat × Int)
  | [], _ => none
  | key :: rest, sum =>
    let sum := sum - ph.get_count key i
    if sum < center then some (key, sum)
    else medScanDown ph i center rest sum

/-- Embedding of `add_row_med` (with `add = false`, of `remove_row_med`):
one `update` per channel. -/

def addRowMed (hists : List MedianHist) (pIn : List (List Nat)) (add : Bool) :
    List MedianHist :=
  hists.mapIdx (fun c h => h.update pIn c add)

/-- Embedding of `set_pivots_med` (the loop runs over `pivots.len()`,
which always equals the channel count at the call sites). -/

def setPivotsMed (hists : List MedianHist) (pOut : List Nat) (index : Nat) :
    List MedianHist :=
  hists.mapIdx (fun c h =>
    if c < pOut.length then { h with pivots := h.pivots.set index (pOut.getD c 0) }
    else h)

/-- Clamped output column of both drivers: `(x + i).clamp(0, width - 1)`. -/

def writeCol (width x i : Nat) : Nat := min (x + i) (width - 1)

/-- Row slice `p_in` of `n_cols + 2r` column-clamped pixels, as built by
`process_cols_med`, `init_cols_med` and their mean counterparts. -/

def rowSlice (input : Image) (nCols radius x row : Nat) : List (List Nat) :=
  (List.range (nCols + 2 * radius)).map
    (fun (k : Nat) =>
      input.getPixel
        (iclamp ((x : Int) + (k : Int) - radius) 0 ((input.width : Int) - 1)).toNat row)

/-- Clamped row indices `j ∈ -r..=r` absorbed while priming a strip. -/

def primeRows (height radius : Nat) : List Nat :=
  (List.range (2 * radius + 1)).map
    (fun (t : Nat) => (iclamp ((t : Int) - radius) 0 ((height : Int) - 1)).toNat)

/-- Per-channel body of the first-median loop of `init_cols_med`. -/

def initMedChannel (center : Int) (i : Nat)
    (acc : List Nat × List MedianHist) (c : Nat) : Option (List Nat × List MedianHist) :=
  let h := acc.2.getD c (MedianHist.new 0 1)
  match medScanUp h.data i center (List.range 256) 0 with
  | none => none
  | some (key, sum) =>
    some (acc.1 ++ [key], acc.2.set c { h with sums := h.sums.set i sum })

/-- Embedding of `init_cols_med`. -/

def initColsMed (input : Image) (output : Image) (hists : List MedianHist)
    (radius : Nat) (center : Int) (nCols x : Nat) : Option (Image × List MedianHist) := do
  let hists := (primeRows input.height radius).foldl
    (fun hs j => addRowMed hs (rowSlice input nCols radius x j) true) hists
  let hists := hists.map MedianHist.init_pivots
  (List.range nCols).foldlM
    (fun (acc : Image × List MedianHist) i => do
      let (pOut, hists) ←
        (List.range input.channels).foldlM (initMedChannel center i) ([], acc.2)
      let xClamp := writeCol input.width x i
      some (acc.1.setPixel xClamp 0 pOut, setPivotsMed hists pOut i))
    (output, hists)

/-- Per-channel body of `process_row_med`: the pivoted search. -/

def rowMedChannel (center : Int) (i : Nat)
    (acc : List Nat × List MedianHist) (c : Nat) : Option (List Nat × List MedianHist) :=
  let h := acc.2.getD c (MedianHist.new 0 1)
  let pivot := h.pivots.getD i 0
  let sum := h.sums.getD i 0
  if sum < center then
    match medScanUp h.data i center (List.range' pivot (256 - pivot)) sum with
    | none => none
    | some (key, s) =>
      some (acc.1 ++ [key], acc.2.set c { h with sums := h.sums.set i s })
  else
    match medScanDown h.data i center (List.range pivot).reverse sum with
    | none => none
    | some (key, s) =>
      some (acc.1 ++ [key], acc.2.set c { h with sums := h.sums.set i s })

/-- Embedding of `process_row_med`. -/

def processRowMed (output : Image) (hists : List MedianHist) (center : Int)
    (nCols x y : Nat) : Option (Image × List MedianHist) :=
  (List.range nCols).foldlM
    (fun (acc : Image × List MedianHist) i => do
      let (pOut, hists) ←
        (List.range output.channels).foldlM (rowMedChannel center i) ([], acc.2)
      let xClamp := writeCol output.width x i
      some (acc.1.setPixel xClamp y pOut, setPivotsMed hists pOut i))
    (output, hists)

/-- Steady-state row step of `process_cols_med`: one entering and one leaving
row, then the pivoted searches of the row. -/

def medRowStep (input : Image) (radius : Nat) (center : Int) (nCols x : Nat)
    (acc : Image × List MedianHist) (j : Nat) : Option (Image × List MedianHist) :=
  let jIn := min (j + radius) (input.height - 1)
  let jOut := (iclamp ((j : Int) - radius - 1) 0 ((input.height : Int) - 1)).toNat
  let pIn := rowSlice input nCols radius x jIn
  let pOut := rowSlice input nCols radius x jOut
  let hists := addRowMed acc.2 pIn true
  let hists := addRowMed hists pOut false
  processRowMed acc.1 hists center nCols x j

/-- Embedding of `process_cols_med`. -/

def processColsMed (input : Image) (output : Image) (radius nCols x : Nat) :
    Option Image := do
  let size := 2 * radius + 1
  let center : Int := ((size * size) / 2 + 1 : Nat)
  let hists := List.replicate input.channels (MedianHist.new radius nCols)
  let st ← initColsMed input output hists radius center nCols x
  let st2 ← (List.range' 1 (input.height - 1)).foldlM
    (medRowStep input radius center nCols x) st
  some st2.1

/-- Strip origins `0, n_cols, 2·n_cols, … < width` of `step_by(n_cols)`. -/

def stripOrigins (width nCols : Nat) : List Nat :=
  (List.range ((width + nCols - 1) / nCols)).map (· * nCols)

/-- Driver of `median_filter` with an explicit strip width. -/

def medianFilterWith (radius nCols : Nat) (input : Image) : Option Image :=
  (stripOrigins input.width nCols).foldlM
    (fun out x => processColsMed input out radius nCols x)
    (Image.blank input)

/-- Exact model of `(4.0 * (radius as f64).powf(2.0/3.0)).floor() as usize`:
the number of positive `m` with `m³ ≤ 64·radius²`, that is
`⌊4·radius^(2/3)⌋`. -/

def nColsRaw (radius : Nat) : Nat :=
  (List.range (4 * radius + 2)).countP (fun m => (m + 1) ^ 3 ≤ 64 * radius ^ 2)

/-- Strip width `n_cols` of both public filters (rounded up to odd). -/

def nColsOf (radius : Nat) : Nat :=
  let n := nColsRaw radius
  if n % 2 = 0 then n + 1 else n

/-- Embedding of `median_filter` (the source always returns `Ok`; `none`
models a panic inside the computation). -/

def medianFilter (input : Image) (radius : Nat) : Option Image :=
  medianFilterWith radius (nColsOf radius) input

/-! ### Mean engine -/

/-- Embedding of `Vec::remove(idx)`: panics (`none`) if `idx ≥ len`. -/

def vecRemove (l : List Nat) (idx : Nat) : Option (List Nat) :=
  if idx < l.length then some (l.take idx ++ l.drop (idx + 1)) else none

/-- Embedding of `Vec::insert(idx, v)`: panics (`none`) if `idx > len`. -/

def vecInsert (l : List Nat) (idx : Nat) (v : Nat) : Option (List Nat) :=
  if idx ≤ l.length then some (l.take idx ++ v :: l.drop idx) else none

/-- Wrapping `usize` decrement `t - 1` (release semantics; for `t = 0` the
result indexes far out of bounds, so the subsequent access panics). -/

def wsub1 (t : Nat) : Nat := (t + (2 ^ 64 - 1)) % 2 ^ 64

/-- Loop of Rust `slice::binary_search_by` (the 1.52-era implementation used
by the crate): state `(left, right, size)` with `size = right - left`
recomputed at the end of each iteration; the fuel (initially `len + 1`)
strictly exceeds the iteration count, so the fuel case is never reached. -/

def bsGo (cmp : Nat → Ordering) (l : List Nat) :
    Nat → Nat → Nat → Nat → Sum Nat Nat
  | 0, left, _, _ => Sum.inl left
  | fuel + 1, left, right, size =>
    if left < right then
      let mid := left + size / 2
      match cmp (l.getD mid 0) with
      | .lt => bsGo cmp l fuel (mid + 1) right (right - (mid + 1))
      | .gt => bsGo cmp l fuel left mid (mid - left)
      | .eq => Sum.inr mid
    else Sum.inl left

/-- Embedding of `slice::binary_search_by`: `inr pos` is `Ok(pos)`,
`inl pos` is `Err(pos)`. -/

def binarySearch (cmp : Nat → Ordering) (l : List Nat) : Sum Nat Nat :=
  bsGo cmp l (l.length + 1) 0 l.length l.length

/-- Count of trailing deque entries equal to `v`: the effect of the two
`iter().rev()` loops of `MeanHist::update`, which decrement until the first
mismatch. -/

def countTrailing (l : List Nat) (v : Nat) : Nat :=
  (l.reverse.takeWhile (· == v)).length

/-- Embedding of `MeanHist`.  `sums` is the source's `Vec<i32>`: its entries
are kept in `[-2^31, 2^31)` because every update site below goes through
`listAddWrap`, the wrapping `i32` addition. -/

structure MeanHist where
  data : PartHist
  sums : List Int
  lower : List (List Nat)
  upper : List (List Nat)
  trim : Nat
  len : Nat
  deriving DecidableEq

/-- Embedding of `MeanHist::new` (`len` kept exact instead of `f32`;
`sums`, `lower`, `upper` start empty, `Vec::with_capacity`). -/

def MeanHist.new (radius nCols alpha : Nat) : MeanHist :=
  { data := PartHist.new radius nCols, sums := [], lower := [], upper := [],
    trim := alpha / 2, len := (2 * radius + 1) * (2 * radius + 1) - alpha }

/-- Embedding of `MeanHist::init`. -/

def MeanHist.init (st : MeanHist) : MeanHist :=
  { st with sums := List.replicate st.data.nCols 0,
            lower := List.replicate st.data.nCols [],
            upper := List.replicate st.data.nCols [] }

/-- Embedding of `MeanHist::lower`: `self.lower[index][self.trim - 1]`,
with `none` the out-of-bounds panic (which `trim = 0` forces). -/

def MeanHist.lowerPiv (st : MeanHist) (index : Nat) : Option Nat :=
  (st.lower.getD index []).get? (wsub1 st.trim)

/-- Embedding of `MeanHist::upper`. -/

def MeanHist.upperPiv (st : MeanHist) (index : Nat) : Option Nat :=
  (st.upper.getD index []).get? (wsub1 st.trim)

/-- Round half away from zero of `s / len`: the exact value of
`((s as f32) / len).round()` at the magnitudes the filter produces. -/

def roundDiv (s : Int) (len : Nat) : Int :=
  if 0 ≤ s then ((s.toNat * 2 + len) / (2 * len) : Nat)
  else -(((-s).toNat * 2 + len) / (2 * len) : Nat)

/-- Saturating `as u8` cast of the rounded `f32`. -/

def toByte (v : Int) : Nat := (iclamp v 0 255).toNat

/-- Embedding of `MeanHist::get_mean`. -/

def MeanHist.get_mean (st : MeanHist) (index : Nat) : Nat :=
  toByte (roundDiv (st.sums.getD index 0) st.len)

/-- Embedding of `MeanHist::get_next_lower`. -/

def MeanHist.get_next_lower (st : MeanHist) (n : Nat) (lowerCount : Int)
    (lower : Nat) : MeanHist :=
  if 0 < lowerCount then
    { st with lower := st.lower.set n ((st.lower.getD n []) ++ [lower]),
              sums := listAddWrap st.sums n (-(lower : Int)) }
  else
    match (List.range' (lower + 1) (255 - lower)).find?
        (fun key => decide (0 < st.data.get_count key n)) with
    | some key =>
      { st with lower := st.lower.set n ((st.lower.getD n []) ++ [key]),
                sums := listAddWrap st.sums n (-(key : Int)) }
    | none => st

/-- Embedding of `MeanHist::get_next_upper`. -/

def MeanHist.get_next_upper (st : MeanHist) (n : Nat) (upperCount : Int)
    (upper : Nat) : MeanHist :=
  if 0 < upperCount then
    { st with upper := st.upper.set n ((st.upper.getD n []) ++ [upper]),
              sums := listAddWrap st.sums n (-(upper : Int)) }
  else
    match (List.range upper).reverse.find?
        (fun key => decide (0 < st.data.get_count key n)) with
    | some key =>
      { st with upper := st.upper.set n ((st.upper.getD n []) ++ [key]),
                sums := listAddWrap st.sums n (-(key : Int)) }
    | none => st

/-- Insertion-side body of `MeanHist::update` for sample `i` of column `n`.
The `val > upper` arm binary-searches `self.lower[n]`, exactly as the
source does at line 366. -/

def MeanHist.addStep (st : MeanHist) (pIn : List (List Nat)) (ci n i : Nat) :
    Option MeanHist := do
  let val := px pIn i ci
  let lower ← st.lowerPiv n
  let upper ← st.upperPiv n
  if val < lower then do
    let l ← vecRemove (st.lower.getD n []) (wsub1 st.trim)
    let sums := listAddWrap st.sums n (lower : Int)
    let pos := (binarySearch (fun e => compare e val) l).elim id id
    let l2 ← vecInsert l pos val
    some { st with lower := st.lower.set n l2, sums := sums }
  else if upper < val then do
    let u ← vecRemove (st.upper.getD n []) (wsub1 st.trim)
    let sums := listAddWrap st.sums n (upper : Int)
    let pos := (binarySearch (fun e => compare val e) (st.lower.getD n [])).elim id id
    let u2 ← vecInsert u pos val
    some { st with upper := st.upper.set n u2, sums := sums }
  else
    some { st with sums := listAddWrap st.sums n (val : Int) }

/-- Removal-side body of `MeanHist::update` for sample `i` of column `n`.
The `val > upper` arm binary-searches `self.lower[n]`, exactly as the
source does at line 428. -/

def MeanHist.removeStep (st : MeanHist) (pIn : List (List Nat)) (ci n i : Nat) :
    Option MeanHist := do
  let val := px pIn i ci
  let lower ← st.lowerPiv n
  let upper ← st.upperPiv n
  let counts := (List.range' i (n + st.data.size - i)).foldl
    (fun (p : Int × Int) j =>
      if px pIn j ci = lower then (p.1 + 1, p.2)
      else if px pIn j ci = upper then (p.1, p.2 + 1)
      else p)
    (st.data.get_count lower n, st.data.get_count upper n)
  let lowerCount := counts.1 - countTrailing (st.lower.getD n []) lower
  let upperCount := counts.2 - countTrailing (st.upper.getD n []) upper
  if val = lower ∧ lowerCount = 0 then do
    let l ← vecRemove (st.lower.getD n []) (wsub1 st.trim)
    some (MeanHist.get_next_lower { st with lower := st.lower.set n l } n lowerCount lower)
  else if val < lower then
    match binarySearch (fun e => compare e val) (st.lower.getD n []) with
    | .inr pos => do
      let l ← vecRemove (st.lower.getD n []) pos
      some (MeanHist.get_next_lower { st with lower := st.lower.set n l } n lowerCount lower)
    | .inl _ => some { st with sums := listAddWrap st.sums n (-(val : Int)) }
  else if val = upper ∧ upperCount = 0 then do
    let u ← vecRemove (st.upper.getD n []) (wsub1 st.trim)
    some (MeanHist.get_next_upper { st with upper := st.upper.set n u } n upperCount upper)
  else if upper < val then
    match binarySearch (fun e => compare val e) (st.lower.getD n []) with
    | .inr pos => do
      let u ← vecRemove (st.upper.getD n []) pos
      some (MeanHist.get_next_upper { st with upper := st.upper.set n u } n upperCount upper)
    | .inl _ => some { st with sums := listAddWrap st.sums n (-(val : Int)) }
  else
    some { st with sums := listAddWrap st.sums n (-(val : Int)) }

/-- Embedding of `MeanHist::update`: before `init` (`sums` empty) only the
bank is updated; on insertion the deques are adjusted before the bank, on
removal after it. -/

def MeanHist.update (st : MeanHist) (pIn : List (List Nat)) (ci : Nat) (add : Bool) :
    Option MeanHist :=
  if st.sums.isEmpty then
    some { st with data := st.data.update pIn ci add }
  else if add then do
    let st2 ← (List.range st.data.nCols).foldlM
      (fun st n =>
        (List.range' n st.data.size).foldlM
          (fun st i => MeanHist.addStep st pIn ci n i) st)
      st
    some { st2 with data := st2.data.update pIn ci add }
  else
    let st2 := { st with data := st.data.update pIn ci add }
    (List.range st2.data.nCols).foldlM
      (fun st n =>
        (List.range' n st.data.size).foldlM
          (fun st i => MeanHist.removeStep st pIn ci n i) st)
      st2

/-- Embedding of `add_row_mean` / `remove_row_mean`. -/

def addRowMean (hists : List MeanHist) (pIn : List (List Nat)) (add : Bool) :
    Option (List MeanHist) :=
  (List.range hists.length).foldlM
    (fun hs c => do
      let h ← MeanHist.update (hs.getD c (MeanHist.new 0 1 0)) pIn c add
      some (hs.set c h))
    hists

/-- Fill loop `while lower.len() < trim && add > 0` of `init_cols_mean`
(the fuel `trim` bounds its iteration count exactly; the `i32` subtraction
from `sum` wraps). -/

def fillLowerGo (trimN key : Nat) : Nat → List Nat × Int × Int → List Nat × Int × Int
  | 0, acc => acc
  | f + 1, (lower, sum, add) =>
    if lower.length < trimN ∧ 0 < add then
      fillLowerGo trimN key f (lower ++ [key], wrap32 (sum - (key : Int)), add - 1)
    else (lower, sum, add)

/-- Fill loop `while count > upper_trim && upper.len() < trim && add > 0`
(`count as usize` is modelled by `Int.toNat`; `count` is non-negative in
every reachable state). -/

def fillUpperGo (trimN upperTrim : Nat) (count : Int) (key : Nat) :
    Nat → List Nat × Int × Int → List Nat × Int × Int
  | 0, acc => acc
  | f + 1, (upper, sum, add) =>
    if upperTrim < count.toNat ∧ upper.length < trimN ∧ 0 < add then
      fillUpperGo trimN upperTrim count key f
        (key :: upper, wrap32 (sum - (key : Int)), add - 1)
    else (upper, sum, add)

/-- Accumulator of the first-mean scan of `init_cols_mean`. -/

structure MeanInit where
  count : Int
  sum : Int
  upper : List Nat
  lower : List Nat
  deriving DecidableEq

/-- Body of the first-mean scan of `init_cols_mean` for one key: `count` and
`sum` are `i32` accumulators (`sum += add * key as i32`), so the
multiplication and both additions wrap via `wrap32`. -/

def initMeanKey (ph : PartHist) (i trimN upperTrim : Nat) (st : MeanInit)
    (key : Nat) : MeanInit :=
  let add := ph.get_count key i
  let count := wrap32 (st.count + add)
  let sum := wrap32 (st.sum + wrap32 (add * (key : Int)))
  let (lower, sum, add) := fillLowerGo trimN key trimN (st.lower, sum, add)
  let (upper, sum, _) := fillUpperGo trimN upperTrim count key trimN (st.upper, sum, add)
  { count := count, sum := sum, upper := upper, lower := lower }

/-- First-mean scan `for key in 0u8..=255` of `init_cols_mean` for one
column. -/

def initMeanColumn (ph : PartHist) (i trimN upperTrim : Nat) : MeanInit :=
  (List.range 256).foldl (initMeanKey ph i trimN upperTrim)
    { count := 0, sum := 0, upper := [], lower := [] }

/-- Embedding of `init_cols_mean`. -/

def initColsMean (input : Image) (output : Image) (hists : List MeanHist)
    (radius alpha nCols x : Nat) : Option (Image × List MeanHist) := do
  let size := 2 * radius + 1
  let hists ← (primeRows input.height radius).foldlM
    (fun hs j => addRowMean hs (rowSlice input nCols radius x j) true) hists
  let hists := hists.map MeanHist.init
  let trimN := alpha / 2
  let upperTrim := size * size - trimN
  some ((List.range nCols).foldl
    (fun (acc : Image × List MeanHist) i =>
      let step := (List.range input.channels).foldl
        (fun (acc2 : List Nat × List MeanHist) c =>
          let h := acc2.2.getD c (MeanHist.new 0 1 0)
          let r := initMeanColumn h.data i trimN upperTrim
          let h := { h with sums := h.sums.set i r.sum,
                            upper := h.upper.set i r.upper,
                            lower := h.lower.set i r.lower }
          (acc2.1 ++ [h.get_mean i], acc2.2.set c h))
        ([], acc.2)
      (acc.1.setPixel (writeCol input.width x i) 0 step.1, step.2))
    (output, hists))

/-- Embedding of `process_row_mean`. -/

def processRowMean (output : Image) (hists : List MeanHist) (nCols x y : Nat) :
    Image :=
  (List.range nCols).foldl
    (fun out i =>
      let pOut := (List.range output.channels).map
        (fun c => (hists.getD c (MeanHist.new 0 1 0)).get_mean i)
      out.setPixel (writeCol output.width x i) y pOut)
    output

/-- Steady-state row step of `process_cols_mean`. -/

def meanRowStep (input : Image) (radius nCols x : Nat)
    (acc : Image × List MeanHist) (j : Nat) : Option (Image × List MeanHist) := do
  let jIn := min (j + radius) (input.height - 1)
  let jOut := (iclamp ((j : Int) - radius - 1) 0 ((input.height : Int) - 1)).toNat
  let pIn := rowSlice input nCols radius x jIn
  let pOut := rowSlice input nCols radius x jOut
  let hists ← addRowMean acc.2 pIn true
  let hists2 ← addRowMean hists pOut false
  some (processRowMean acc.1 hists2 nCols x j, hists2)

/-- Embedding of `process_cols_mean`. -/

def processColsMean (input : Image) (output : Image) (radius alpha nCols x : Nat) :
    Option Image := do
  let hists := List.replicate input.channels (MeanHist.new radius nCols alpha)
  let st ← initColsMean input output hists radius alpha nCols x
  let st2 ← (List.range' 1 (input.height - 1)).foldlM
    (meanRowStep input radius nCols x) st
  some st2.1

/-- Result of `alpha_trimmed_mean_filter`: `Err(InvalidArgError)`, a panic,
or `Ok(output)`. -/

inductive MeanResult where
  | invalidArg : MeanResult
  | panicked : MeanResult
  | ok : Image → MeanResult
  deriving DecidableEq

/-- Mean driver with an explicit strip width. -/

def meanFilterWith (radius alpha nCols : Nat) (input : Image) : Option Image :=
  (stripOrigins input.width nCols).foldlM
    (fun out x => processColsMean input out radius alpha nCols x)
    (Image.blank input)

/-- Embedding of `alpha_trimmed_mean_filter`: eager validation (in `u32`
arithmetic, wrapping on overflow as in release builds), then the strip
driver.  `error::check_even` is modelled from the spec (section 7):
`InvalidArgument` iff `alpha` is odd. -/

def alphaTrimmedMeanFilter (input : Image) (radius alpha : Nat) : MeanResult :=
  let size := (2 * radius + 1) % 2 ^ 32
  if alpha % 2 ≠ 0 then .invalidArg
  else if (size * size) % 2 ^ 32 ≤ alpha then .invalidArg
  else
    match meanFilterWith radius alpha (nColsOf radius) input with
    | some out => .ok out
    | none => .panicked

/-! ### Brute-force references (the spec's sort-and-pick semantics) -/

/-- Insertion into an ascending sorted list. -/

def insertSorted (v : Nat) : List Nat → List Nat
  | [] => [v]
  | w :: ws => if v ≤ w then v :: w :: ws else w :: insertSorted v ws

/-- Insertion sort. -/

def sortList (l : List Nat) : List Nat := l.foldr insertSorted []

/-- Clamp-to-edge `(2r+1)×(2r+1)` window of `(x,y)`, channel `c`. -/

def windowVals (img : Image) (radius x y c : Nat) : List Nat :=
  (List.range (2 * radius + 1)).flatMap
    (fun dy =>
      (List.range (2 * radius + 1)).map
        (fun dx =>
          let xx := (iclamp ((x : Int) + dx - radius) 0 ((img.width : Int) - 1)).toNat
          let yy := (iclamp ((y : Int) + dy - radius) 0 ((img.height : Int) - 1)).toNat
          (img.getPixel xx yy).getD c 0))

/-- Brute-force median: rank `⌊size²/2⌋ + 1` of the sorted window. -/

def bruteMedianPixel (img : Image) (radius x y c : Nat) : Nat :=
  let size := 2 * radius + 1
  (sortList (windowVals img radius x y c)).getD ((size * size) / 2) 0

/-- Brute-force median image. -/

def bruteMedianImage (img : Image) (radius : Nat) : Image :=
  { img with
    data := (List.range img.height).flatMap (fun y =>
      (List.range img.width).flatMap (fun x =>
        (List.range img.channels).map (fun c => bruteMedianPixel img radius x y c))) }

/-- Brute-force alpha-trimmed mean of one pixel:
`round(sum of the middle size² - α sorted samples / (size² - α))`. -/

def bruteMeanPixel (img : Image) (radius alpha x y c : Nat) : Nat :=
  let size := 2 * radius + 1
  let mid := ((sortList (windowVals img radius x y c)).drop (alpha / 2)).take
    (size * size - alpha)
  toByte (roundDiv (mid.foldl (fun a v => a + (v : Int)) 0) (size * size - alpha))

/-- Brute-force alpha-trimmed mean image. -/

def bruteMeanImage (img : Image) (radius alpha : Nat) : Image :=
  { img with
    data := (List.range img.height).flatMap (fun y =>
      (List.range img.width).flatMap (fun x =>
        (List.range img.channels).map (fun c => bruteMeanPixel img radius alpha x y c))) }

/-- Grayscale test image built from a list of rows. -/

def grayImage (rows : List (List Nat)) : Image :=
  { width := (rows.getD 0 []).length, height := rows.length, channels := 1,
    data := rows.flatMap id }


/-! ### Invariant of the partial-histogram bank (claim C3) -/

/-- Pointwise read of the histogram bank: `data[c][v]`. -/

def gd (d : List (List Int)) (c v : Nat) : Int := (d.getD c []).getD v 0

/-- Count of value `v` in the `(2r+1)`-wide window of strip column `i`
of a row slice `p` (offsets `i ≤ k < i + size`), as a signed integer. -/

def windowCount (p : List (List Nat)) (ci size i v : Nat) : Int :=
  ((List.range' i size).countP (fun k => px p k ci == v) : Nat)

/-- Clamped row index. -/

def clampRow (height : Nat) (z : Int) : Nat := (iclamp z 0 ((height : Int) - 1)).toNat

/-- The clamped rows of the window band of output row `t`. -/

def bandList (height radius t : Nat) : List Nat :=
  (List.range (2 * radius + 1)).map
    (fun (u : Nat) => clampRow height ((t : Int) + (u : Int) - radius))

/-- The partial-histogram bank after priming on the top band and `t`
steady-state row steps (one entering and one leaving row each), exactly as
`process_cols_med` / `process_cols_mean` drive it. -/

def phRun (rowOf : Nat → List (List Nat)) (ci height radius nCols t : Nat) : PartHist :=
  let primed := (primeRows height radius).foldl
    (fun s r => s.update (rowOf r) ci true) (PartHist.new radius nCols)
  (List.range' 1 t).foldl
    (fun s j =>
      (s.update (rowOf (min (j + radius) (height - 1))) ci true).update
        (rowOf ((iclamp ((j : Int) - radius - 1) 0 ((height : Int) - 1)).toNat)) ci false)
    primed

/-- Well-formedness of a bank matrix: `nCols` histograms of 256 bins. -/

def HWF (nCols : Nat) (d : List (List Int)) : Prop :=
  d.length = nCols ∧ ∀ l ∈ d, l.length = 256

def DeltaBank (ph : PartHist) (v : Nat) (W : Int) : Prop :=
  HWF ph.nCols ph.data ∧
  ∀ i k, i < ph.nCols → k < 256 → ph.get_count k i = if k = v then W else 0

def MState (v : Nat) (s : Int) (p : Nat) (h : MedianHist) : Prop :=
  h.data.nCols = 1 ∧ h.data.nHalf = 0 ∧ h.data.radius = 0 ∧ h.data.size = 1 ∧
  DeltaBank h.data v 1 ∧ h.sums = [s] ∧ h.pivots = [p]

def StripInv (input out0 : Image) (x j : Nat) (st : Image × List MedianHist) : Prop :=
  st.1.width = input.width ∧ st.1.height = input.height ∧
  st.1.channels = input.channels ∧ st.1.data.length = out0.data.length ∧
  (∀ y c, y < input.height → c < input.channels →
    st.1.data.getD ((y * input.width + x) * input.channels + c) 0 =
      if y ≤ j then input.data.getD ((y * input.width + x) * input.channels + c) 0
      else out0.data.getD ((y * input.width + x) * input.channels + c) 0) ∧
  (∀ q, (∀ y c, y < input.height → c < input.channels →
      q ≠ (y * input.width + x) * input.channels + c) →
    st.1.data.getD q 0 = out0.data.getD q 0) ∧
  st.2.length = input.channels ∧
  (∀ c, c < input.channels →
    MState (px (rowSlice input 1 0 x j) 0 c) 0 (px (rowSlice input 1 0 x j) 0 c)
      (st.2.getD c (MedianHist.new 0 1)))

def constImage (w h ch k : Nat) : Image :=
  { width := w, height := h, channels := ch, data := List.replicate (w * h * ch) k }

def pivPrefix (N k i0 : Nat) : List Nat :=
  (List.range N).map (fun i => if i < i0 then k else 0)

def CState9 (N radius k : Nat) (piv : List Nat) (h : MedianHist) : Prop :=
  h.data.nCols = N ∧ h.data.nHalf = N / 2 ∧ h.data.radius = radius ∧
  h.data.size = 2 * radius + 1 ∧
  DeltaBank h.data k (((2 * radius + 1 : Nat) : Int) * ((2 * radius + 1 : Nat) : Int)) ∧
  h.sums = List.replicate N 0 ∧ h.pivots = piv

def initColsMedStep (input : Image) (center : Int) (x : Nat)
    (acc : Image × List MedianHist) (i : Nat) : Option (Image × List MedianHist) :=
  ((List.range input.channels).foldlM (initMedChannel center i) ([], acc.2)).bind
    (fun p => some (acc.1.setPixel (writeCol input.width x i) 0 p.1, setPivotsMed p.2 p.1 i))

def processRowMedStep (output : Image) (center : Int) (x y : Nat)
    (acc : Image × List MedianHist) (i : Nat) : Option (Image × List MedianHist) :=
  ((List.range output.channels).foldlM (rowMedChannel center i) ([], acc.2)).bind
    (fun p => some (acc.1.setPixel (writeCol output.width x i) y p.1, setPivotsMed p.2 p.1 i))

def StripInv9 (w h ch k N radius : Nat) (out0 : Image) (x j : Nat)
    (st : Image × List MedianHist) : Prop :=
  st.1.width = w ∧ st.1.height = h ∧ st.1.channels = ch ∧
  st.1.data.length = w * h * ch ∧
  (∀ y c i', y ≤ j → y < h → c < ch → i' < N →
    st.1.data.getD ((y * w + writeCol w x i') * ch + c) 0 = k) ∧
  (∀ q, st.1.data.getD q 0 = k ∨ st.1.data.getD q 0 = out0.data.getD q 0) ∧
  st.2.length = ch ∧
  (∀ c, c < ch → CState9 N radius k (List.replicate N k)
    (st.2.getD c (MedianHist.new 0 1)))

def prefList {α : Type} (N : Nat) (a b : α) (n0 : Nat) : List α :=
  (List.range N).map (fun n => if n < n0 then b else a)

def MeanCState (N radius alpha k : Nat) (Wb : Int) (sums : List Int)
    (lo up : List (List Nat)) (h : MeanHist) : Prop :=
  h.data.nCols = N ∧ h.data.nHalf = N / 2 ∧ h.data.radius = radius ∧
  h.data.size = 2 * radius + 1 ∧
  DeltaBank h.data k Wb ∧
  h.sums = sums ∧ h.lower = lo ∧ h.upper = up ∧
  h.trim = alpha / 2 ∧ h.len = (2 * radius + 1) * (2 * radius + 1) - alpha

def initMeanChanBody (i trimN upperTrim : Nat) (acc2 : List Nat × List MeanHist)
    (c : Nat) : List Nat × List MeanHist :=
  let h := acc2.2.getD c (MeanHist.new 0 1 0)
  let r := initMeanColumn h.data i trimN upperTrim
  let h := { h with sums := h.sums.set i r.sum,
                    upper := h.upper.set i r.upper,
                    lower := h.lower.set i r.lower }
  (acc2.1 ++ [h.get_mean i], acc2.2.set c h)

def initMeanColStep (input : Image) (x trimN upperTrim : Nat)
    (acc : Image × List MeanHist) (i : Nat) : Image × List MeanHist :=
  (acc.1.setPixel (writeCol input.width x i) 0
    ((List.range input.channels).foldl (initMeanChanBody i trimN upperTrim) ([], acc.2)).1,
   ((List.range input.channels).foldl (initMeanChanBody i trimN upperTrim) ([], acc.2)).2)

def InitMState (N radius alpha k i : Nat) (h : MeanHist) : Prop :=
  MeanCState N radius alpha k
    (((2 * radius + 1 : Nat) : Int) * ((2 * radius + 1 : Nat) : Int))
    (prefList N 0 ((((2 * radius + 1) * (2 * radius + 1) - alpha : Nat) : Int) * (k : Int)) i)
    (prefList N [] (List.replicate (alpha / 2) k) i)
    (prefList N [] (List.replicate (alpha / 2) k) i) h

def SteadyM (N radius alpha k : Nat) (h : MeanHist) : Prop :=
  MeanCState N radius alpha k
    (((2 * radius + 1 : Nat) : Int) * ((2 * radius + 1 : Nat) : Int))
    (List.replicate N
      ((((2 * radius + 1) * (2 * radius + 1) - alpha : Nat) : Int) * (k : Int)))
    (List.replicate N (List.replicate (alpha / 2) k))
    (List.replicate N (List.replicate (alpha / 2) k)) h

def MidM (N radius alpha k : Nat) (h : MeanHist) : Prop :=
  MeanCState N radius alpha k
    (((2 * radius + 1 : Nat) : Int) * ((2 * radius + 1 : Nat) : Int) +
      ((2 * radius + 1 : Nat) : Int))
    (List.replicate N
      ((((2 * radius + 1) * (2 * radius + 1) - alpha : Nat) : Int) * (k : Int) +
        ((2 * radius + 1 : Nat) : Int) * (k : Int)))
    (List.replicate N (List.replicate (alpha / 2) k))
    (List.replicate N (List.replicate (alpha / 2) k)) h

def StripInvM (w h ch k N radius alpha : Nat) (out0 : Image) (x j : Nat)
    (st : Image × List MeanHist) : Prop :=
  st.1.width = w ∧ st.1.height = h ∧ st.1.channels = ch ∧
  st.1.data.length = w * h * ch ∧
  (∀ y c i', y ≤ j → y < h → c < ch → i' < N →
    st.1.data.getD ((y * w + writeCol w x i') * ch + c) 0 = k) ∧
  (∀ q, st.1.data.getD q 0 = k ∨ st.1.data.getD q 0 = out0.data.getD q 0) ∧
  st.2.length = ch ∧
  (∀ c, c < ch → SteadyM N radius alpha k (st.2.getD c (MeanHist.new 0 1 0)))

def img63 : Image := grayImage
  [[0, 0, 0, 0, 0, 0],
   [0, 0, 0, 0, 0, 1],
   [0, 0, 0, 0, 0, 1]]

/-- Output of `median_filter(img63, 1)` (computed by the embedding). -/

def medOut63 : Image := ⟨6, 3, 1, [0,0,0,0,0,0, 0,0,0,0,0,1, 0,0,0,0,0,1]⟩

/-- Output of the `n_cols = 1` driver on `img63` (equal to the brute-force
median). -/

def med63cols1 : Image := ⟨6, 3, 1, [0,0,0,0,0,0, 0,0,0,0,0,0, 0,0,0,0,0,1]⟩

/-- An all-zero 6×3 image. -/

def z63 : Image := ⟨6, 3, 1, List.replicate 18 0⟩

/-- Scenario S2 of the spec: 3×3 grayscale with a single 255 at the centre. -/

def imgS2 : Image := grayImage [[0,0,0],[0,255,0],[0,0,0]]

/-- Test image for the trimmed mean with `alpha = 4`: one strip, no
truncation. -/

def imgC2 : Image := grayImage [[0,0,10,0,0],[0,0,30,0,0]]

/-- Histogram literal: 256 zero bins overwritten at the given positions. -/

def histo (ps : List (Nat × Int)) : List Int :=
  ps.foldl (fun h p => h.set p.1 p.2) (List.replicate 256 0)

/-- The partial-histogram bank of the `imgC2` strip after priming
(channel 0, strip origin 0): the top-clamped band is row 0 twice plus
row 1, so the central column 2 sees `{0,0,0,0,0,0,10,10,30}`. -/

def phC2 : PartHist :=
  { data := [histo [(0,3),(10,-2),(30,-1)], histo [], histo [(0,6),(10,2),(30,1)],
             histo [], histo [(0,3),(10,-2),(30,-1)]],
    nCols := 5, nHalf := 2, radius := 1, size := 3 }

/-- The `MeanHist` of the `imgC2` strip right after priming (before
`init`, so the vectors are still empty). -/

def mhPrimedC2 : MeanHist :=
  { data := phC2, sums := [], lower := [], upper := [], trim := 2, len := 5 }

/-- Result of the first-mean scan of column 2 of `phC2`: both 10s were
moved into the upper deque, leaving the 30 in the middle set (`sum = 30`). -/

def miC2 : MeanInit := { count := 9, sum := 30, upper := [10, 10], lower := [0, 0] }

/-- Engine state for the insertion counterexample: a column whose window is
`{0,0,0,0,0,0,10,10,30}` with `trim = 2`: `lower = [0,0]`, descending
`upper = [30,10]`, middle-set sum `10`. -/

def mhC4 : MeanHist :=
  { data := { data := [histo [(0,6),(10,2),(30,1)]], nCols := 1, nHalf := 0,
              radius := 1, size := 3 },
    sums := [10], lower := [[0,0]], upper := [[30,10]], trim := 2, len := 5 }

/-- Engine state for the removal counterexample: window
`{0,0,0,0,0,10,10,25,30}` with `lower = [0,0]`, `upper = [30,25]`, middle
sum `20`; the bank already reflects the removal of the row `[30,0,0]`. -/

def mhC4b : MeanHist :=
  { data := { data := [histo [(0,3),(10,2),(25,1)]], nCols := 1, nHalf := 0,
              radius := 1, size := 3 },
    sums := [20], lower := [[0,0]], upper := [[30,25]], trim := 2, len := 5 }

/-- Insertion into a descending sorted list at its sorted position — the
spec's rule for the upper deque. -/

def insertDesc (v : Nat) : List Nat → List Nat
  | [] => [v]
  | w :: ws => if w ≤ v then v :: w :: ws else w :: insertDesc v ws

/-! ### Auxiliary evaluation lemmas -/

set_option maxRecDepth 3000

/-- Evaluation of the reference driver (strip width 5) on `img63`. -/

theorem getD_set_eqD {α : Type} (l : List α) (i j : Nat) (a d : α) :
    (l.set i a).getD j d = if i = j ∧ i < l.length then a else l.getD j d := by
  rw [List.getD_eq_getElem?_getD, List.getElem?_set, List.getD_eq_getElem?_getD]
  by_cases hij : i = j
  · subst hij
    by_cases hl : i < l.length
    · simp [hl]
    · have : l[i]? = none := List.getElem?_eq_none (by omega)
      simp [hl, this]
  · simp [hij]

theorem getD_mem_of_lt {α : Type} (l : List α) (i : Nat) (d : α) (h : i < l.length) :
    l.getD i d ∈ l := by
  rw [List.getD_eq_getElem?_getD, List.getElem?_eq_getElem h, Option.getD_some]
  exact List.getElem_mem h

theorem hwf_new (radius nCols : Nat) : HWF nCols (PartHist.new radius nCols).data := by
  constructor
  · exact List.length_replicate ..
  · intro l hl
    have := List.eq_of_mem_replicate hl
    rw [this]
    exact List.length_replicate ..

theorem hwf_hset {nCols : Nat} {d : List (List Int)} (col k : Nat) (c : Int)
    (hcol : col < nCols) (hwf : HWF nCols d) : HWF nCols (hset d col k c) := by
  obtain ⟨hlen, hmem⟩ := hwf
  refine ⟨by simp [hset, hlen], ?_⟩
  intro l hl
  rw [hset] at hl
  rcases List.mem_or_eq_of_mem_set hl with h | h
  · exact hmem l h
  · subst h
    rw [List.length_set]
    exact hmem _ (getD_mem_of_lt _ _ _ (by omega))

theorem gd_hset {nCols : Nat} {d : List (List Int)} (col k : Nat) (c : Int) (c' v : Nat)
    (hcol : col < nCols) (hk : k < 256) (hwf : HWF nCols d) :
    gd (hset d col k c) c' v = gd d c' v + if c' = col ∧ v = k then c else 0 := by
  obtain ⟨hlen, hmem⟩ := hwf
  have hrowlen : (d.getD col []).length = 256 := hmem _ (getD_mem_of_lt _ _ _ (by omega))
  rw [gd, gd, hset, getD_set_eqD]
  by_cases hc : col = c'
  · subst hc
    rw [if_pos ⟨rfl, by omega⟩, getD_set_eqD]
    by_cases hv : k = v
    · subst hv
      rw [if_pos ⟨rfl, by omega⟩, if_pos ⟨rfl, rfl⟩]
    · rw [if_neg (by tauto), if_neg (by tauto)]
      ring
  · rw [if_neg (by tauto), if_neg (by tauto)]
    ring

theorem hwf_innerStep (st : PartHist) (val : Nat → Nat) (inc : Int) (n i : Nat)
    (d : List (List Int)) (hodd : st.nCols = 2 * st.nHalf + 1) (hn : n < st.nHalf)
    (hwf : HWF st.nCols d) : HWF st.nCols (st.innerStep val inc n d i) := by
  rw [PartHist.innerStep]
  exact hwf_hset _ _ _ (by omega) (hwf_hset _ _ _ (by omega)
    (hwf_hset _ _ _ (by omega) (hwf_hset _ _ _ (by omega) hwf)))

theorem gd_innerStep (st : PartHist) (val : Nat → Nat) (inc : Int) (n i : Nat)
    (d : List (List Int)) (hodd : st.nCols = 2 * st.nHalf + 1) (hn : n < st.nHalf)
    (hval : ∀ j, val j < 256) (hwf : HWF st.nCols d) (c' v : Nat) :
    gd (st.innerStep val inc n d i) c' v =
      gd d c' v
      + ((if c' = n ∧ v = val i then inc else 0)
        - (if c' = n ∧ v = val (i + st.size) then inc else 0))
      + ((if c' = st.nCols - n - 1 ∧ v = val (st.nCols + 2 * st.radius - i - 1) then inc else 0)
        - (if c' = st.nCols - n - 1 ∧
              v = val (st.nCols + 2 * st.radius - i - 1 - st.size) then inc else 0)) := by
  rw [PartHist.innerStep]
  have h1 : HWF st.nCols (hset d n (val i) inc) :=
    hwf_hset n (val i) inc (by omega) hwf
  have h2 : HWF st.nCols (hset (hset d n (val i) inc) n (val (i + st.size)) (-inc)) :=
    hwf_hset n (val (i + st.size)) (-inc) (by omega) h1
  have h3 : HWF st.nCols
      (hset (hset (hset d n (val i) inc) n (val (i + st.size)) (-inc)) (st.nCols - n - 1)
        (val (st.nCols + 2 * st.radius - i - 1 - st.size)) (-inc)) :=
    hwf_hset (st.nCols - n - 1)
      (val (st.nCols + 2 * st.radius - i - 1 - st.size)) (-inc) (by omega) h2
  rw [gd_hset _ _ _ _ _ (by omega) (hval _) h3,
      gd_hset _ _ _ _ _ (by omega) (hval _) h2,
      gd_hset _ _ _ _ _ (by omega) (hval _) h1,
      gd_hset _ _ _ _ _ (by omega) (hval _) hwf]
  split_ifs <;> ring

theorem hwf_innerFold (st : PartHist) (val : Nat → Nat) (inc : Int) (n : Nat)
    (L : List Nat) (d : List (List Int))
    (hodd : st.nCols = 2 * st.nHalf + 1) (hn : n < st.nHalf)
    (hwf : HWF st.nCols d) : HWF st.nCols (L.foldl (st.innerStep val inc n) d) := by
  induction L generalizing d with
  | nil => exact hwf
  | cons a L ih =>
    rw [List.foldl_cons]
    exact ih _ (hwf_innerStep st val inc n a d hodd hn hwf)

theorem countP_cons_int (p : Nat → Bool) (a : Nat) (L : List Nat) :
    ((List.countP p (a :: L) : Nat) : Int) =
      ((List.countP p L : Nat) : Int) + if p a then 1 else 0 := by
  rw [List.countP_cons]
  push_cast
  rfl

theorem gd_innerFold (st : PartHist) (val : Nat → Nat) (inc : Int) (n : Nat)
    (L : List Nat) (d : List (List Int))
    (hodd : st.nCols = 2 * st.nHalf + 1) (hn : n < st.nHalf)
    (hval : ∀ j, val j < 256) (hwf : HWF st.nCols d) (c' v : Nat) :
    gd (L.foldl (st.innerStep val inc n) d) c' v =
      gd d c' v
      + (if c' = n then
          inc * ((L.countP (fun i => decide (v = val i)) : Int)
            - (L.countP (fun i => decide (v = val (i + st.size))) : Int))
        else 0)
      + (if c' = st.nCols - n - 1 then
          inc * ((L.countP (fun i => decide (v = val (st.nCols + 2 * st.radius - i - 1))) : Int)
            - (L.countP (fun i =>
                decide (v = val (st.nCols + 2 * st.radius - i - 1 - st.size))) : Int))
        else 0) := by
  have hne : ¬ n = st.nCols - n - 1 := by omega
  induction L generalizing d with
  | nil => simp
  | cons a L ih =>
    rw [List.foldl_cons, ih _ (hwf_innerStep st val inc n a d hodd hn hwf),
      gd_innerStep st val inc n a d hodd hn hval hwf c' v,
      countP_cons_int, countP_cons_int, countP_cons_int, countP_cons_int]
    simp only [decide_eq_true_eq]
    by_cases hn1 : c' = n
    · subst hn1
      simp only [if_pos rfl, if_neg hne, hne, false_and, if_false, eq_self_iff_true, true_and]
      by_cases hv1 : v = val a <;> by_cases hv2 : v = val (a + st.size) <;>
        simp only [hv1, hv2, if_pos rfl, if_true, if_false, eq_self_iff_true] <;>
        · first | (split_ifs <;> ring) | ring
    · by_cases hn2 : c' = st.nCols - n - 1
      · subst hn2
        simp only [if_pos rfl, if_neg hn1, hn1, false_and, if_false, eq_self_iff_true, true_and]
        by_cases hv3 : v = val (st.nCols + 2 * st.radius - a - 1) <;>
          by_cases hv4 : v = val (st.nCols + 2 * st.radius - a - 1 - st.size) <;>
          simp only [hv3, hv4, if_pos rfl, if_true, if_false, eq_self_iff_true] <;>
          · first | (split_ifs <;> ring) | ring
      · simp only [if_neg hn1, if_neg hn2, hn1, hn2, false_and, if_false]
        ring

theorem hwf_outerFold (st : PartHist) (val : Nat → Nat) (inc : Int)
    (a b : Nat) (d : List (List Int))
    (hodd : st.nCols = 2 * st.nHalf + 1) (hab : a + b ≤ st.nHalf)
    (hwf : HWF st.nCols d) :
    HWF st.nCols ((List.range' a b).foldl
      (fun d n => (List.range' n (st.nHalf - n)).foldl (st.innerStep val inc n) d) d) := by
  induction b generalizing a d with
  | zero => exact hwf
  | succ b ih =>
    rw [List.range'_succ, List.foldl_cons]
    exact ih (a + 1) _ (by omega)
      (hwf_innerFold st val inc a _ d hodd (by omega) hwf)

theorem gd_outerFold (st : PartHist) (val : Nat → Nat) (inc : Int)
    (a b : Nat) (d : List (List Int))
    (hodd : st.nCols = 2 * st.nHalf + 1) (hab : a + b ≤ st.nHalf)
    (hval : ∀ j, val j < 256) (hwf : HWF st.nCols d) (c' v : Nat) :
    gd ((List.range' a b).foldl
      (fun d n => (List.range' n (st.nHalf - n)).foldl (st.innerStep val inc n) d) d) c' v =
      gd d c' v
      + (if a ≤ c' ∧ c' < a + b then
          inc * (((List.range' c' (st.nHalf - c')).countP (fun i => decide (v = val i)) : Int)
            - ((List.range' c' (st.nHalf - c')).countP
                (fun i => decide (v = val (i + st.size))) : Int))
        else 0)
      + (if a ≤ st.nCols - c' - 1 ∧ st.nCols - c' - 1 < a + b ∧ c' < st.nCols then
          inc * (((List.range' (st.nCols - c' - 1) (st.nHalf - (st.nCols - c' - 1))).countP
              (fun i => decide (v = val (st.nCols + 2 * st.radius - i - 1))) : Int)
            - ((List.range' (st.nCols - c' - 1) (st.nHalf - (st.nCols - c' - 1))).countP
                (fun i => decide (v = val (st.nCols + 2 * st.radius - i - 1 - st.size))) : Int))
        else 0) := by
  induction b generalizing a d with
  | zero =>
    rw [if_neg (by omega), if_neg (by omega)]
    simp
  | succ b ih =>
    rw [List.range'_succ, List.foldl_cons,
      ih (a + 1) _ (by omega) (hwf_innerFold st val inc a _ d hodd (by omega) hwf),
      gd_innerFold st val inc a _ d hodd (by omega) hval hwf c' v]
    by_cases h1 : c' = a
    · rw [h1]
      have e2 : (a = st.nCols - a - 1) = False := eq_false (by omega)
      have e3 : (a + 1 ≤ a ∧ a < a + 1 + b) = False := eq_false (by omega)
      have e4 : (a + 1 ≤ st.nCols - a - 1 ∧ st.nCols - a - 1 < a + 1 + b ∧
          a < st.nCols) = False := eq_false (by omega)
      have e5 : (a ≤ a ∧ a < a + (b + 1)) = True := eq_true (by omega)
      have e6 : (a ≤ st.nCols - a - 1 ∧ st.nCols - a - 1 < a + (b + 1) ∧
          a < st.nCols) = False := eq_false (by omega)
      simp only [e2, e3, e4, e5, e6, eq_self_iff_true, if_true, if_false]
      ring
    · by_cases h2 : c' = st.nCols - a - 1
      · have ha : st.nCols - c' - 1 = a := by omega
        rw [ha]
        have e1 : (c' = a) = False := eq_false h1
        have e2 : (c' = st.nCols - a - 1) = True := eq_true h2
        have e3 : (a + 1 ≤ c' ∧ c' < a + 1 + b) = False := eq_false (by omega)
        have e4 : (a + 1 ≤ a ∧ a < a + 1 + b ∧ c' < st.nCols) = False := eq_false (by omega)
        have e5 : (a ≤ c' ∧ c' < a + (b + 1)) = False := eq_false (by omega)
        have e6 : (a ≤ a ∧ a < a + (b + 1) ∧ c' < st.nCols) = True := eq_true (by omega)
        simp only [e1, e2, e3, e4, e5, e6, if_true, if_false]
        ring
      · have e1 : (c' = a) = False := eq_false h1
        have e2 : (c' = st.nCols - a - 1) = False := eq_false h2
        have h5 : (a + 1 ≤ c' ∧ c' < a + 1 + b) ↔ (a ≤ c' ∧ c' < a + (b + 1)) := by omega
        have h6 : (a + 1 ≤ st.nCols - c' - 1 ∧ st.nCols - c' - 1 < a + 1 + b ∧
            c' < st.nCols) ↔
            (a ≤ st.nCols - c' - 1 ∧ st.nCols - c' - 1 < a + (b + 1) ∧
              c' < st.nCols) := by
          constructor
          · rintro ⟨x1, x2, x3⟩
            exact ⟨by omega, by omega, x3⟩
          · rintro ⟨x1, x2, x3⟩
            refine ⟨?_, by omega, x3⟩
            rcases Nat.eq_or_lt_of_le x1 with h | h
            · exfalso
              omega
            · omega
        simp only [e1, e2, if_false]
        rw [if_congr h5 rfl rfl, if_congr h6 rfl rfl]
        ring

theorem hwf_centralFold (st : PartHist) (val : Nat → Nat) (inc : Int)
    (s m : Nat) (d : List (List Int)) (hhalf : st.nHalf < st.nCols)
    (hwf : HWF st.nCols d) :
    HWF st.nCols ((List.range' s m).foldl (fun d i => hset d st.nHalf (val i) inc) d) := by
  induction m generalizing s d with
  | zero => exact hwf
  | succ m ih =>
    rw [List.range'_succ, List.foldl_cons]
    exact ih (s + 1) _ (hwf_hset _ _ _ hhalf hwf)

theorem gd_centralFold (st : PartHist) (val : Nat → Nat) (inc : Int)
    (s m : Nat) (d : List (List Int)) (hhalf : st.nHalf < st.nCols)
    (hval : ∀ j, val j < 256) (hwf : HWF st.nCols d) (c' v : Nat) :
    gd ((List.range' s m).foldl (fun d i => hset d st.nHalf (val i) inc) d) c' v =
      gd d c' v + if c' = st.nHalf then
        inc * ((List.range' s m).countP (fun i => decide (v = val i)) : Int)
      else 0 := by
  induction m generalizing s d with
  | zero => simp
  | succ m ih =>
    rw [List.range'_succ, List.foldl_cons, ih (s + 1) _ (hwf_hset _ _ _ hhalf hwf),
      gd_hset _ _ _ _ _ hhalf (hval s) hwf, countP_cons_int]
    simp only [decide_eq_true_eq]
    by_cases hc : c' = st.nHalf
    · rw [hc]
      simp only [eq_self_iff_true, if_true, true_and]
      by_cases hv : v = val s
      · simp only [hv, eq_self_iff_true, if_true]
        ring
      · simp only [hv, if_false, if_neg hv]
        ring
    · simp only [if_neg hc, hc, false_and, if_false]
      ring

theorem hwf_update (st : PartHist) (pIn : List (List Nat)) (ci : Nat) (add : Bool)
    (hodd : st.nCols = 2 * st.nHalf + 1) (hwf : HWF st.nCols st.data) :
    HWF st.nCols (st.update pIn ci add).data := by
  rw [PartHist.update]
  have h1 : HWF st.nCols ((List.range st.nHalf).foldl
      (fun d n => (List.range' n (st.nHalf - n)).foldl
        (st.innerStep (fun i => px pIn i ci) (if add then 1 else -1) n) d) st.data) := by
    rw [List.range_eq_range']
    exact hwf_outerFold st _ _ 0 st.nHalf st.data hodd (by omega) hwf
  exact hwf_centralFold st _ _ st.nHalf st.size _ (by omega) h1

theorem update_fields (st : PartHist) (pIn : List (List Nat)) (ci : Nat) (add : Bool) :
    (st.update pIn ci add).nCols = st.nCols ∧ (st.update pIn ci add).nHalf = st.nHalf ∧
    (st.update pIn ci add).radius = st.radius ∧ (st.update pIn ci add).size = st.size := by
  rw [PartHist.update]
  exact ⟨rfl, rfl, rfl, rfl⟩

theorem countP_range'_shift (q : Nat → Bool) (t : Nat) :
    ∀ (m s : Nat), (List.range' s m).countP (fun k => q (k + t)) =
      (List.range' (s + t) m).countP q := by
  intro m
  induction m with
  | zero => intro s; rfl
  | succ m ih =>
    intro s
    rw [List.range'_succ, List.range'_succ, List.countP_cons, List.countP_cons, ih (s + 1)]
    have : s + 1 + t = s + t + 1 := by omega
    rw [this]

theorem countP_range'_interval (q : Nat → Bool) (a m : Nat) :
    ((List.range' a m).countP q : Int) =
      ((List.range' 0 (a + m)).countP q : Int) - ((List.range' 0 a).countP q : Int) := by
  have h := List.range'_append_1 0 a m
  rw [Nat.zero_add] at h
  have e : List.range' 0 (a + m) = List.range' 0 a ++ List.range' a m := by
    rw [h]
    rw [Nat.add_comm]
  rw [e, List.countP_append]
  push_cast
  ring

theorem countP_range'_reflect (q : Nat → Bool) (C : Nat) :
    ∀ (m n : Nat), n + m ≤ C + 1 →
      (List.range' n m).countP (fun j => q (C - j)) =
        (List.range' (C + 1 - n - m) m).countP q := by
  intro m
  induction m with
  | zero => intro n _; rfl
  | succ m ih =>
    intro n hnm
    rw [List.range'_succ, List.countP_cons, ih (n + 1) (by omega)]
    have h1 : C + 1 - (n + 1) - m = C - n - m := by omega
    have h2 : C + 1 - n - (m + 1) = C - n - m := by omega
    rw [h1, h2]
    have h3 : List.range' (C - n - m) (m + 1) = List.range' (C - n - m) m ++ [C - n] := by
      rw [List.range'_concat, Nat.one_mul]
      have e4 : C - n - m + m = C - n := by omega
      rw [e4]
    rw [h3, List.countP_append]
    simp only [List.countP_cons, List.countP_nil]
    omega

theorem windowCount_eq (p : List (List Nat)) (ci size i v : Nat) :
    windowCount p ci size i v =
      (((List.range' i size).countP (fun k => decide (v = px p k ci)) : Nat) : Int) := by
  rw [windowCount]
  norm_cast
  apply List.countP_congr
  intro k _
  simp only [beq_iff_eq, decide_eq_true_eq]
  exact eq_comm

theorem get_count_eq (st : PartHist) (v i : Nat) :
    st.get_count v i = if i = st.nHalf then gd st.data st.nHalf v
      else gd st.data st.nHalf v + gd st.data i v := by
  rw [PartHist.get_count]
  by_cases h : i = st.nHalf
  · simp only [h, ne_eq, not_true_eq_false, if_false, if_pos rfl]
    rfl
  · simp only [ne_eq, h, not_false_eq_true, if_true, if_neg h]
    rfl

theorem update_data_eq (st : PartHist) (pIn : List (List Nat)) (ci : Nat) (add : Bool) :
    (st.update pIn ci add).data =
      (List.range' st.nHalf st.size).foldl
        (fun d i => hset d st.nHalf (px pIn i ci) (if add then 1 else -1))
        ((List.range' 0 st.nHalf).foldl
          (fun d n => (List.range' n (st.nHalf - n)).foldl
            (st.innerStep (fun i => px pIn i ci) (if add then 1 else -1) n) d)
          st.data) := by
  rw [PartHist.update, List.range_eq_range']

theorem get_count_update (st : PartHist) (pIn : List (List Nat)) (ci : Nat) (add : Bool)
    (hodd : st.nCols = 2 * st.nHalf + 1) (hsz : st.size = 2 * st.radius + 1)
    (hwf : HWF st.nCols st.data)
    (hpx : ∀ k, px pIn k ci < 256) (i v : Nat) (hi : i < st.nCols) (hv : v < 256) :
    (st.update pIn ci add).get_count v i =
      st.get_count v i + (if add then 1 else -1) * windowCount pIn ci st.size i v := by
  have hval : ∀ j, (fun k => px pIn k ci) j < 256 := fun j => hpx j
  have hwf1 : HWF st.nCols ((List.range' 0 st.nHalf).foldl
      (fun d n => (List.range' n (st.nHalf - n)).foldl
        (st.innerStep (fun k => px pIn k ci) (if add then 1 else -1) n) d)
      st.data) :=
    hwf_outerFold st _ _ 0 st.nHalf st.data hodd (by omega) hwf
  have hgc : (st.update pIn ci add).get_count v i =
      if i = st.nHalf then gd (st.update pIn ci add).data st.nHalf v
      else gd (st.update pIn ci add).data st.nHalf v + gd (st.update pIn ci add).data i v := by
    rw [get_count_eq, (update_fields st pIn ci add).2.1]
  have hcent : ∀ c', gd (st.update pIn ci add).data c' v =
      gd ((List.range' 0 st.nHalf).foldl
        (fun d n => (List.range' n (st.nHalf - n)).foldl
          (st.innerStep (fun k => px pIn k ci) (if add then 1 else -1) n) d)
        st.data) c' v +
      if c' = st.nHalf then (if add then (1 : Int) else -1) *
        ((List.range' st.nHalf st.size).countP (fun k => decide (v = px pIn k ci)) : Int)
      else 0 := by
    intro c'
    rw [update_data_eq]
    exact gd_centralFold st _ _ st.nHalf st.size _ (by omega) hval hwf1 c' v
  have houter : ∀ c', gd ((List.range' 0 st.nHalf).foldl
      (fun d n => (List.range' n (st.nHalf - n)).foldl
        (st.innerStep (fun k => px pIn k ci) (if add then 1 else -1) n) d)
      st.data) c' v =
      gd st.data c' v
      + (if 0 ≤ c' ∧ c' < 0 + st.nHalf then
          (if add then (1 : Int) else -1) *
          (((List.range' c' (st.nHalf - c')).countP
              (fun k => decide (v = px pIn k ci)) : Int)
            - ((List.range' c' (st.nHalf - c')).countP
                (fun k => decide (v = px pIn (k + st.size) ci)) : Int))
        else 0)
      + (if 0 ≤ st.nCols - c' - 1 ∧ st.nCols - c' - 1 < 0 + st.nHalf ∧ c' < st.nCols then
          (if add then (1 : Int) else -1) *
          (((List.range' (st.nCols - c' - 1) (st.nHalf - (st.nCols - c' - 1))).countP
              (fun k => decide (v = px pIn (st.nCols + 2 * st.radius - k - 1) ci)) : Int)
            - ((List.range' (st.nCols - c' - 1) (st.nHalf - (st.nCols - c' - 1))).countP
                (fun k =>
                  decide (v = px pIn (st.nCols + 2 * st.radius - k - 1 - st.size) ci)) : Int))
        else 0) :=
    fun c' => gd_outerFold st _ _ 0 st.nHalf st.data hodd (by omega) hval hwf c' v
  rw [hgc, get_count_eq, windowCount_eq]
  by_cases hcase : i = st.nHalf
  · rw [hcase]
    rw [if_pos rfl, if_pos rfl, hcent, houter]
    have g1 : (0 ≤ st.nHalf ∧ st.nHalf < 0 + st.nHalf) = False := eq_false (by omega)
    have g2 : (0 ≤ st.nCols - st.nHalf - 1 ∧ st.nCols - st.nHalf - 1 < 0 + st.nHalf ∧
        st.nHalf < st.nCols) = False := eq_false (by omega)
    simp only [g1, g2, eq_self_iff_true, if_true, if_false]
    ring
  · rw [if_neg hcase, if_neg hcase, hcent, hcent, houter, houter]
    have gc1 : (i = st.nHalf) = False := eq_false hcase
    have g1 : (0 ≤ st.nHalf ∧ st.nHalf < 0 + st.nHalf) = False := eq_false (by omega)
    have g2 : (0 ≤ st.nCols - st.nHalf - 1 ∧ st.nCols - st.nHalf - 1 < 0 + st.nHalf ∧
        st.nHalf < st.nCols) = False := eq_false (by omega)
    by_cases hlow : i < st.nHalf
    · have g3 : (0 ≤ i ∧ i < 0 + st.nHalf) = True := eq_true (by omega)
      have g4 : (0 ≤ st.nCols - i - 1 ∧ st.nCols - i - 1 < 0 + st.nHalf ∧
          i < st.nCols) = False := eq_false (by omega)
      simp only [gc1, g1, g2, g3, g4, eq_self_iff_true, if_true, if_false]
      rw [countP_range'_shift (fun k => decide (v = px pIn k ci)) st.size (st.nHalf - i) i]
      rw [countP_range'_interval _ st.nHalf st.size,
        countP_range'_interval _ i (st.nHalf - i),
        countP_range'_interval _ (i + st.size) (st.nHalf - i),
        countP_range'_interval _ i st.size]
      have e1 : i + (st.nHalf - i) = st.nHalf := by omega
      have e2 : i + st.size + (st.nHalf - i) = st.nHalf + st.size := by omega
      rw [e1, e2]
      ring
    · have hup : st.nHalf < i := by omega
      have g3 : (0 ≤ i ∧ i < 0 + st.nHalf) = False := eq_false (by omega)
      have g4 : (0 ≤ st.nCols - i - 1 ∧ st.nCols - i - 1 < 0 + st.nHalf ∧
          i < st.nCols) = True := eq_true (by omega)
      simp only [gc1, g1, g2, g3, g4, eq_self_iff_true, if_true, if_false]
      have ca : (List.range' (st.nCols - i - 1) (st.nHalf - (st.nCols - i - 1))).countP
          (fun k => decide (v = px pIn (st.nCols + 2 * st.radius - k - 1) ci)) =
          (List.range' (st.nHalf + st.size) (i - st.nHalf)).countP
            (fun k => decide (v = px pIn k ci)) := by
        have hc1 : (List.range' (st.nCols - i - 1) (st.nHalf - (st.nCols - i - 1))).countP
            (fun k => decide (v = px pIn (st.nCols + 2 * st.radius - k - 1) ci)) =
            (List.range' (st.nCols - i - 1) (st.nHalf - (st.nCols - i - 1))).countP
            (fun k => (fun u => decide (v = px pIn u ci))
              (st.nCols + 2 * st.radius - 1 - k)) := by
          apply List.countP_congr
          intro x hx
          rw [show st.nCols + 2 * st.radius - x - 1 = st.nCols + 2 * st.radius - 1 - x
            from by omega]
        rw [hc1, countP_range'_reflect (fun u => decide (v = px pIn u ci))
          (st.nCols + 2 * st.radius - 1) _ _ (by omega)]
        have ea : st.nCols + 2 * st.radius - 1 + 1 - (st.nCols - i - 1) -
            (st.nHalf - (st.nCols - i - 1)) = st.nHalf + st.size := by omega
        have eb : st.nHalf - (st.nCols - i - 1) = i - st.nHalf := by omega
        rw [ea, eb]
      have cb : (List.range' (st.nCols - i - 1) (st.nHalf - (st.nCols - i - 1))).countP
          (fun k => decide (v = px pIn (st.nCols + 2 * st.radius - k - 1 - st.size) ci)) =
          (List.range' st.nHalf (i - st.nHalf)).countP
            (fun k => decide (v = px pIn k ci)) := by
        have hc1 : (List.range' (st.nCols - i - 1) (st.nHalf - (st.nCols - i - 1))).countP
            (fun k =>
              decide (v = px pIn (st.nCols + 2 * st.radius - k - 1 - st.size) ci)) =
            (List.range' (st.nCols - i - 1) (st.nHalf - (st.nCols - i - 1))).countP
            (fun k => (fun u => decide (v = px pIn u ci))
              (st.nCols + 2 * st.radius - 1 - st.size - k)) := by
          apply List.countP_congr
          intro x hx
          rw [show st.nCols + 2 * st.radius - x - 1 - st.size =
              st.nCols + 2 * st.radius - 1 - st.size - x from by omega]
        rw [hc1, countP_range'_reflect (fun u => decide (v = px pIn u ci))
          (st.nCols + 2 * st.radius - 1 - st.size) _ _ (by omega)]
        have ea : st.nCols + 2 * st.radius - 1 - st.size + 1 - (st.nCols - i - 1) -
            (st.nHalf - (st.nCols - i - 1)) = st.nHalf := by omega
        have eb : st.nHalf - (st.nCols - i - 1) = i - st.nHalf := by omega
        rw [ea, eb]
      rw [ca, cb]
      rw [countP_range'_interval _ st.nHalf st.size,
        countP_range'_interval _ (st.nHalf + st.size) (i - st.nHalf),
        countP_range'_interval _ st.nHalf (i - st.nHalf),
        countP_range'_interval _ i st.size]
      have e1 : st.nHalf + st.size + (i - st.nHalf) = i + st.size := by omega
      have e2 : st.nHalf + (i - st.nHalf) = i := by omega
      rw [e1, e2]
      ring

theorem update_nCols (st : PartHist) (pIn : List (List Nat)) (ci : Nat) (add : Bool) :
    (st.update pIn ci add).nCols = st.nCols := (update_fields st pIn ci add).1

theorem update_nHalf (st : PartHist) (pIn : List (List Nat)) (ci : Nat) (add : Bool) :
    (st.update pIn ci add).nHalf = st.nHalf := (update_fields st pIn ci add).2.1

theorem update_radius (st : PartHist) (pIn : List (List Nat)) (ci : Nat) (add : Bool) :
    (st.update pIn ci add).radius = st.radius := (update_fields st pIn ci add).2.2.1

theorem update_size (st : PartHist) (pIn : List (List Nat)) (ci : Nat) (add : Bool) :
    (st.update pIn ci add).size = st.size := (update_fields st pIn ci add).2.2.2

theorem getD_replicate {α : Type} (x d : α) : ∀ (n c : Nat),
    (List.replicate n x).getD c d = if c < n then x else d := by
  intro n
  induction n with
  | zero =>
    intro c
    rw [List.replicate_zero, if_neg (by omega)]
    rfl
  | succ n ih =>
    intro c
    rw [List.replicate_succ]
    cases c with
    | zero => rw [List.getD_cons_zero, if_pos (by omega)]
    | succ c =>
      rw [List.getD_cons_succ, ih c]
      by_cases hc : c < n
      · rw [if_pos hc, if_pos (by omega)]
      · rw [if_neg hc, if_neg (by omega)]

theorem gd_new (radius nCols c v : Nat) : gd (PartHist.new radius nCols).data c v = 0 := by
  show gd (List.replicate nCols (List.replicate 256 (0 : Int))) c v = 0
  rw [gd, getD_replicate]
  by_cases h : c < nCols
  · rw [if_pos h, getD_replicate]
    by_cases h2 : v < 256
    · rw [if_pos h2]
    · rw [if_neg h2]
  · rw [if_neg h]
    rfl

theorem get_count_new (radius nCols v i : Nat) :
    (PartHist.new radius nCols).get_count v i = 0 := by
  rw [get_count_eq]
  by_cases h : i = (PartHist.new radius nCols).nHalf
  · rw [if_pos h, gd_new]
  · rw [if_neg h, gd_new, gd_new]
    ring

theorem new_size (radius nCols : Nat) : (PartHist.new radius nCols).size = 2 * radius + 1 := rfl

theorem sum_map_zero {α : Type} : ∀ l : List α, (l.map (fun _ => (0 : Int))).sum = 0 := by
  intro l
  induction l with
  | nil => rfl
  | cons x l ih =>
    rw [List.map_cons, List.sum_cons, ih]
    ring

theorem sum_map_add {α : Type} (f g : α → Int) : ∀ l : List α,
    (l.map (fun x => f x + g x)).sum = (l.map f).sum + (l.map g).sum := by
  intro l
  induction l with
  | nil => rfl
  | cons x l ih =>
    rw [List.map_cons, List.sum_cons, ih, List.map_cons, List.sum_cons,
      List.map_cons, List.sum_cons]
    ring

theorem sum_nonneg_int : ∀ l : List Int, (∀ x ∈ l, 0 ≤ x) → 0 ≤ l.sum := by
  intro l
  induction l with
  | nil => intro _; rfl
  | cons x l ih =>
    intro h
    rw [List.sum_cons]
    have h1 := h x (List.mem_cons_self x l)
    have h2 := ih (fun y hy => h y (List.mem_cons_of_mem x hy))
    omega

theorem sum_const_int (c : Int) : ∀ rows : List Nat,
    (rows.map (fun _ => c)).sum = (rows.length : Int) * c := by
  intro rows
  induction rows with
  | nil => simp
  | cons x rows ih =>
    rw [List.map_cons, List.sum_cons, ih, List.length_cons]
    push_cast
    ring

theorem map_congr_on {α β : Type} : ∀ (l : List α) (f g : α → β),
    (∀ a ∈ l, f a = g a) → l.map f = l.map g := by
  intro l f g
  induction l with
  | nil => intro _; rfl
  | cons x l ih =>
    intro h
    rw [List.map_cons, List.map_cons, h x (List.mem_cons_self x l),
      ih (fun a ha => h a (List.mem_cons_of_mem x ha))]

theorem sum_indicator_ge (a : Nat) : ∀ N : Nat, N ≤ a →
    ((List.range N).map (fun v => if a = v then (1 : Int) else 0)).sum = 0 := by
  intro N
  induction N with
  | zero => intro _; rfl
  | succ N ih =>
    intro h
    rw [List.range_succ, List.map_append, List.sum_append, ih (by omega)]
    simp only [List.map_cons, List.map_nil, List.sum_cons, List.sum_nil]
    rw [if_neg (by omega)]
    ring

theorem sum_indicator (a : Nat) : ∀ N : Nat, a < N →
    ((List.range N).map (fun v => if a = v then (1 : Int) else 0)).sum = 1 := by
  intro N
  induction N with
  | zero => intro h; exact absurd h (Nat.not_lt_zero a)
  | succ N ih =>
    intro h
    rw [List.range_succ, List.map_append, List.sum_append]
    simp only [List.map_cons, List.map_nil, List.sum_cons, List.sum_nil]
    by_cases haN : a = N
    · rw [sum_indicator_ge a N (by omega), if_pos haN]
      ring
    · rw [ih (by omega), if_neg haN]
      ring

theorem sum_count (g : Nat → Nat) (N : Nat) : ∀ l : List Nat, (∀ x ∈ l, g x < N) →
    ((List.range N).map (fun v => ((l.countP (fun k => g k == v) : Nat) : Int))).sum =
      (l.length : Int) := by
  intro l
  induction l with
  | nil =>
    intro _
    simp only [List.countP_nil, Nat.cast_zero, List.length_nil]
    exact sum_map_zero _
  | cons x l ih =>
    intro hall
    have hx : g x < N := hall x (List.mem_cons_self x l)
    have hl : ∀ y ∈ l, g y < N := fun y hy => hall y (List.mem_cons_of_mem x hy)
    have hfun : (fun v => (((x :: l).countP (fun k => g k == v) : Nat) : Int)) =
        (fun v => ((l.countP (fun k => g k == v) : Nat) : Int) +
          (if g x = v then (1 : Int) else 0)) := by
      funext v
      rw [List.countP_cons]
      by_cases hgx : g x = v
      · rw [if_pos hgx, if_pos (by simp [hgx])]
        push_cast
        ring
      · rw [if_neg hgx, if_neg (by simp [hgx])]
        push_cast
        ring
    rw [hfun, sum_map_add, ih hl, sum_indicator (g x) N hx, List.length_cons]
    push_cast
    ring

theorem sum_swap (N : Nat) (F : Nat → Nat → Int) : ∀ rows : List Nat,
    ((List.range N).map (fun v => (rows.map (fun rr => F rr v)).sum)).sum =
      (rows.map (fun rr => ((List.range N).map (fun v => F rr v)).sum)).sum := by
  intro rows
  induction rows with
  | nil =>
    simp only [List.map_nil, List.sum_nil]
    exact sum_map_zero _
  | cons x rows ih =>
    simp only [List.map_cons, List.sum_cons]
    rw [sum_map_add (fun v => F x v) (fun v => (rows.map (fun rr => F rr v)).sum), ih]

theorem sum_windowCount (p : List (List Nat)) (ci size i : Nat)
    (hpx : ∀ k, px p k ci < 256) :
    ((List.range 256).map (fun v => windowCount p ci size i v)).sum = (size : Int) := by
  have hfun : (fun v => windowCount p ci size i v) =
      (fun v => (((List.range' i size).countP (fun k => px p k ci == v) : Nat) : Int)) := by
    funext v
    rw [windowCount]
  rw [hfun, sum_count (fun k => px p k ci) 256 (List.range' i size)
    (fun x _ => hpx x), List.length_range']

theorem foldAdd_fields (rowOf : Nat → List (List Nat)) (ci : Nat) : ∀ (rows : List Nat)
    (st : PartHist),
    (rows.foldl (fun s rr => s.update (rowOf rr) ci true) st).nCols = st.nCols ∧
    (rows.foldl (fun s rr => s.update (rowOf rr) ci true) st).nHalf = st.nHalf ∧
    (rows.foldl (fun s rr => s.update (rowOf rr) ci true) st).radius = st.radius ∧
    (rows.foldl (fun s rr => s.update (rowOf rr) ci true) st).size = st.size := by
  intro rows
  induction rows with
  | nil => intro st; exact ⟨rfl, rfl, rfl, rfl⟩
  | cons x rows ih =>
    intro st
    rw [List.foldl_cons]
    have h := ih (st.update (rowOf x) ci true)
    have hu := update_fields st (rowOf x) ci true
    exact ⟨h.1.trans hu.1, h.2.1.trans hu.2.1, h.2.2.1.trans hu.2.2.1, h.2.2.2.trans hu.2.2.2⟩

theorem foldAdd_hwf (rowOf : Nat → List (List Nat)) (ci : Nat) : ∀ (rows : List Nat)
    (st : PartHist), st.nCols = 2 * st.nHalf + 1 → HWF st.nCols st.data →
    HWF st.nCols (rows.foldl (fun s rr => s.update (rowOf rr) ci true) st).data := by
  intro rows
  induction rows with
  | nil => intro st _ h; exact h
  | cons x rows ih =>
    intro st hodd hwf
    rw [List.foldl_cons]
    have hu := update_fields st (rowOf x) ci true
    have h1 : (st.update (rowOf x) ci true).nCols =
        2 * (st.update (rowOf x) ci true).nHalf + 1 := by
      rw [hu.1, hu.2.1]
      exact hodd
    have h2 : HWF (st.update (rowOf x) ci true).nCols (st.update (rowOf x) ci true).data := by
      rw [hu.1]
      exact hwf_update st (rowOf x) ci true hodd hwf
    have h3 := ih (st.update (rowOf x) ci true) h1 h2
    rw [hu.1] at h3
    exact h3

theorem foldAdd_get_count (rowOf : Nat → List (List Nat)) (ci : Nat) : ∀ (rows : List Nat)
    (st : PartHist), st.nCols = 2 * st.nHalf + 1 → st.size = 2 * st.radius + 1 →
    HWF st.nCols st.data → (∀ rr k, px (rowOf rr) k ci < 256) →
    ∀ i v, i < st.nCols → v < 256 →
    (rows.foldl (fun s rr => s.update (rowOf rr) ci true) st).get_count v i =
      st.get_count v i + (rows.map (fun rr => windowCount (rowOf rr) ci st.size i v)).sum := by
  intro rows
  induction rows with
  | nil =>
    intro st _ _ _ _ i v _ _
    rw [List.foldl_nil, List.map_nil, List.sum_nil]
    ring
  | cons x rows ih =>
    intro st hodd hsz hwf hpx i v hi hv
    rw [List.foldl_cons, List.map_cons, List.sum_cons]
    have hu := update_fields st (rowOf x) ci true
    have h1 : (st.update (rowOf x) ci true).nCols =
        2 * (st.update (rowOf x) ci true).nHalf + 1 := by
      rw [hu.1, hu.2.1]
      exact hodd
    have h2 : (st.update (rowOf x) ci true).size =
        2 * (st.update (rowOf x) ci true).radius + 1 := by
      rw [hu.2.2.2, hu.2.2.1]
      exact hsz
    have h3 : HWF (st.update (rowOf x) ci true).nCols (st.update (rowOf x) ci true).data := by
      rw [hu.1]
      exact hwf_update st (rowOf x) ci true hodd hwf
    have h4 : i < (st.update (rowOf x) ci true).nCols := by
      rw [hu.1]
      exact hi
    have hrec := ih (st.update (rowOf x) ci true) h1 h2 h3 hpx i v h4 hv
    rw [hrec, get_count_update st (rowOf x) ci true hodd hsz hwf (hpx x) i v hi hv, hu.2.2.2]
    simp only [eq_self_iff_true, if_true]
    ring

theorem get_count_update2 (st : PartHist) (pE pL : List (List Nat)) (ci : Nat)
    (hodd : st.nCols = 2 * st.nHalf + 1) (hsz : st.size = 2 * st.radius + 1)
    (hwf : HWF st.nCols st.data) (hpE : ∀ k, px pE k ci < 256) (hpL : ∀ k, px pL k ci < 256)
    (i v : Nat) (hi : i < st.nCols) (hv : v < 256) :
    ((st.update pE ci true).update pL ci false).get_count v i =
      st.get_count v i + windowCount pE ci st.size i v - windowCount pL ci st.size i v := by
  have hu := update_fields st pE ci true
  have h1 := get_count_update st pE ci true hodd hsz hwf hpE i v hi hv
  have h2 := get_count_update (st.update pE ci true) pL ci false
    (by rw [hu.1, hu.2.1]; exact hodd) (by rw [hu.2.2.2, hu.2.2.1]; exact hsz)
    (by rw [hu.1]; exact hwf_update st pE ci true hodd hwf) hpL i v
    (by rw [hu.1]; exact hi) hv
  rw [h2, h1, hu.2.2.2]
  simp only [eq_self_iff_true, if_true, Bool.false_eq_true, if_false]
  ring

theorem primeRows_eq_band (h r : Nat) : primeRows h r = bandList h r 0 := by
  rw [primeRows, bandList]
  simp [clampRow]

theorem bandList_length (h r t : Nat) : (bandList h r t).length = 2 * r + 1 := by
  rw [bandList, List.length_map, List.length_range]

theorem phRun_zero (rowOf : Nat → List (List Nat)) (ci h r nCols : Nat) :
    phRun rowOf ci h r nCols 0 =
      (primeRows h r).foldl (fun s rr => s.update (rowOf rr) ci true)
        (PartHist.new r nCols) := rfl

theorem phRun_succ (rowOf : Nat → List (List Nat)) (ci h r nCols t : Nat) :
    phRun rowOf ci h r nCols (t + 1) =
      ((phRun rowOf ci h r nCols t).update (rowOf (min (1 + t + r) (h - 1))) ci true).update
        (rowOf ((iclamp (((1 + t : Nat) : Int) - r - 1) 0 ((h : Int) - 1)).toNat)) ci false := by
  rw [phRun, phRun, List.range'_concat, List.foldl_append, List.foldl_cons, List.foldl_nil,
    Nat.one_mul]

theorem phRun_fields (rowOf : Nat → List (List Nat)) (ci h r nCols : Nat) : ∀ t,
    (phRun rowOf ci h r nCols t).nCols = nCols ∧
    (phRun rowOf ci h r nCols t).nHalf = nCols / 2 ∧
    (phRun rowOf ci h r nCols t).radius = r ∧
    (phRun rowOf ci h r nCols t).size = 2 * r + 1 := by
  intro t
  induction t with
  | zero =>
    rw [phRun_zero]
    exact foldAdd_fields rowOf ci (primeRows h r) (PartHist.new r nCols)
  | succ t ih =>
    rw [phRun_succ]
    simp only [update_nCols, update_nHalf, update_radius, update_size]
    exact ih

theorem phRun_hwf (rowOf : Nat → List (List Nat)) (ci h r nCols : Nat)
    (hodd : nCols = 2 * (nCols / 2) + 1) : ∀ t,
    HWF nCols (phRun rowOf ci h r nCols t).data := by
  intro t
  induction t with
  | zero =>
    rw [phRun_zero]
    exact foldAdd_hwf rowOf ci (primeRows h r) (PartHist.new r nCols) hodd (hwf_new r nCols)
  | succ t ih =>
    rw [phRun_succ]
    have hf := phRun_fields rowOf ci h r nCols t
    have hodd' : (phRun rowOf ci h r nCols t).nCols =
        2 * (phRun rowOf ci h r nCols t).nHalf + 1 := by
      rw [hf.1, hf.2.1]
      exact hodd
    have hwf1 : HWF (phRun rowOf ci h r nCols t).nCols (phRun rowOf ci h r nCols t).data := by
      rw [hf.1]
      exact ih
    have h2 := hwf_update (phRun rowOf ci h r nCols t)
      (rowOf (min (1 + t + r) (h - 1))) ci true hodd' hwf1
    have hu := update_fields (phRun rowOf ci h r nCols t)
      (rowOf (min (1 + t + r) (h - 1))) ci true
    have h3 := hwf_update ((phRun rowOf ci h r nCols t).update
        (rowOf (min (1 + t + r) (h - 1))) ci true)
      (rowOf ((iclamp (((1 + t : Nat) : Int) - r - 1) 0 ((h : Int) - 1)).toNat)) ci false
      (by rw [hu.1, hu.2.1]; exact hodd') (by rw [hu.1]; exact h2)
    rw [hu.1, hf.1] at h3
    exact h3

theorem band_map_sum_succ (f : Nat → Int) (h r t : Nat) :
    ((bandList h r (t + 1)).map f).sum =
      ((bandList h r t).map f).sum + f (clampRow h ((t : Int) + 1 + r)) -
        f (clampRow h ((t : Int) - r)) := by
  have hT : ((List.range (2 * r + 1 + 1)).map
      (fun (u : Nat) => f (clampRow h ((t : Int) + (u : Int) - r)))).sum =
      ((bandList h r t).map f).sum + f (clampRow h ((t : Int) + ((2 * r + 1 : Nat) : Int) - r)) := by
    rw [List.range_succ, List.map_append, List.sum_append, bandList, List.map_map,
      Function.comp_def]
    simp only [List.map_cons, List.map_nil, List.sum_cons, List.sum_nil]
    ring
  have hT2 : ((List.range (2 * r + 1 + 1)).map
      (fun (u : Nat) => f (clampRow h ((t : Int) + (u : Int) - r)))).sum =
      f (clampRow h ((t : Int) + ((0 : Nat) : Int) - r)) + ((bandList h r (t + 1)).map f).sum := by
    rw [List.range_succ_eq_map, List.map_cons, List.sum_cons, List.map_map, bandList,
      List.map_map]
    congr 1
    refine congrArg List.sum (map_congr_on _ _ _ ?_)
    intro u _
    simp only [Function.comp_apply]
    rw [show ((t : Int) + ((Nat.succ u : Nat) : Int) - (r : Int)) =
      (((t + 1 : Nat) : Int) + (u : Int) - (r : Int)) from by push_cast; ring]
  have hc := hT.symm.trans hT2
  have e1 : (t : Int) + ((2 * r + 1 : Nat) : Int) - r = (t : Int) + 1 + r := by
    push_cast
    ring
  have e2 : (t : Int) + ((0 : Nat) : Int) - r = (t : Int) - r := by
    push_cast
    ring
  rw [e1, e2] at hc
  linarith

theorem phRun_get_count (rowOf : Nat → List (List Nat)) (ci h r nCols : Nat)
    (hodd : nCols = 2 * (nCols / 2) + 1) (hh : 1 ≤ h)
    (hpx : ∀ rr k, px (rowOf rr) k ci < 256) (i v : Nat) (hi : i < nCols) (hv : v < 256) :
    ∀ t, (phRun rowOf ci h r nCols t).get_count v i =
      ((bandList h r t).map (fun rr => windowCount (rowOf rr) ci (2 * r + 1) i v)).sum := by
  intro t
  induction t with
  | zero =>
    rw [phRun_zero, ← primeRows_eq_band]
    rw [foldAdd_get_count rowOf ci (primeRows h r) (PartHist.new r nCols) (by exact hodd) rfl
      (by exact hwf_new r nCols) hpx i v (by exact hi) hv]
    simp only [get_count_new, new_size, zero_add]
  | succ t ih =>
    rw [phRun_succ]
    have hf := phRun_fields rowOf ci h r nCols t
    have hodd' : (phRun rowOf ci h r nCols t).nCols =
        2 * (phRun rowOf ci h r nCols t).nHalf + 1 := by
      rw [hf.1, hf.2.1]
      exact hodd
    have hsz' : (phRun rowOf ci h r nCols t).size =
        2 * (phRun rowOf ci h r nCols t).radius + 1 := by
      rw [hf.2.2.2, hf.2.2.1]
    have hwf' : HWF (phRun rowOf ci h r nCols t).nCols (phRun rowOf ci h r nCols t).data := by
      rw [hf.1]
      exact phRun_hwf rowOf ci h r nCols hodd t
    have hi' : i < (phRun rowOf ci h r nCols t).nCols := by
      rw [hf.1]
      exact hi
    rw [get_count_update2 (phRun rowOf ci h r nCols t) _ _ ci hodd' hsz' hwf' (hpx _) (hpx _)
      i v hi' hv, ih, hf.2.2.2]
    rw [band_map_sum_succ (fun rr => windowCount (rowOf rr) ci (2 * r + 1) i v) h r t]
    have eE : min (1 + t + r) (h - 1) = clampRow h ((t : Int) + 1 + r) := by
      rw [clampRow, iclamp]
      omega
    have eL : (iclamp (((1 + t : Nat) : Int) - r - 1) 0 ((h : Int) - 1)).toNat =
        clampRow h ((t : Int) - r) := by
      rw [clampRow]
      rw [show ((1 + t : Nat) : Int) - r - 1 = (t : Int) - r from by push_cast; ring]
    rw [eE, eL]

/-- C3: for the partial-histogram bank as driven by the row loops (primed on the
initial clamped band, then one entering and one leaving clamped row per step),
every queried count `get_count v i` equals `data[n_half][v]` plus, off the
central column, `data[i][v]`; it equals the exact count of value `v` in the
`(2r+1) x (2r+1)` clamp-to-edge window of column `i` (a sum of per-row window
counts over the band of output row `t`), hence is non-negative, and the counts
of one column sum to `size^2` over all 256 keys. -/

theorem C3_partial_histogram_invariant
    (rowOf : Nat → List (List Nat)) (ci height radius nCols t : Nat)
    (hodd : nCols = 2 * (nCols / 2) + 1) (hh : 1 ≤ height)
    (hpx : ∀ rr k, px (rowOf rr) k ci < 256) :
    (∀ i v, i < nCols → v < 256 →
      ((phRun rowOf ci height radius nCols t).get_count v i =
          gd (phRun rowOf ci height radius nCols t).data (nCols / 2) v +
            (if i = nCols / 2 then 0
              else gd (phRun rowOf ci height radius nCols t).data i v) ∧
        (phRun rowOf ci height radius nCols t).get_count v i =
          ((bandList height radius t).map
            (fun rr => windowCount (rowOf rr) ci (2 * radius + 1) i v)).sum ∧
        0 ≤ (phRun rowOf ci height radius nCols t).get_count v i)) ∧
    (∀ i, i < nCols →
      ((List.range 256).map
        (fun v => (phRun rowOf ci height radius nCols t).get_count v i)).sum =
        (((2 * radius + 1) * (2 * radius + 1) : Nat) : Int)) := by
  have hf := phRun_fields rowOf ci height radius nCols t
  constructor
  · intro i v hi hv
    have hB := phRun_get_count rowOf ci height radius nCols hodd hh hpx i v hi hv t
    refine ⟨?_, hB, ?_⟩
    · rw [get_count_eq, hf.2.1]
      by_cases hih : i = nCols / 2
      · rw [if_pos hih, if_pos hih]
        ring
      · rw [if_neg hih, if_neg hih]
    · rw [hB]
      apply sum_nonneg_int
      intro x hx
      obtain ⟨rr, _, hxe⟩ := List.mem_map.mp hx
      rw [← hxe, windowCount]
      exact Int.natCast_nonneg _
  · intro i hi
    have hmc : ((List.range 256).map
        (fun v => (phRun rowOf ci height radius nCols t).get_count v i)) =
        ((List.range 256).map (fun v => ((bandList height radius t).map
          (fun rr => windowCount (rowOf rr) ci (2 * radius + 1) i v)).sum)) :=
      map_congr_on _ _ _ (fun v hv =>
        phRun_get_count rowOf ci height radius nCols hodd hh hpx i v hi
          (List.mem_range.mp hv) t)
    rw [hmc, sum_swap 256 (fun rr v => windowCount (rowOf rr) ci (2 * radius + 1) i v)
      (bandList height radius t)]
    have hmc2 : ((bandList height radius t).map (fun rr => ((List.range 256).map
        (fun v => windowCount (rowOf rr) ci (2 * radius + 1) i v)).sum)) =
        ((bandList height radius t).map (fun _ => ((2 * radius + 1 : Nat) : Int))) :=
      map_congr_on _ _ _ (fun rr _ =>
        sum_windowCount (rowOf rr) ci (2 * radius + 1) i (hpx rr))
    rw [hmc2, sum_const_int, bandList_length]
    push_cast
    ring

/-- Witness instantiating the C3 invariant at a concrete bank run. -/

theorem C3_partial_histogram_invariant_witness :
    (1 = 2 * (1 / 2) + 1 ∧ 1 ≤ 1 ∧
      (∀ (rr k : Nat), px ((fun (_ : Nat) => ([] : List (List Nat))) rr) k 0 < 256)) ∧
    ((∀ i v, i < 1 → v < 256 →
      ((phRun (fun _ => []) 0 1 1 1 2).get_count v i =
          gd (phRun (fun _ => []) 0 1 1 1 2).data (1 / 2) v +
            (if i = 1 / 2 then 0 else gd (phRun (fun _ => []) 0 1 1 1 2).data i v) ∧
        (phRun (fun _ => []) 0 1 1 1 2).get_count v i =
          ((bandList 1 1 2).map
            (fun rr => windowCount ((fun _ => []) rr) 0 (2 * 1 + 1) i v)).sum ∧
        0 ≤ (phRun (fun _ => []) 0 1 1 1 2).get_count v i)) ∧
    (∀ i, i < 1 →
      ((List.range 256).map (fun v => (phRun (fun _ => []) 0 1 1 1 2).get_count v i)).sum =
        (((2 * 1 + 1) * (2 * 1 + 1) : Nat) : Int))) :=
  ⟨⟨by decide, by decide, fun rr k => by unfold px; simp⟩,
    C3_partial_histogram_invariant (fun _ => []) 0 1 1 1 2 (by decide) (by decide)
      (fun rr k => by unfold px; simp)⟩

theorem getD_map_range {α : Type} (f : Nat → α) (n c : Nat) (d : α) :
    ((List.range n).map f).getD c d = if c < n then f c else d := by
  rw [List.getD_eq_getElem?_getD, List.getElem?_map]
  by_cases h : c < n
  · rw [List.getElem?_range h, if_pos h]
    rfl
  · rw [if_neg h, List.getElem?_eq_none]
    · rfl
    · rw [List.length_range]
      omega

theorem writeList_length : ∀ (vals d : List Nat) (pos : Nat),
    (writeList d pos vals).length = d.length := by
  intro vals
  induction vals with
  | nil => intro d pos; rfl
  | cons v vs ih =>
    intro d pos
    rw [writeList, ih, List.length_set]

theorem writeList_getD : ∀ (vals d : List Nat) (pos q : Nat),
    (writeList d pos vals).getD q 0 =
      if pos ≤ q ∧ q < pos + vals.length ∧ q < d.length then vals.getD (q - pos) 0
      else d.getD q 0 := by
  intro vals
  induction vals with
  | nil =>
    intro d pos q
    rw [writeList, if_neg (by simp only [List.length_nil]; omega)]
  | cons v vs ih =>
    intro d pos q
    rw [writeList, ih, List.length_set, getD_set_eqD]
    by_cases h1 : pos + 1 ≤ q ∧ q < pos + 1 + vs.length ∧ q < d.length
    · rw [if_pos h1, if_pos (by simp only [List.length_cons]; omega)]
      have e : q - pos = (q - (pos + 1)) + 1 := by omega
      rw [e, List.getD_cons_succ]
    · rw [if_neg h1]
      by_cases h2 : pos = q ∧ pos < d.length
      · rw [if_pos h2, if_pos (by simp only [List.length_cons]; omega)]
        have e : q - pos = 0 := by omega
        rw [e, List.getD_cons_zero]
      · rw [if_neg h2, if_neg (by simp only [List.length_cons]; omega)]

theorem set_getD_self {α : Type} : ∀ (l : List α) (i : Nat) (d : α),
    l.set i (l.getD i d) = l := by
  intro l
  induction l with
  | nil => intro i d; rfl
  | cons x l ih =>
    intro i d
    cases i with
    | zero => rw [List.getD_cons_zero, List.set_cons_zero]
    | succ i => rw [List.getD_cons_succ, List.set_cons_succ, ih]

theorem map_ident {α : Type} : ∀ l : List α, l.map (fun a => a) = l := by
  intro l
  induction l with
  | nil => rfl
  | cons x l ih => rw [List.map_cons, ih]

theorem foldl_fix {α β : Type} (g : β → α → β) : ∀ (l : List α) (s : β),
    (∀ b a, a ∈ l → g b a = b) → l.foldl g s = s := by
  intro l
  induction l with
  | nil => intro s _; rfl
  | cons x l ih =>
    intro s h
    rw [List.foldl_cons, h s x (List.mem_cons_self x l)]
    exact ih s (fun b a ha => h b a (List.mem_cons_of_mem x ha))

theorem foldl_fix_pt {α β : Type} (g : β → α → β) : ∀ (l : List α) (s : β),
    (∀ a, a ∈ l → g s a = s) → l.foldl g s = s := by
  intro l
  induction l with
  | nil => intro s _; rfl
  | cons x l ih =>
    intro s h
    rw [List.foldl_cons, h x (List.mem_cons_self x l)]
    exact ih s (fun a ha => h a (List.mem_cons_of_mem x ha))

theorem encode_div (A c n : Nat) (hc : c < n) :
    (A * n + c) / n = A ∧ (A * n + c) % n = c := by
  constructor
  · rw [Nat.add_comm, Nat.add_mul_div_right c A (by omega), Nat.div_eq_of_lt hc]
    omega
  · rw [Nat.add_comm, Nat.add_mul_mod_self_right, Nat.mod_eq_of_lt hc]

theorem encode_inj (A B c c' n : Nat) (hc : c < n) (hc' : c' < n)
    (he : A * n + c = B * n + c') : A = B ∧ c = c' := by
  have h1 := (encode_div A c n hc).1
  have h2 := (encode_div B c' n hc').1
  have h3 := (encode_div A c n hc).2
  have h4 := (encode_div B c' n hc').2
  rw [he] at h1 h3
  exact ⟨h1.symm.trans h2, h3.symm.trans h4⟩

theorem getD_lt_256 (l : List Nat) (hb : ∀ b ∈ l, b < 256) (q : Nat) : l.getD q 0 < 256 := by
  by_cases h : q < l.length
  · exact hb _ (getD_mem_of_lt l q 0 h)
  · rw [List.getD_eq_getElem?_getD, List.getElem?_eq_none (by omega)]
    simp

theorem px_slice_lt_256 (input : Image) (hb : ∀ b ∈ input.data, b < 256)
    (nCols radius x row j c : Nat) : px (rowSlice input nCols radius x row) j c < 256 := by
  rw [px, rowSlice, getD_map_range]
  by_cases h : j < nCols + 2 * radius
  · rw [if_pos h, Image.getPixel, getD_map_range]
    by_cases h2 : c < input.channels
    · rw [if_pos h2]
      exact getD_lt_256 input.data hb _
    · rw [if_neg h2]
      omega
  · rw [if_neg h]
    rw [List.getD_eq_getElem?_getD]
    simp

theorem windowCount_const (p : List (List Nat)) (ci size i a v : Nat)
    (hp : ∀ j, i ≤ j → j < i + size → px p j ci = a) :
    windowCount p ci size i v = if v = a then (size : Int) else 0 := by
  rw [windowCount]
  by_cases hva : v = a
  · rw [if_pos hva]
    have hall : ∀ j ∈ List.range' i size, (fun k => px p k ci == v) j = true := by
      intro j hj
      have hm := List.mem_range'_1.mp hj
      simp only [hp j hm.1 (by omega), hva, beq_self_eq_true]
    rw [List.countP_eq_length.mpr hall, List.length_range']
  · rw [if_neg hva]
    have hall : ∀ j ∈ List.range' i size, ¬((fun k => px p k ci == v) j = true) := by
      intro j hj
      have hm := List.mem_range'_1.mp hj
      simp only [hp j hm.1 (by omega), beq_iff_eq]
      omega
    rw [List.countP_eq_zero.mpr hall]
    rfl

/-- Delta-profile of the bank: every column's queried histogram is
concentrated at one key `v` with weight `W`. -/

theorem DeltaBank_step (st : PartHist) (pIn pOut : List (List Nat)) (ci a b : Nat) (W : Int)
    (hodd : st.nCols = 2 * st.nHalf + 1) (hsz : st.size = 2 * st.radius + 1)
    (ha : ∀ j, j < st.nCols + 2 * st.radius → px pIn j ci = a)
    (ha2 : ∀ j, px pIn j ci < 256)
    (hb : ∀ j, j < st.nCols + 2 * st.radius → px pOut j ci = b)
    (hb2 : ∀ j, px pOut j ci < 256)
    (hcase : a = b ∨ st.size = 1) (hW : W = (st.size : Int) * st.size)
    (hdb : DeltaBank st b W) :
    DeltaBank ((st.update pIn ci true).update pOut ci false) a W := by
  obtain ⟨hwf, hprof⟩ := hdb
  constructor
  · rw [update_nCols, update_nCols]
    have h1 := hwf_update st pIn ci true hodd hwf
    have hu := update_fields st pIn ci true
    have h2 := hwf_update (st.update pIn ci true) pOut ci false
      (by rw [hu.1, hu.2.1]; exact hodd) (by rw [hu.1]; exact h1)
    rw [hu.1] at h2
    exact h2
  · intro i k hi hk
    rw [update_nCols, update_nCols] at hi
    rw [get_count_update2 st pIn pOut ci hodd hsz hwf ha2 hb2 i k hi hk, hprof i k hi hk]
    rw [windowCount_const pIn ci st.size i a k (fun j h1 h2 => ha j (by omega)),
      windowCount_const pOut ci st.size i b k (fun j h1 h2 => hb j (by omega))]
    rcases hcase with hab | h1
    · subst hab
      split_ifs <;> ring
    · have hW1 : W = 1 := by
        rw [hW, h1]
        norm_num
      rw [hW1, show ((st.size : Nat) : Int) = 1 from by rw [h1]; exact Nat.cast_one]
      split_ifs <;> ring

theorem medScanUp_delta (ph : PartHist) (i v : Nat) (center W : Int)
    (hc1 : 1 ≤ center) (hcW : center ≤ W)
    (hprof : ∀ k, k < 256 → ph.get_count k i = if k = v then W else 0)
    (hv : v < 256) :
    ∀ (m a : Nat), a + m = 256 → a ≤ v →
      medScanUp ph i center (List.range' a m) 0 = some (v, 0) := by
  intro m
  induction m with
  | zero =>
    intro a h1 h2
    exact absurd hv (by omega)
  | succ m ih =>
    intro a h1 h2
    rw [List.range'_succ]
    simp only [medScanUp]
    rw [hprof a (by omega)]
    by_cases hav : a = v
    · rw [if_pos hav, if_pos (by omega)]
      rw [hav]
    · rw [if_neg hav, if_neg (by omega)]
      rw [show ((0 : Int) + 0) = 0 from by ring]
      exact ih (a + 1) (by omega) (by omega)

theorem medScanDown_delta (ph : PartHist) (i v : Nat) (center W : Int)
    (hc1 : 1 ≤ center) (hcW : center ≤ W)
    (hprof : ∀ k, k < 256 → ph.get_count k i = if k = v then W else 0) :
    ∀ (p : Nat), v < p → p ≤ 256 →
      medScanDown ph i center (List.range p).reverse W = some (v, 0) := by
  intro p
  induction p with
  | zero =>
    intro h1 _
    exact absurd h1 (by omega)
  | succ p ih =>
    intro h1 h2
    rw [List.range_succ, List.reverse_append, List.reverse_singleton, List.singleton_append]
    simp only [medScanDown]
    rw [hprof p (by omega)]
    by_cases hpv : p = v
    · rw [if_pos hpv, if_pos (by omega)]
      rw [hpv, show W - W = (0 : Int) from by ring]
    · rw [if_neg hpv, if_neg (by omega)]
      rw [show W - (0 : Int) = W from by ring]
      exact ih (by omega) (by omega)

theorem getD_mapIdx {α β : Type} (l : List α) (f : Nat → α → β) (c : Nat) (d : β) (d' : α)
    (hc : c < l.length) : (l.mapIdx f).getD c d = f c (l.getD c d') := by
  rw [List.getD_eq_getElem?_getD, List.getElem?_mapIdx, List.getElem?_eq_getElem hc,
    List.getD_eq_getElem?_getD, List.getElem?_eq_getElem hc]
  rfl

theorem getD_map' {α β : Type} (f : α → β) (l : List α) (c : Nat) (d : β) (d' : α)
    (hc : c < l.length) : (l.map f).getD c d = f (l.getD c d') := by
  rw [List.getD_eq_getElem?_getD, List.getElem?_map, List.getElem?_eq_getElem hc,
    List.getD_eq_getElem?_getD, List.getElem?_eq_getElem hc]
  rfl

theorem addRowMed_length (hists : List MedianHist) (pIn : List (List Nat)) (add : Bool) :
    (addRowMed hists pIn add).length = hists.length := by
  rw [addRowMed, List.length_mapIdx]

theorem addRowMed_getD (hists : List MedianHist) (pIn : List (List Nat)) (add : Bool)
    (c : Nat) (hc : c < hists.length) :
    (addRowMed hists pIn add).getD c (MedianHist.new 0 1) =
      (hists.getD c (MedianHist.new 0 1)).update pIn c add := by
  rw [addRowMed, getD_mapIdx _ _ c (MedianHist.new 0 1) (MedianHist.new 0 1) hc]

theorem setPivotsMed_length (hists : List MedianHist) (pOut : List Nat) (index : Nat) :
    (setPivotsMed hists pOut index).length = hists.length := by
  rw [setPivotsMed, List.length_mapIdx]

theorem setPivotsMed_getD (hists : List MedianHist) (pOut : List Nat) (index c : Nat)
    (hc : c < hists.length) :
    (setPivotsMed hists pOut index).getD c (MedianHist.new 0 1) =
      if c < pOut.length then
        { hists.getD c (MedianHist.new 0 1) with
          pivots := (hists.getD c (MedianHist.new 0 1)).pivots.set index (pOut.getD c 0) }
      else hists.getD c (MedianHist.new 0 1) := by
  rw [setPivotsMed, getD_mapIdx _ _ c (MedianHist.new 0 1) (MedianHist.new 0 1) hc]

theorem MHupdate_data (st : MedianHist) (pIn : List (List Nat)) (ci : Nat) (add : Bool) :
    (st.update pIn ci add).data = st.data.update pIn ci add := rfl

theorem MHupdate_pivots (st : MedianHist) (pIn : List (List Nat)) (ci : Nat) (add : Bool) :
    (st.update pIn ci add).pivots = st.pivots := rfl

theorem MHupdate_sums_empty (st : MedianHist) (pIn : List (List Nat)) (ci : Nat) (add : Bool)
    (hp : st.pivots = []) : (st.update pIn ci add).sums = st.sums := by
  simp only [MedianHist.update, hp, List.isEmpty_nil, if_true]

theorem MHupdate_sums_1 (st : MedianHist) (pIn : List (List Nat)) (ci : Nat) (add : Bool)
    (h1 : st.data.nCols = 1) (h4 : st.data.size = 1) (p : Nat) (hp : st.pivots = [p]) :
    (st.update pIn ci add).sums =
      if px pIn 0 ci < p then listAddAt st.sums 0 (if add then 1 else -1) else st.sums := by
  simp only [MedianHist.update, hp, List.isEmpty_cons, Bool.false_eq_true, if_false,
    h1, h4]
  simp only [show List.range 1 = [0] from rfl, show List.range' 0 1 = [0] from rfl,
    List.foldl_cons, List.foldl_nil, List.getD_cons_zero]

theorem MHinit_pivots_data (st : MedianHist) : st.init_pivots.data = st.data := rfl

theorem MHinit_pivots_sums (st : MedianHist) : st.init_pivots.sums = st.sums := rfl

theorem MHinit_pivots_pivots (st : MedianHist) :
    st.init_pivots.pivots = List.replicate st.data.nCols 0 := rfl

/-- Per-channel engine state of the radius-0 median pipeline: a weight-1
delta bank at value `v`, running sum `s` and pivot `p` for the single strip
column. -/

theorem MState_init (pIn : List (List Nat)) (c a : Nat)
    (hpa : px pIn 0 c = a) (hpa2 : ∀ k, px pIn k c < 256) :
    MState a 0 0 (((MedianHist.new 0 1).update pIn c true).init_pivots) := by
  have hdata : (((MedianHist.new 0 1).update pIn c true).init_pivots).data =
      (PartHist.new 0 1).update pIn c true := rfl
  refine ⟨?_, ?_, ?_, ?_, ?_, ?_, ?_⟩
  · rw [hdata, update_nCols]
    rfl
  · rw [hdata, update_nHalf]
    rfl
  · rw [hdata, update_radius]
    rfl
  · rw [hdata, update_size]
    rfl
  · rw [hdata]
    constructor
    · rw [update_nCols]
      exact hwf_update (PartHist.new 0 1) pIn c true rfl (hwf_new 0 1)
    · intro i k hi hk
      rw [update_nCols] at hi
      have hi0 : i = 0 := by
        have : (PartHist.new 0 1).nCols = 1 := rfl
        omega
      subst hi0
      rw [get_count_update (PartHist.new 0 1) pIn c true rfl rfl (hwf_new 0 1) hpa2 0 k
          (by rw [show (PartHist.new 0 1).nCols = 1 from rfl]; omega) hk,
        get_count_new, new_size,
        windowCount_const pIn c 1 0 a k
          (fun j hj1 hj2 => by rw [show j = 0 from by omega]; exact hpa)]
      simp only [eq_self_iff_true, if_true, Nat.cast_one, one_mul, zero_add]
  · rw [MHinit_pivots_sums, MHupdate_sums_empty (MedianHist.new 0 1) pIn c true rfl]
    rfl
  · rfl

theorem MState_step (h : MedianHist) (pIn pOut : List (List Nat)) (c a b : Nat)
    (hMS : MState b 0 b h)
    (hpa : px pIn 0 c = a) (hpa2 : ∀ k, px pIn k c < 256)
    (hpb : px pOut 0 c = b) (hpb2 : ∀ k, px pOut k c < 256) :
    MState a (if a < b then 1 else 0) b ((h.update pIn c true).update pOut c false) := by
  obtain ⟨h1, h2, h3, h4, hdb, hs, hp⟩ := hMS
  have hd2 : ((h.update pIn c true).update pOut c false).data =
      (h.data.update pIn c true).update pOut c false := rfl
  have hu := update_fields h.data pIn c true
  refine ⟨?_, ?_, ?_, ?_, ?_, ?_, ?_⟩
  · rw [hd2, update_nCols, update_nCols, h1]
  · rw [hd2, update_nHalf, update_nHalf, h2]
  · rw [hd2, update_radius, update_radius, h3]
  · rw [hd2, update_size, update_size, h4]
  · rw [hd2]
    exact DeltaBank_step h.data pIn pOut c a b 1 (by rw [h1, h2]) (by rw [h4, h3])
      (fun j hj => by rw [show j = 0 from by rw [h1, h3] at hj; omega]; exact hpa) hpa2
      (fun j hj => by rw [show j = 0 from by rw [h1, h3] at hj; omega]; exact hpb) hpb2
      (Or.inr h4) (by rw [h4]; norm_num) hdb
  · have hpiv1 : (h.update pIn c true).pivots = [b] := by rw [MHupdate_pivots, hp]
    have hf1 : (h.update pIn c true).data.nCols = 1 := by rw [MHupdate_data, update_nCols, h1]
    have hf4 : (h.update pIn c true).data.size = 1 := by rw [MHupdate_data, update_size, h4]
    rw [MHupdate_sums_1 (h.update pIn c true) pOut c false hf1 hf4 b hpiv1, hpb,
      MHupdate_sums_1 h pIn c true h1 h4 b hp, hpa, hs]
    rw [if_neg (by omega)]
    by_cases hab : a < b
    · rw [if_pos hab, if_pos hab]
      rfl
    · rw [if_neg hab, if_neg hab]
  · rw [MHupdate_pivots, MHupdate_pivots, hp]

theorem chanFoldM (F : List Nat × List MedianHist → Nat → Option (List Nat × List MedianHist))
    (val : Nat → Nat) (T : Nat → MedianHist → MedianHist)
    (P : Nat → MedianHist → Prop)
    (hF : ∀ (acc1 : List Nat) (hists : List MedianHist) (c : Nat),
      P c (hists.getD c (MedianHist.new 0 1)) →
      F (acc1, hists) c = some (acc1 ++ [val c],
        hists.set c (T c (hists.getD c (MedianHist.new 0 1))))) :
    ∀ (m c0 : Nat) (acc1 : List Nat) (hists : List MedianHist),
      c0 + m ≤ hists.length →
      (∀ c, c0 ≤ c → c < c0 + m → P c (hists.getD c (MedianHist.new 0 1))) →
      ∃ hists' : List MedianHist,
        (List.range' c0 m).foldlM F (acc1, hists) =
          some (acc1 ++ (List.range' c0 m).map val, hists') ∧
        hists'.length = hists.length ∧
        (∀ c, (c < c0 ∨ c0 + m ≤ c) →
          hists'.getD c (MedianHist.new 0 1) = hists.getD c (MedianHist.new 0 1)) ∧
        (∀ c, c0 ≤ c → c < c0 + m →
          hists'.getD c (MedianHist.new 0 1) =
            T c (hists.getD c (MedianHist.new 0 1))) := by
  intro m
  induction m with
  | zero =>
    intro c0 acc1 hists _ _
    refine ⟨hists, ?_, rfl, fun c _ => rfl, fun c hc1 hc2 => absurd hc2 (by omega)⟩
    rw [show List.range' c0 0 = [] from rfl, List.foldlM_nil, List.map_nil, List.append_nil]
    rfl
  | succ m ih =>
    intro c0 acc1 hists hlen hP
    rw [List.range'_succ, List.foldlM_cons, hF acc1 hists c0 (hP c0 (le_refl c0) (by omega))]
    simp only [Option.bind_eq_bind, Option.some_bind]
    have hc0len : c0 < hists.length := by omega
    have hlen2 : (c0 + 1) + m ≤
        (hists.set c0 (T c0 (hists.getD c0 (MedianHist.new 0 1)))).length := by
      rw [List.length_set]
      omega
    have hP2 : ∀ c, c0 + 1 ≤ c → c < c0 + 1 + m →
        P c ((hists.set c0 (T c0 (hists.getD c0 (MedianHist.new 0 1)))).getD c
          (MedianHist.new 0 1)) := by
      intro c hc1 hc2
      rw [getD_set_eqD, if_neg (by rintro ⟨e, _⟩; omega)]
      exact hP c (by omega) (by omega)
    obtain ⟨hists', he, hl, hout, hin⟩ := ih (c0 + 1) (acc1 ++ [val c0]) _ hlen2 hP2
    refine ⟨hists', ?_, ?_, ?_, ?_⟩
    · rw [he, List.map_cons, List.append_assoc, List.singleton_append]
    · rw [hl, List.length_set]
    · intro c hc
      rw [hout c (by omega), getD_set_eqD, if_neg (by rintro ⟨e, _⟩; omega)]
    · intro c hc1 hc2
      by_cases hcc : c = c0
      · subst hcc
        rw [hout c (by omega), getD_set_eqD, if_pos ⟨rfl, hc0len⟩]
      · rw [hin c (by omega) (by omega), getD_set_eqD, if_neg (by rintro ⟨e, _⟩; omega)]

theorem rowSlice_r0 (input : Image) (x j : Nat) (hx : x < input.width) :
    rowSlice input 1 0 x j = [input.getPixel x j] := by
  rw [rowSlice, show (1 + 2 * 0 : Nat) = 1 from rfl,
    show List.range 1 = [0] from rfl, List.map_cons, List.map_nil]
  have e : (iclamp ((x : Int) + ((0 : Nat) : Int) - ((0 : Nat) : Int)) 0
      ((input.width : Int) - 1)).toNat = x := by
    rw [iclamp]
    omega
  rw [e]

theorem px_rowSlice_r0 (input : Image) (x j c : Nat) (hx : x < input.width) :
    px (rowSlice input 1 0 x j) 0 c =
      if c < input.channels then
        input.data.getD ((j * input.width + x) * input.channels + c) 0
      else 0 := by
  rw [rowSlice_r0 input x j hx, px, List.getD_cons_zero, Image.getPixel, getD_map_range]

theorem initMedChannel_hF (input : Image) (x j : Nat)
    (hb : ∀ b ∈ input.data, b < 256) :
    ∀ (acc1 : List Nat) (hists : List MedianHist) (c : Nat),
      MState (px (rowSlice input 1 0 x j) 0 c) 0 0 (hists.getD c (MedianHist.new 0 1)) →
      initMedChannel 1 0 (acc1, hists) c =
        some (acc1 ++ [px (rowSlice input 1 0 x j) 0 c],
          hists.set c { hists.getD c (MedianHist.new 0 1) with
            sums := (hists.getD c (MedianHist.new 0 1)).sums.set 0 0 }) := by
  intro acc1 hists c hMS
  obtain ⟨h1, h2, h3, h4, ⟨hwf, hprof⟩, hs, hp⟩ := hMS
  simp only [initMedChannel]
  rw [List.range_eq_range']
  rw [medScanUp_delta (hists.getD c (MedianHist.new 0 1)).data 0
    (px (rowSlice input 1 0 x j) 0 c) 1 1 (le_refl 1) (le_refl 1)
    (fun k hk => hprof 0 k (by rw [h1]; omega) hk)
    (px_slice_lt_256 input hb 1 0 x j 0 c) 256 0 rfl (by omega)]

theorem rowMedChannel_hF (vNew vOld : Nat → Nat)
    (hv : ∀ c, vNew c < 256) (ho : ∀ c, vOld c < 256) :
    ∀ (acc1 : List Nat) (hists : List MedianHist) (c : Nat),
      MState (vNew c) (if vNew c < vOld c then 1 else 0) (vOld c)
        (hists.getD c (MedianHist.new 0 1)) →
      rowMedChannel 1 0 (acc1, hists) c =
        some (acc1 ++ [vNew c],
          hists.set c { hists.getD c (MedianHist.new 0 1) with
            sums := (hists.getD c (MedianHist.new 0 1)).sums.set 0 0 }) := by
  intro acc1 hists c hMS
  obtain ⟨h1, h2, h3, h4, ⟨hwf, hprof⟩, hs, hp⟩ := hMS
  simp only [rowMedChannel]
  rw [hp, hs, List.getD_cons_zero, List.getD_cons_zero]
  by_cases hbr : vNew c < vOld c
  · rw [if_pos hbr, if_neg (by omega)]
    rw [medScanDown_delta (hists.getD c (MedianHist.new 0 1)).data 0 (vNew c) 1 1
      (le_refl 1) (le_refl 1) (fun k hk => hprof 0 k (by rw [h1]; omega) hk)
      (vOld c) hbr (by have := ho c; omega)]
  · rw [if_neg hbr, if_pos (by omega)]
    rw [medScanUp_delta (hists.getD c (MedianHist.new 0 1)).data 0 (vNew c) 1 1
      (le_refl 1) (le_refl 1) (fun k hk => hprof 0 k (by rw [h1]; omega) hk)
      (hv c) (256 - vOld c) (vOld c) (by have := ho c; omega) (by omega)]

theorem setPixel_width (img : Image) (x y : Nat) (vals : List Nat) :
    (img.setPixel x y vals).width = img.width := rfl

theorem setPixel_height (img : Image) (x y : Nat) (vals : List Nat) :
    (img.setPixel x y vals).height = img.height := rfl

theorem setPixel_channels (img : Image) (x y : Nat) (vals : List Nat) :
    (img.setPixel x y vals).channels = img.channels := rfl

theorem setPixel_data (img : Image) (x y : Nat) (vals : List Nat) :
    (img.setPixel x y vals).data =
      writeList img.data ((y * img.width + x) * img.channels) vals := rfl

theorem writeCol_self (w x : Nat) (hx : x < w) : writeCol w x 0 = x := by
  rw [writeCol]
  omega

theorem encode_lt (y x c w h ch : Nat) (hy : y < h) (hx : x < w) (hc : c < ch) :
    (y * w + x) * ch + c < w * h * ch := by
  have h1 : y * w + x + 1 ≤ h * w := by
    have h2 : (y + 1) * w ≤ h * w := Nat.mul_le_mul_right w (by omega)
    have h3 : y * w + x + 1 ≤ (y + 1) * w := by
      have : (y + 1) * w = y * w + w := by ring
      omega
    omega
  have h4 : (y * w + x + 1) * ch ≤ (h * w) * ch := Nat.mul_le_mul_right ch h1
  have h5 : (y * w + x + 1) * ch = (y * w + x) * ch + ch := by ring
  have h6 : (h * w) * ch = w * h * ch := by ring
  omega

theorem primeRows_r0 (h : Nat) (hh : 1 ≤ h) : primeRows h 0 = [0] := by
  rw [primeRows, show (2 * 0 + 1 : Nat) = 1 from rfl, show List.range 1 = [0] from rfl,
    List.map_cons, List.map_nil]
  have e : (iclamp (((0 : Nat) : Int) - ((0 : Nat) : Int)) 0 ((h : Int) - 1)).toNat = 0 := by
    rw [iclamp]
    omega
  rw [e]

/-- Strip invariant of the radius-0 median driver: after the rows up to `j`
of strip column `x` have been processed, the strip column holds the input
bytes up to row `j`, every other position still holds `out0`, and every
channel engine is in the weight-1 delta state of row `j`. -/

theorem initColsMed10 (input out0 : Image) (x : Nat)
    (hx : x < input.width) (hh : 1 ≤ input.height)
    (hb : ∀ b ∈ input.data, b < 256)
    (how : out0.width = input.width) (hoh : out0.height = input.height)
    (hoc : out0.channels = input.channels)
    (hol : out0.data.length = input.width * input.height * input.channels) :
    ∃ st, initColsMed input out0 (List.replicate input.channels (MedianHist.new 0 1))
        0 1 1 x = some st ∧ StripInv input out0 x 0 st := by
  simp only [initColsMed]
  rw [primeRows_r0 input.height hh, List.foldl_cons, List.foldl_nil]
  -- per-channel state after priming and init_pivots
  have hlen1 : (addRowMed (List.replicate input.channels (MedianHist.new 0 1))
      (rowSlice input 1 0 x 0) true).length = input.channels := by
    rw [addRowMed_length, List.length_replicate]
  have hlen2 : ((addRowMed (List.replicate input.channels (MedianHist.new 0 1))
      (rowSlice input 1 0 x 0) true).map MedianHist.init_pivots).length =
      input.channels := by
    rw [List.length_map, hlen1]
  have hstate2 : ∀ c, c < input.channels →
      MState (px (rowSlice input 1 0 x 0) 0 c) 0 0
        (((addRowMed (List.replicate input.channels (MedianHist.new 0 1))
          (rowSlice input 1 0 x 0) true).map MedianHist.init_pivots).getD c
            (MedianHist.new 0 1)) := by
    intro c hc
    rw [getD_map' MedianHist.init_pivots _ c (MedianHist.new 0 1) (MedianHist.new 0 1)
      (by rw [hlen1]; exact hc)]
    rw [addRowMed_getD _ _ true c (by rw [List.length_replicate]; exact hc)]
    rw [getD_replicate, ite_self]
    exact MState_init (rowSlice input 1 0 x 0) c _ rfl
      (fun k => px_slice_lt_256 input hb 1 0 x 0 k c)
  -- channel fold
  obtain ⟨hists3, hfold, hflen, hfout, hfin⟩ :=
    chanFoldM (initMedChannel 1 0) (fun c => px (rowSlice input 1 0 x 0) 0 c)
      (fun c h => { h with sums := h.sums.set 0 0 })
      (fun c h => MState (px (rowSlice input 1 0 x 0) 0 c) 0 0 h)
      (fun acc1 hists c hP => initMedChannel_hF input x 0 hb acc1 hists c hP)
      input.channels 0 []
      ((addRowMed (List.replicate input.channels (MedianHist.new 0 1))
        (rowSlice input 1 0 x 0) true).map MedianHist.init_pivots)
      (by rw [hlen2]; omega) (fun c hc1 hc2 => hstate2 c (by omega))
  rw [show List.range 1 = [0] from rfl, List.foldlM_cons, List.range_eq_range']
  rw [hfold]
  simp only [Option.bind_eq_bind, Option.some_bind, List.foldlM_nil, Option.pure_def,
    List.nil_append]
  refine ⟨_, rfl, ?_⟩
  -- now prove StripInv for the constructed state
  rw [← List.range_eq_range']
  constructor
  · rw [setPixel_width]
    exact how
  constructor
  · rw [setPixel_height]
    exact hoh
  constructor
  · rw [setPixel_channels]
    exact hoc
  constructor
  · rw [setPixel_data, writeList_length]
  constructor
  · -- template positions
    intro y c hy hc
    rw [setPixel_data, writeCol_self input.width x hx, writeList_getD, how, hoc]
    by_cases hy0 : y = 0
    · subst hy0
      rw [if_pos ?_, if_pos (by omega)]
      · have e1 : (0 * input.width + x) * input.channels + c -
            (0 * input.width + x) * input.channels = c := by omega
        rw [e1, getD_map_range, if_pos hc, px_rowSlice_r0 input x 0 c hx, if_pos hc]
      · refine ⟨by omega, ?_, ?_⟩
        · rw [List.length_map, List.length_range]
          omega
        · rw [hol]
          exact encode_lt 0 x c input.width input.height input.channels hh hx hc
    · rw [if_neg ?_, if_neg (by omega)]
      intro ⟨hq1, hq2, hq3⟩
      rw [List.length_map, List.length_range] at hq2
      have hinj := encode_inj (y * input.width + x) (0 * input.width + x)
        c ((y * input.width + x) * input.channels + c - (0 * input.width + x) * input.channels)
        input.channels hc (by omega) (by omega)
      have : y * input.width = 0 := by
        have := hinj.1
        omega
      have hw1 : 1 ≤ input.width := by omega
      have : y = 0 := by
        rcases Nat.eq_zero_or_pos y with h0 | h0
        · exact h0
        · exfalso
          have : 1 * input.width ≤ y * input.width := Nat.mul_le_mul_right input.width h0
          omega
      omega
  constructor
  · -- non-template positions
    intro q hq
    rw [setPixel_data, writeCol_self input.width x hx, writeList_getD, how, hoc, if_neg]
    intro ⟨hq1, hq2, hq3⟩
    rw [List.length_map, List.length_range] at hq2
    have hP := hq 0 (q - (0 * input.width + x) * input.channels) hh
    generalize hA : (0 * input.width + x) * input.channels = A at hq1 hq2 hP
    exact hP (by omega) (by omega)
  constructor
  · rw [setPivotsMed_length, hflen, hlen2]
  · intro c hc
    rw [setPivotsMed_getD _ _ 0 c (by rw [hflen, hlen2]; exact hc),
      if_pos (by rw [List.length_map, List.length_range]; exact hc)]
    rw [hfin c (by omega) (by omega), getD_map_range, if_pos hc]
    obtain ⟨m1, m2, m3, m4, m5, m6, m7⟩ := hstate2 c hc
    refine ⟨m1, m2, m3, m4, m5, ?_, ?_⟩
    · rw [m6]
      rfl
    · rw [m7]
      rfl

theorem medRowStep10 (input out0 : Image) (x j : Nat)
    (hx : x < input.width) (hj1 : 1 ≤ j) (hj2 : j ≤ input.height - 1) (hh : 1 ≤ input.height)
    (hb : ∀ b ∈ input.data, b < 256)
    (hol : out0.data.length = input.width * input.height * input.channels)
    (st : Image × List MedianHist) (hInv : StripInv input out0 x (j - 1) st) :
    ∃ st', medRowStep input 0 1 1 x st j = some st' ∧ StripInv input out0 x j st' := by
  obtain ⟨i1, i2, i3, i4, i5, i6, i7, i8⟩ := hInv
  simp only [medRowStep]
  rw [show min (j + 0) (input.height - 1) = j from by omega]
  rw [show (iclamp ((j : Int) - ((0 : Nat) : Int) - 1) 0 ((input.height : Int) - 1)).toNat =
    j - 1 from by rw [iclamp]; omega]
  -- per-channel state after the paired add/remove
  have hlen1 : (addRowMed (addRowMed st.2 (rowSlice input 1 0 x j) true)
      (rowSlice input 1 0 x (j - 1)) false).length = input.channels := by
    rw [addRowMed_length, addRowMed_length, i7]
  have hstate : ∀ c, c < input.channels →
      MState (px (rowSlice input 1 0 x j) 0 c)
        (if px (rowSlice input 1 0 x j) 0 c < px (rowSlice input 1 0 x (j - 1)) 0 c
          then 1 else 0)
        (px (rowSlice input 1 0 x (j - 1)) 0 c)
        ((addRowMed (addRowMed st.2 (rowSlice input 1 0 x j) true)
          (rowSlice input 1 0 x (j - 1)) false).getD c (MedianHist.new 0 1)) := by
    intro c hc
    rw [addRowMed_getD _ _ false c (by rw [addRowMed_length, i7]; exact hc),
      addRowMed_getD _ _ true c (by rw [i7]; exact hc)]
    exact MState_step (st.2.getD c (MedianHist.new 0 1))
      (rowSlice input 1 0 x j) (rowSlice input 1 0 x (j - 1)) c
      (px (rowSlice input 1 0 x j) 0 c) (px (rowSlice input 1 0 x (j - 1)) 0 c)
      (i8 c hc) rfl (fun k => px_slice_lt_256 input hb 1 0 x j k c)
      rfl (fun k => px_slice_lt_256 input hb 1 0 x (j - 1) k c)
  -- the pivoted row search
  simp only [processRowMed]
  rw [i3, i1]
  obtain ⟨hists3, hfold, hflen, hfout, hfin⟩ :=
    chanFoldM (rowMedChannel 1 0) (fun c => px (rowSlice input 1 0 x j) 0 c)
      (fun c h => { h with sums := h.sums.set 0 0 })
      (fun c h => MState (px (rowSlice input 1 0 x j) 0 c)
        (if px (rowSlice input 1 0 x j) 0 c < px (rowSlice input 1 0 x (j - 1)) 0 c
          then 1 else 0)
        (px (rowSlice input 1 0 x (j - 1)) 0 c) h)
      (rowMedChannel_hF (fun c => px (rowSlice input 1 0 x j) 0 c)
        (fun c => px (rowSlice input 1 0 x (j - 1)) 0 c)
        (fun c => px_slice_lt_256 input hb 1 0 x j 0 c)
        (fun c => px_slice_lt_256 input hb 1 0 x (j - 1) 0 c))
      input.channels 0 []
      (addRowMed (addRowMed st.2 (rowSlice input 1 0 x j) true)
        (rowSlice input 1 0 x (j - 1)) false)
      (by rw [hlen1]; omega) (fun c hc1 hc2 => hstate c (by omega))
  rw [show List.range 1 = [0] from rfl, List.foldlM_cons, List.range_eq_range']
  rw [hfold]
  simp only [Option.bind_eq_bind, Option.some_bind, List.foldlM_nil, Option.pure_def,
    List.nil_append]
  refine ⟨_, rfl, ?_⟩
  rw [← List.range_eq_range']
  constructor
  · rw [setPixel_width]
    exact i1
  constructor
  · rw [setPixel_height]
    exact i2
  constructor
  · rw [setPixel_channels]
    exact i3
  constructor
  · rw [setPixel_data, writeList_length]
    exact i4
  constructor
  · intro y c hy hc
    rw [setPixel_data, writeCol_self input.width x hx, writeList_getD, i1, i3, i4, hol]
    by_cases hyj : y = j
    · subst hyj
      rw [if_pos ?_, if_pos (by omega)]
      · have e1 : (y * input.width + x) * input.channels + c -
            (y * input.width + x) * input.channels = c := by omega
        rw [e1, getD_map_range, if_pos hc, px_rowSlice_r0 input x y c hx, if_pos hc]
      · refine ⟨by omega, ?_, ?_⟩
        · rw [List.length_map, List.length_range]
          omega
        · exact encode_lt y x c input.width input.height input.channels hy hx hc
    · rw [if_neg ?_]
      · rw [i5 y c hy hc]
        by_cases hle : y ≤ j
        · rw [if_pos (by omega), if_pos hle]
        · rw [if_neg (by omega), if_neg hle]
      · intro ⟨hq1, hq2, hq3⟩
        rw [List.length_map, List.length_range] at hq2
        have hinj := encode_inj (y * input.width + x) (j * input.width + x)
          c ((y * input.width + x) * input.channels + c -
            (j * input.width + x) * input.channels)
          input.channels hc (by omega) (by omega)
        have h1 := hinj.1
        have hxw : x < input.width := hx
        have := encode_inj y j x x input.width hxw hxw (by omega)
        omega
  constructor
  · intro q hq
    rw [setPixel_data, writeCol_self input.width x hx, writeList_getD, i1, i3, if_neg]
    · exact i6 q hq
    · intro ⟨hq1, hq2, hq3⟩
      rw [List.length_map, List.length_range] at hq2
      have hP := hq j (q - (j * input.width + x) * input.channels) (by omega)
      generalize hA : (j * input.width + x) * input.channels = A at hq1 hq2 hP
      exact hP (by omega) (by omega)
  constructor
  · rw [setPivotsMed_length, hflen, hlen1]
  · intro c hc
    rw [setPivotsMed_getD _ _ 0 c (by rw [hflen, hlen1]; exact hc),
      if_pos (by rw [List.length_map, List.length_range]; exact hc)]
    rw [hfin c (by omega) (by omega), getD_map_range, if_pos hc]
    obtain ⟨m1, m2, m3, m4, m5, m6, m7⟩ := hstate c hc
    refine ⟨m1, m2, m3, m4, m5, ?_, ?_⟩
    · rw [m6]
      split_ifs <;> rfl
    · rw [m7]
      rfl

theorem medRowFold10 (input out0 : Image) (x : Nat)
    (hx : x < input.width) (hh : 1 ≤ input.height)
    (hb : ∀ b ∈ input.data, b < 256)
    (hol : out0.data.length = input.width * input.height * input.channels) :
    ∀ (m j0 : Nat), 1 ≤ j0 → j0 + m ≤ input.height →
    ∀ st, StripInv input out0 x (j0 - 1) st →
    ∃ st', (List.range' j0 m).foldlM (medRowStep input 0 1 1 x) st = some st' ∧
      StripInv input out0 x (j0 + m - 1) st' := by
  intro m
  induction m with
  | zero =>
    intro j0 h1 h2 st hInv
    refine ⟨st, ?_, ?_⟩
    · rw [show List.range' j0 0 = [] from rfl, List.foldlM_nil]
      rfl
    · rw [show j0 + 0 - 1 = j0 - 1 from by omega]
      exact hInv
  | succ m ih =>
    intro j0 h1 h2 st hInv
    rw [List.range'_succ, List.foldlM_cons]
    obtain ⟨st1, he1, hI1⟩ :=
      medRowStep10 input out0 x j0 hx h1 (by omega) hh hb hol st hInv
    rw [he1]
    simp only [Option.bind_eq_bind, Option.some_bind]
    obtain ⟨st', he2, hI2⟩ := ih (j0 + 1) (by omega) (by omega) st1
      (by rw [show j0 + 1 - 1 = j0 from by omega]; exact hI1)
    refine ⟨st', he2, ?_⟩
    rw [show j0 + (m + 1) - 1 = j0 + 1 + m - 1 from by omega]
    exact hI2

theorem processColsMed10 (input out0 : Image) (x : Nat)
    (hx : x < input.width) (hh : 1 ≤ input.height)
    (hb : ∀ b ∈ input.data, b < 256)
    (how : out0.width = input.width) (hoh : out0.height = input.height)
    (hoc : out0.channels = input.channels)
    (hol : out0.data.length = input.width * input.height * input.channels) :
    ∃ out', processColsMed input out0 0 1 x = some out' ∧
      out'.width = input.width ∧ out'.height = input.height ∧
      out'.channels = input.channels ∧ out'.data.length = out0.data.length ∧
      (∀ y c, y < input.height → c < input.channels →
        out'.data.getD ((y * input.width + x) * input.channels + c) 0 =
          input.data.getD ((y * input.width + x) * input.channels + c) 0) ∧
      (∀ q, (∀ y c, y < input.height → c < input.channels →
          q ≠ (y * input.width + x) * input.channels + c) →
        out'.data.getD q 0 = out0.data.getD q 0) := by
  simp only [processColsMed]
  rw [show ((((2 * 0 + 1) * (2 * 0 + 1) / 2 + 1 : Nat)) : Int) = 1 from by norm_num]
  obtain ⟨st, he1, hI1⟩ := initColsMed10 input out0 x hx hh hb how hoh hoc hol
  rw [he1]
  simp only [Option.bind_eq_bind, Option.some_bind]
  obtain ⟨st', he2, hI2⟩ := medRowFold10 input out0 x hx hh hb hol
    (input.height - 1) 1 (le_refl 1) (by omega) st
    (by rw [show (1 : Nat) - 1 = 0 from rfl]; exact hI1)
  rw [he2]
  simp only [Option.bind_eq_bind, Option.some_bind]
  obtain ⟨i1, i2, i3, i4, i5, i6, i7, i8⟩ := hI2
  refine ⟨st'.1, rfl, i1, i2, i3, i4, ?_, i6⟩
  intro y c hy hc
  rw [i5 y c hy hc, if_pos (by omega)]

theorem stripFold10 (input : Image) (hh : 1 ≤ input.height)
    (hb : ∀ b ∈ input.data, b < 256) :
    ∀ (m s0 : Nat) (out : Image), s0 + m ≤ input.width →
      out.width = input.width → out.height = input.height →
      out.channels = input.channels →
      out.data.length = input.width * input.height * input.channels →
      (∀ y x' c, y < input.height → x' < input.width → c < input.channels → x' < s0 →
        out.data.getD ((y * input.width + x') * input.channels + c) 0 =
          input.data.getD ((y * input.width + x') * input.channels + c) 0) →
      ∃ out', (List.range' s0 m).foldlM
          (fun o x => processColsMed input o 0 1 x) out = some out' ∧
        out'.width = input.width ∧ out'.height = input.height ∧
        out'.channels = input.channels ∧
        out'.data.length = input.width * input.height * input.channels ∧
        (∀ y x' c, y < input.height → x' < input.width → c < input.channels →
          x' < s0 + m →
          out'.data.getD ((y * input.width + x') * input.channels + c) 0 =
            input.data.getD ((y * input.width + x') * input.channels + c) 0) := by
  intro m
  induction m with
  | zero =>
    intro s0 out hsm h1 h2 h3 h4 h5
    refine ⟨out, ?_, h1, h2, h3, h4, fun y x' c hy hx' hc hlt => h5 y x' c hy hx' hc (by omega)⟩
    rw [show List.range' s0 0 = [] from rfl, List.foldlM_nil]
    rfl
  | succ m ih =>
    intro s0 out hsm h1 h2 h3 h4 h5
    rw [List.range'_succ, List.foldlM_cons]
    obtain ⟨out1, he1, j1, j2, j3, j4, j5, j6⟩ :=
      processColsMed10 input out s0 (by omega) hh hb h1 h2 h3 h4
    rw [he1]
    simp only [Option.bind_eq_bind, Option.some_bind]
    obtain ⟨out', he2, k1, k2, k3, k4, k5⟩ := ih (s0 + 1) out1 (by omega) j1 j2 j3
      (by rw [j4, h4])
      (by
        intro y x' c hy hx' hc hlt
        by_cases hxs : x' = s0
        · subst hxs
          exact j5 y c hy hc
        · rw [j6 _ ?_]
          · exact h5 y x' c hy hx' hc (by omega)
          · intro y' c' hy' hc'
            intro heq
            have hinj := encode_inj (y * input.width + x') (y' * input.width + s0)
              c c' input.channels hc hc' heq
            have hinj2 := encode_inj y y' x' s0 input.width hx' (by omega) hinj.1
            exact hxs hinj2.2)
    refine ⟨out', he2, k1, k2, k3, k4, ?_⟩
    intro y x' c hy hx' hc hlt
    exact k5 y x' c hy hx' hc (by omega)

theorem stripOrigins_one (w : Nat) : stripOrigins w 1 = List.range w := by
  rw [stripOrigins]
  rw [show (w + 1 - 1) / 1 = w from by omega]
  exact (map_congr_on _ _ _ (fun a _ => Nat.mul_one a)).trans (map_ident _)

/-- C10: with radius 0 the strip width is 1, every window is the single
clamped pixel itself, and the driver writes each input byte back unchanged:
`median_filter` at radius 0 is the degenerate identity (it returns `Ok`,
never an `InvalidArgument`). -/

theorem C10_radius_zero_identity (input : Image)
    (hw : 1 ≤ input.width) (hh : 1 ≤ input.height)
    (hlen : input.data.length = input.width * input.height * input.channels)
    (hb : ∀ b ∈ input.data, b < 256) :
    medianFilter input 0 = some input := by
  rw [medianFilter, show nColsOf 0 = 1 from by decide, medianFilterWith, stripOrigins_one,
    List.range_eq_range']
  obtain ⟨out', he, hw', hh', hc', hl', hcov⟩ :=
    stripFold10 input hh hb input.width 0 (Image.blank input) (by omega) rfl rfl rfl
      (by rw [Image.blank, List.length_replicate])
      (fun y x' c hy hx' hc hlt => absurd hlt (by omega))
  rw [he]
  have hdata : out'.data = input.data := by
    apply List.ext_getElem (by rw [hl', hlen])
    intro i hi1 hi2
    have hgd : ∀ (l : List Nat) (i : Nat) (h : i < l.length), l[i] = l.getD i 0 := by
      intro l i h
      rw [List.getD_eq_getElem?_getD, List.getElem?_eq_getElem h]
      rfl
    rw [hgd _ _ hi1, hgd _ _ hi2]
    rw [hl'] at hi1
    have hch : 0 < input.channels := by
      rcases Nat.eq_zero_or_pos input.channels with h0 | h0
      · rw [h0, Nat.mul_zero] at hi1
        omega
      · exact h0
    have hwpos : 0 < input.width := by omega
    have hd1 := Nat.div_add_mod i input.channels
    have hd2 := Nat.div_add_mod (i / input.channels) input.width
    have hylt : i / input.channels / input.width < input.height := by
      rw [Nat.div_lt_iff_lt_mul hwpos]
      rw [Nat.div_lt_iff_lt_mul hch]
      calc i < input.width * input.height * input.channels := hi1
        _ = input.height * input.width * input.channels := by ring
    have hxlt : (i / input.channels) % input.width < input.width := Nat.mod_lt _ hwpos
    have hclt : i % input.channels < input.channels := Nat.mod_lt _ hch
    have he2 : ((i / input.channels / input.width) * input.width +
        (i / input.channels) % input.width) * input.channels + i % input.channels = i := by
      have e3 : ((i / input.channels / input.width) * input.width +
          (i / input.channels) % input.width) * input.channels + i % input.channels =
          input.channels * (input.width * (i / input.channels / input.width) +
            (i / input.channels) % input.width) + i % input.channels := by
        ring
      rw [e3, hd2, hd1]
    have hres := hcov (i / input.channels / input.width)
      ((i / input.channels) % input.width) (i % input.channels) hylt hxlt hclt
      (by omega)
    rw [he2] at hres
    exact hres
  obtain ⟨w, h, ch, d⟩ := input
  obtain ⟨ow, oh, och, od⟩ := out'
  simp only at hw' hh' hc' hdata
  rw [hw', hh', hc', hdata]

/-- Witness instantiating the radius-0 identity on a concrete image. -/

theorem C10_radius_zero_identity_witness :
    (1 ≤ (Image.mk 2 2 1 [5, 6, 7, 8]).width ∧ 1 ≤ (Image.mk 2 2 1 [5, 6, 7, 8]).height ∧
      (Image.mk 2 2 1 [5, 6, 7, 8]).data.length =
        (Image.mk 2 2 1 [5, 6, 7, 8]).width * (Image.mk 2 2 1 [5, 6, 7, 8]).height *
          (Image.mk 2 2 1 [5, 6, 7, 8]).channels ∧
      (∀ b ∈ (Image.mk 2 2 1 [5, 6, 7, 8]).data, b < 256)) ∧
    medianFilter (Image.mk 2 2 1 [5, 6, 7, 8]) 0 = some (Image.mk 2 2 1 [5, 6, 7, 8]) :=
  ⟨⟨by decide, by decide, by decide, by decide⟩,
    C10_radius_zero_identity (Image.mk 2 2 1 [5, 6, 7, 8]) (by decide) (by decide)
      (by decide) (by decide)⟩

/-- Constant-valued image. -/

theorem iclamp_toNat_lt (x j radius w : Nat) (hw : 1 ≤ w) :
    (iclamp ((x : Int) + (j : Int) - radius) 0 ((w : Int) - 1)).toNat < w := by
  rw [iclamp]
  omega

theorem px_rowSlice_const (w h ch k nCols radius x row j c : Nat)
    (hw : 1 ≤ w) (hrow : row < h) (hj : j < nCols + 2 * radius) (hc : c < ch) :
    px (rowSlice (constImage w h ch k) nCols radius x row) j c = k := by
  rw [px, rowSlice, getD_map_range, if_pos hj, Image.getPixel, getD_map_range,
    show (constImage w h ch k).channels = ch from rfl, if_pos hc,
    show (constImage w h ch k).data = List.replicate (w * h * ch) k from rfl,
    show (constImage w h ch k).width = w from rfl, getD_replicate]
  rw [if_pos (encode_lt row _ c w h ch hrow (iclamp_toNat_lt x j radius w hw) hc)]

theorem px_rowSlice_const_lt (w h ch k nCols radius x row j c : Nat) (hk : k < 256) :
    px (rowSlice (constImage w h ch k) nCols radius x row) j c < 256 := by
  apply px_slice_lt_256
  intro b hb
  rw [show (constImage w h ch k).data = List.replicate (w * h * ch) k from rfl] at hb
  rw [List.eq_of_mem_replicate hb]
  exact hk

/-- Prefix-of-`k` pivot vector reached after the first `i0` columns of the
init loop have stored their medians. -/

theorem map_const_replicate {α β : Type} (b : β) : ∀ l : List α,
    l.map (fun _ => b) = List.replicate l.length b := by
  intro l
  induction l with
  | nil => rfl
  | cons x l ih => rw [List.map_cons, ih, List.length_cons, List.replicate_succ]

theorem pivPrefix_zero (N k : Nat) : pivPrefix N k 0 = List.replicate N 0 := by
  rw [pivPrefix]
  have e : (List.range N).map (fun i => if i < 0 then k else 0) =
      (List.range N).map (fun _ => 0) :=
    map_congr_on _ _ _ (fun a _ => by rw [if_neg (by omega)])
  rw [e, map_const_replicate, List.length_range]

theorem pivPrefix_full (N k : Nat) : pivPrefix N k N = List.replicate N k := by
  rw [pivPrefix]
  have e : (List.range N).map (fun i => if i < N then k else 0) =
      (List.range N).map (fun _ => k) :=
    map_congr_on _ _ _ (fun a ha => by rw [if_pos (List.mem_range.mp ha)])
  rw [e, map_const_replicate, List.length_range]

theorem pivPrefix_set (N k i0 : Nat) (hi : i0 < N) :
    (pivPrefix N k i0).set i0 k = pivPrefix N k (i0 + 1) := by
  apply List.ext_getElem
  · simp only [List.length_set, pivPrefix, List.length_map]
  · intro i h1 h2
    simp only [pivPrefix, List.length_set, List.length_map, List.length_range] at h1
    rw [List.getElem_set]
    simp only [pivPrefix, List.getElem_map, List.getElem_range]
    by_cases hii : i0 = i
    · rw [if_pos hii, if_pos (by omega)]
    · rw [if_neg hii]
      by_cases hlt : i < i0
      · rw [if_pos hlt, if_pos (by omega)]
      · rw [if_neg hlt, if_neg (by omega)]

theorem set_replicate_self {α : Type} (N i : Nat) (z : α) :
    (List.replicate N z).set i z = List.replicate N z := by
  have h := set_getD_self (List.replicate N z) i z
  rwa [getD_replicate, ite_self] at h

theorem getD_replicate_int_zero (N i : Nat) :
    (List.replicate N (0 : Int)).getD i 0 = 0 := by
  rw [getD_replicate, ite_self]

/-- Per-channel engine state of the constant-image median run: a delta
bank of weight `size²` at key `k` in every column, zero sums, and pivot
vector `piv`. -/

theorem center9_pos (radius : Nat) :
    1 ≤ ((((2 * radius + 1) * (2 * radius + 1) / 2 + 1 : Nat)) : Int) := by
  have : 1 ≤ (2 * radius + 1) * (2 * radius + 1) / 2 + 1 := by omega
  exact_mod_cast this

theorem center9_le (radius : Nat) :
    ((((2 * radius + 1) * (2 * radius + 1) / 2 + 1 : Nat)) : Int) ≤
      ((2 * radius + 1 : Nat) : Int) * ((2 * radius + 1 : Nat) : Int) := by
  have h1 : 1 ≤ (2 * radius + 1) * (2 * radius + 1) := by
    have := Nat.mul_le_mul (show 1 ≤ 2 * radius + 1 from by omega)
      (show 1 ≤ 2 * radius + 1 from by omega)
    omega
  have h2 : (2 * radius + 1) * (2 * radius + 1) / 2 + 1 ≤
      (2 * radius + 1) * (2 * radius + 1) := by omega
  calc ((((2 * radius + 1) * (2 * radius + 1) / 2 + 1 : Nat)) : Int) ≤
      (((2 * radius + 1) * (2 * radius + 1) : Nat) : Int) := by exact_mod_cast h2
    _ = ((2 * radius + 1 : Nat) : Int) * ((2 * radius + 1 : Nat) : Int) := by push_cast; ring

theorem MHupdate_sums_const (st : MedianHist) (pIn : List (List Nat)) (ci : Nat) (add : Bool)
    (N k : Nat) (hN : st.data.nCols = N) (hsz : st.data.size = 2 * st.data.radius + 1)
    (hp : st.pivots = List.replicate N k) (hN1 : 1 ≤ N)
    (hconst : ∀ idx, idx < N + 2 * st.data.radius → px pIn idx ci = k) :
    (st.update pIn ci add).sums = st.sums := by
  obtain ⟨n, rfl⟩ : ∃ n, N = n + 1 := ⟨N - 1, by omega⟩
  simp only [MedianHist.update, hp, List.replicate_succ, List.isEmpty_cons,
    Bool.false_eq_true, if_false, hN]
  apply foldl_fix
  intro s nn hnn
  apply foldl_fix
  intro s' idx hidx
  have hnn2 : nn < n + 1 := List.mem_range.mp hnn
  have hidx2 := List.mem_range'_1.mp hidx
  rw [if_neg]
  rw [show (k :: List.replicate n k).getD nn 0 = k from by
      rw [← List.replicate_succ, getD_replicate, if_pos hnn2],
    hconst idx (by omega)]
  omega

theorem CState9_update2 (h : MedianHist) (pIn pOut : List (List Nat)) (c N radius k : Nat)
    (hC : CState9 N radius k (List.replicate N k) h) (hN1 : 1 ≤ N) (hk : k < 256)
    (hIn : ∀ idx, idx < N + 2 * radius → px pIn idx c = k)
    (hIn2 : ∀ j, px pIn j c < 256)
    (hOut : ∀ idx, idx < N + 2 * radius → px pOut idx c = k)
    (hOut2 : ∀ j, px pOut j c < 256)
    (hodd : N = 2 * (N / 2) + 1) :
    CState9 N radius k (List.replicate N k) ((h.update pIn c true).update pOut c false) := by
  obtain ⟨h1, h2, h3, h4, hdb, hs, hp⟩ := hC
  have hd2 : ((h.update pIn c true).update pOut c false).data =
      (h.data.update pIn c true).update pOut c false := rfl
  refine ⟨?_, ?_, ?_, ?_, ?_, ?_, ?_⟩
  · rw [hd2, update_nCols, update_nCols, h1]
  · rw [hd2, update_nHalf, update_nHalf, h2]
  · rw [hd2, update_radius, update_radius, h3]
  · rw [hd2, update_size, update_size, h4]
  · rw [hd2]
    refine DeltaBank_step h.data pIn pOut c k k _ (by rw [h1, h2]; exact hodd)
      (by rw [h4, h3]) (fun j hj => hIn j (by rw [h1, h3] at hj; omega)) hIn2
      (fun j hj => hOut j (by rw [h1, h3] at hj; omega)) hOut2
      (Or.inl rfl) (by rw [h4]) hdb
  · have hpiv1 : (h.update pIn c true).pivots = List.replicate N k := by
      rw [MHupdate_pivots, hp]
    have hsums1 : (h.update pIn c true).sums = h.sums :=
      MHupdate_sums_const h pIn c true N k h1 (by rw [h4, h3]) hp hN1
        (fun idx hi => hIn idx (by rw [h3] at hi; omega))
    have hsums2 : ((h.update pIn c true).update pOut c false).sums =
        (h.update pIn c true).sums :=
      MHupdate_sums_const (h.update pIn c true) pOut c false N k
        (by rw [MHupdate_data, update_nCols, h1])
        (by rw [MHupdate_data, update_size, update_radius, h4, h3]) hpiv1 hN1
        (fun idx hi => hOut idx (by rw [MHupdate_data, update_radius, h3] at hi; omega))
    rw [hsums2, hsums1, hs]
  · rw [MHupdate_pivots, MHupdate_pivots, hp]

theorem initMedChannel_hF9 (N radius k i : Nat) (hi : i < N) (hk : k < 256)
    (piv : List Nat) :
    ∀ (acc1 : List Nat) (hists : List MedianHist) (c : Nat),
      CState9 N radius k piv (hists.getD c (MedianHist.new 0 1)) →
      initMedChannel ((((2 * radius + 1) * (2 * radius + 1) / 2 + 1 : Nat)) : Int) i
        (acc1, hists) c =
        some (acc1 ++ [k],
          hists.set c { hists.getD c (MedianHist.new 0 1) with
            sums := (hists.getD c (MedianHist.new 0 1)).sums.set i 0 }) := by
  intro acc1 hists c hC
  obtain ⟨h1, h2, h3, h4, ⟨hwf, hprof⟩, hs, hp⟩ := hC
  simp only [initMedChannel]
  rw [List.range_eq_range']
  rw [medScanUp_delta (hists.getD c (MedianHist.new 0 1)).data i k _ _
    (center9_pos radius) (center9_le radius)
    (fun k' hk' => hprof i k' (by rw [h1]; exact hi) hk') hk 256 0 rfl (by omega)]

theorem rowMedChannel_hF9 (N radius k i : Nat) (hi : i < N) (hk : k < 256) :
    ∀ (acc1 : List Nat) (hists : List MedianHist) (c : Nat),
      CState9 N radius k (List.replicate N k) (hists.getD c (MedianHist.new 0 1)) →
      rowMedChannel ((((2 * radius + 1) * (2 * radius + 1) / 2 + 1 : Nat)) : Int) i
        (acc1, hists) c =
        some (acc1 ++ [k],
          hists.set c { hists.getD c (MedianHist.new 0 1) with
            sums := (hists.getD c (MedianHist.new 0 1)).sums.set i 0 }) := by
  intro acc1 hists c hC
  obtain ⟨h1, h2, h3, h4, ⟨hwf, hprof⟩, hs, hp⟩ := hC
  simp only [rowMedChannel]
  rw [hp, hs, getD_replicate_int_zero, getD_replicate, if_pos hi]
  rw [if_pos (by have := center9_pos radius; omega)]
  rw [medScanUp_delta (hists.getD c (MedianHist.new 0 1)).data i k _ _
    (center9_pos radius) (center9_le radius)
    (fun k' hk' => hprof i k' (by rw [h1]; exact hi) hk') hk (256 - k) k (by omega)
    (by omega)]

theorem addRowMedFold_getD (slice : Nat → List (List Nat)) :
    ∀ (rows : List Nat) (hists : List MedianHist) (c : Nat), c < hists.length →
      ((rows.foldl (fun hs j => addRowMed hs (slice j) true) hists).getD c
          (MedianHist.new 0 1) =
        rows.foldl (fun hst j => hst.update (slice j) c true)
          (hists.getD c (MedianHist.new 0 1))) ∧
      (rows.foldl (fun hs j => addRowMed hs (slice j) true) hists).length =
        hists.length := by
  intro rows
  induction rows with
  | nil => intro hists c hc; exact ⟨rfl, rfl⟩
  | cons r rows ih =>
    intro hists c hc
    rw [List.foldl_cons, List.foldl_cons]
    have h := ih (addRowMed hists (slice r) true) c (by rw [addRowMed_length]; exact hc)
    refine ⟨?_, h.2.trans (addRowMed_length _ _ _)⟩
    rw [h.1, addRowMed_getD _ _ _ c hc]

theorem MHfoldAdd_proj (slice : Nat → List (List Nat)) (c : Nat) :
    ∀ (rows : List Nat) (hst : MedianHist), hst.pivots = [] →
      (rows.foldl (fun s j => s.update (slice j) c true) hst).data =
        rows.foldl (fun d j => d.update (slice j) c true) hst.data ∧
      (rows.foldl (fun s j => s.update (slice j) c true) hst).sums = hst.sums ∧
      (rows.foldl (fun s j => s.update (slice j) c true) hst).pivots = [] := by
  intro rows
  induction rows with
  | nil => intro hst hp; exact ⟨rfl, rfl, hp⟩
  | cons r rows ih =>
    intro rows0 hp
    rw [List.foldl_cons, List.foldl_cons]
    have h := ih (rows0.update (slice r) c true) (by rw [MHupdate_pivots]; exact hp)
    refine ⟨?_, ?_, h.2.2⟩
    · rw [h.1, MHupdate_data]
    · rw [h.2.1, MHupdate_sums_empty rows0 _ c true hp]

theorem primeRows_lt (h radius : Nat) (hgt : 1 ≤ h) : ∀ rr ∈ primeRows h radius, rr < h := by
  intro rr hrr
  rw [primeRows] at hrr
  obtain ⟨t, ht, rfl⟩ := List.mem_map.mp hrr
  rw [iclamp]
  omega

theorem primeRows_length (h radius : Nat) : (primeRows h radius).length = 2 * radius + 1 := by
  rw [primeRows, List.length_map, List.length_range]

theorem CState9_primed (w h ch k N radius x c : Nat)
    (hw : 1 ≤ w) (hh : 1 ≤ h) (hx : x < w) (hc : c < ch) (hk : k < 256)
    (hodd : N = 2 * (N / 2) + 1) :
    CState9 N radius k (List.replicate N 0)
      ((((primeRows h radius).foldl
          (fun hs j => addRowMed hs (rowSlice (constImage w h ch k) N radius x j) true)
          (List.replicate ch (MedianHist.new radius N))).map
        MedianHist.init_pivots).getD c (MedianHist.new 0 1)) := by
  have hlenrep : (List.replicate ch (MedianHist.new radius N)).length = ch :=
    List.length_replicate ch _
  have hfold := addRowMedFold_getD (fun j => rowSlice (constImage w h ch k) N radius x j)
    (primeRows h radius) (List.replicate ch (MedianHist.new radius N)) c
    (by rw [hlenrep]; exact hc)
  rw [getD_map' MedianHist.init_pivots _ c (MedianHist.new 0 1) (MedianHist.new 0 1)
    (by rw [hfold.2, hlenrep]; exact hc)]
  rw [hfold.1, getD_replicate, if_pos hc]
  have hproj := MHfoldAdd_proj (fun j => rowSlice (constImage w h ch k) N radius x j) c
    (primeRows h radius) (MedianHist.new radius N) rfl
  have hdata : ((primeRows h radius).foldl
      (fun s j => s.update (rowSlice (constImage w h ch k) N radius x j) c true)
      (MedianHist.new radius N)).init_pivots.data =
      (primeRows h radius).foldl
        (fun d j => d.update (rowSlice (constImage w h ch k) N radius x j) c true)
        (PartHist.new radius N) := by
    rw [MHinit_pivots_data, hproj.1]
    rfl
  have hfields := foldAdd_fields (fun j => rowSlice (constImage w h ch k) N radius x j) c
    (primeRows h radius) (PartHist.new radius N)
  have hnc : ((primeRows h radius).foldl
      (fun d j => d.update (rowSlice (constImage w h ch k) N radius x j) c true)
      (PartHist.new radius N)).nCols = N := hfields.1
  have hoddnew : (PartHist.new radius N).nCols = 2 * (PartHist.new radius N).nHalf + 1 := by
    show N = 2 * (N / 2) + 1
    exact hodd
  refine ⟨?_, ?_, ?_, ?_, ?_, ?_, ?_⟩
  · rw [hdata]
    exact hnc
  · rw [hdata]
    exact hfields.2.1
  · rw [hdata]
    exact hfields.2.2.1
  · rw [hdata]
    exact hfields.2.2.2
  · rw [hdata]
    constructor
    · rw [hnc]
      have := foldAdd_hwf (fun j => rowSlice (constImage w h ch k) N radius x j) c
        (primeRows h radius) (PartHist.new radius N) hoddnew (hwf_new radius N)
      exact this
    · intro i k' hi hk'
      rw [hnc] at hi
      rw [foldAdd_get_count (fun j => rowSlice (constImage w h ch k) N radius x j) c
        (primeRows h radius) (PartHist.new radius N) hoddnew rfl (hwf_new radius N)
        (fun rr j => px_rowSlice_const_lt w h ch k N radius x rr j c hk) i k'
        (by exact hi) hk', get_count_new, new_size]
      have hwc : ((primeRows h radius).map
          (fun rr => windowCount (rowSlice (constImage w h ch k) N radius x rr) c
            (2 * radius + 1) i k')) =
          ((primeRows h radius).map
            (fun _ => if k' = k then ((2 * radius + 1 : Nat) : Int) else 0)) := by
        apply map_congr_on
        intro rr hrr
        exact windowCount_const _ c (2 * radius + 1) i k k'
          (fun j hj1 hj2 => px_rowSlice_const w h ch k N radius x rr j c hw
            (primeRows_lt h radius hh rr hrr) (by omega) hc)
      rw [hwc, sum_const_int, primeRows_length]
      by_cases hkk : k' = k
      · rw [if_pos hkk, if_pos hkk]
        push_cast
        ring
      · rw [if_neg hkk, if_neg hkk]
        ring
  · rw [MHinit_pivots_sums, hproj.2.1]
    rfl
  · rw [MHinit_pivots_pivots, hproj.1]
    rw [show (MedianHist.new radius N).data = PartHist.new radius N from rfl, hnc]

/-- Body of the column loop of `init_cols_med` (abbreviation of the fold
function of `initColsMed`). -/

theorem initColsMed_eq (input output : Image) (hists : List MedianHist)
    (radius : Nat) (center : Int) (nCols x : Nat) :
    initColsMed input output hists radius center nCols x =
      (List.range nCols).foldlM (initColsMedStep input center x)
        (output,
          ((primeRows input.height radius).foldl
            (fun hs j => addRowMed hs (rowSlice input nCols radius x j) true) hists).map
            MedianHist.init_pivots) := rfl

/-- Body of the column loop of `process_row_med` (abbreviation of the fold
function of `processRowMed`). -/

theorem processRowMed_eq (output : Image) (hists : List MedianHist) (center : Int)
    (nCols x y : Nat) :
    processRowMed output hists center nCols x y =
      (List.range nCols).foldlM (processRowMedStep output center x y) (output, hists) := rfl

theorem writeCol_lt (w x i : Nat) (hw : 1 ≤ w) : writeCol w x i < w := by
  rw [writeCol]
  omega

theorem initColsMedStep9 (w h ch k N radius x i : Nat)
    (hw : 1 ≤ w) (hh : 1 ≤ h) (hx : x < w) (hk : k < 256) (hi : i < N)
    (img : Image) (hists : List MedianHist)
    (h1 : img.width = w) (h2 : img.height = h) (h3 : img.channels = ch)
    (h4 : img.data.length = w * h * ch) (h5 : hists.length = ch)
    (hC : ∀ c, c < ch → CState9 N radius k (pivPrefix N k i)
      (hists.getD c (MedianHist.new 0 1))) :
    ∃ st' : Image × List MedianHist,
      initColsMedStep (constImage w h ch k)
        ((((2 * radius + 1) * (2 * radius + 1) / 2 + 1 : Nat)) : Int) x (img, hists) i =
        some st' ∧
      st'.1.width = w ∧ st'.1.height = h ∧ st'.1.channels = ch ∧
      st'.1.data.length = w * h * ch ∧ st'.2.length = ch ∧
      (∀ c, c < ch → CState9 N radius k (pivPrefix N k (i + 1))
        (st'.2.getD c (MedianHist.new 0 1))) ∧
      (∀ c, c < ch →
        st'.1.data.getD ((0 * w + writeCol w x i) * ch + c) 0 = k) ∧
      (∀ q, st'.1.data.getD q 0 = k ∨ st'.1.data.getD q 0 = img.data.getD q 0) := by
  rw [initColsMedStep, show (constImage w h ch k).channels = ch from rfl,
    show (constImage w h ch k).width = w from rfl, List.range_eq_range']
  obtain ⟨hists', hfold, hflen, hfout, hfin⟩ :=
    chanFoldM (initMedChannel ((((2 * radius + 1) * (2 * radius + 1) / 2 + 1 : Nat)) : Int) i)
      (fun _ => k) (fun _ hst => { hst with sums := hst.sums.set i 0 })
      (fun c hst => CState9 N radius k (pivPrefix N k i) hst)
      (initMedChannel_hF9 N radius k i hi hk (pivPrefix N k i))
      ch 0 [] hists (by omega) (fun c hc1 hc2 => hC c (by omega))
  rw [hfold]
  simp only [Option.some_bind, List.nil_append]
  refine ⟨_, rfl, ?_, ?_, ?_, ?_, ?_, ?_, ?_, ?_⟩
  · rw [setPixel_width, h1]
  · rw [setPixel_height, h2]
  · rw [setPixel_channels, h3]
  · rw [setPixel_data, writeList_length, h4]
  · rw [setPivotsMed_length, hflen, h5]
  · intro c hc
    rw [setPivotsMed_getD _ _ i c (by rw [hflen, h5]; exact hc),
      if_pos (by rw [← List.range_eq_range', List.length_map, List.length_range]; exact hc)]
    rw [hfin c (by omega) (by omega)]
    obtain ⟨m1, m2, m3, m4, m5, m6, m7⟩ := hC c hc
    refine ⟨m1, m2, m3, m4, m5, ?_, ?_⟩
    · rw [m6, set_replicate_self]
    · rw [m7, ← List.range_eq_range', getD_map_range, if_pos hc, pivPrefix_set N k i hi]
  · intro c hc
    rw [setPixel_data, h1, h3, writeList_getD, if_pos]
    · rw [show (0 * w + writeCol w x i) * ch + c - (0 * w + writeCol w x i) * ch = c
        from by omega]
      rw [← List.range_eq_range', getD_map_range, if_pos hc]
    · refine ⟨by omega, ?_, ?_⟩
      · rw [← List.range_eq_range', List.length_map, List.length_range]
        omega
      · rw [h4]
        exact encode_lt 0 (writeCol w x i) c w h ch hh (writeCol_lt w x i hw) hc
  · intro q
    rw [setPixel_data, h1, h3, writeList_getD]
    by_cases hq : (0 * w + writeCol w x i) * ch ≤ q ∧
        q < (0 * w + writeCol w x i) * ch +
          ((List.range' 0 ch).map (fun _ => k)).length ∧ q < img.data.length
    · rw [if_pos hq]
      left
      obtain ⟨hq1, hq2, hq3⟩ := hq
      rw [← List.range_eq_range', List.length_map, List.length_range] at hq2
      rw [← List.range_eq_range', getD_map_range, if_pos (by omega)]
    · rw [if_neg hq]
      right
      rfl

theorem initIFold9 (w h ch k N radius x : Nat)
    (hw : 1 ≤ w) (hh : 1 ≤ h) (hx : x < w) (hk : k < 256) :
    ∀ (m i0 : Nat) (img : Image) (hists : List MedianHist),
      i0 + m ≤ N →
      img.width = w → img.height = h → img.channels = ch →
      img.data.length = w * h * ch → hists.length = ch →
      (∀ c, c < ch → CState9 N radius k (pivPrefix N k i0)
        (hists.getD c (MedianHist.new 0 1))) →
      ∃ st' : Image × List MedianHist,
        (List.range' i0 m).foldlM
          (initColsMedStep (constImage w h ch k)
            ((((2 * radius + 1) * (2 * radius + 1) / 2 + 1 : Nat)) : Int) x)
          (img, hists) = some st' ∧
        st'.1.width = w ∧ st'.1.height = h ∧ st'.1.channels = ch ∧
        st'.1.data.length = w * h * ch ∧ st'.2.length = ch ∧
        (∀ c, c < ch → CState9 N radius k (pivPrefix N k (i0 + m))
          (st'.2.getD c (MedianHist.new 0 1))) ∧
        (∀ c i', c < ch → i0 ≤ i' → i' < i0 + m →
          st'.1.data.getD ((0 * w + writeCol w x i') * ch + c) 0 = k) ∧
        (∀ q, st'.1.data.getD q 0 = k ∨ st'.1.data.getD q 0 = img.data.getD q 0) := by
  intro m
  induction m with
  | zero =>
    intro i0 img hists hm h1 h2 h3 h4 h5 hC
    refine ⟨(img, hists), ?_, h1, h2, h3, h4, h5,
      (by rw [Nat.add_zero]; exact hC), fun c i' _ hge hlt => absurd hlt (by omega),
      fun q => Or.inr rfl⟩
    rw [show List.range' i0 0 = [] from rfl, List.foldlM_nil]
    rfl
  | succ m ih =>
    intro i0 img hists hm h1 h2 h3 h4 h5 hC
    rw [List.range'_succ, List.foldlM_cons]
    obtain ⟨st1, he1, j1, j2, j3, j4, j5, j6, j7, j8⟩ :=
      initColsMedStep9 w h ch k N radius x i0 hw hh hx hk (by omega) img hists
        h1 h2 h3 h4 h5 hC
    rw [he1]
    simp only [Option.bind_eq_bind, Option.some_bind]
    obtain ⟨st', he2, k1, k2, k3, k4, k5, k6, k7, k8⟩ :=
      ih (i0 + 1) st1.1 st1.2 (by omega) j1 j2 j3 j4 j5 j6
    refine ⟨st', ?_, k1, k2, k3, k4, k5, ?_, ?_, ?_⟩
    · rw [← he2]
    · rw [show i0 + (m + 1) = i0 + 1 + m from by omega]
      exact k6
    · intro c i' hc hge hlt
      by_cases hii : i' = i0
      · subst hii
        rcases k8 ((0 * w + writeCol w x i') * ch + c) with hk8 | hk8
        · exact hk8
        · rw [hk8]
          exact j7 c hc
      · exact k7 c i' hc (by omega) (by omega)
    · intro q
      rcases k8 q with hk8 | hk8
      · exact Or.inl hk8
      · rw [hk8]
        exact j8 q

theorem processRowMedStep9 (w h ch k N radius x i y : Nat) (out : Image)
    (hw : 1 ≤ w) (hh : 1 ≤ h) (hx : x < w) (hk : k < 256) (hi : i < N) (hy : y < h)
    (how : out.width = w) (hoc : out.channels = ch)
    (img : Image) (hists : List MedianHist)
    (h1 : img.width = w) (h2 : img.height = h) (h3 : img.channels = ch)
    (h4 : img.data.length = w * h * ch) (h5 : hists.length = ch)
    (hC : ∀ c, c < ch → CState9 N radius k (List.replicate N k)
      (hists.getD c (MedianHist.new 0 1))) :
    ∃ st' : Image × List MedianHist,
      processRowMedStep out
        ((((2 * radius + 1) * (2 * radius + 1) / 2 + 1 : Nat)) : Int) x y (img, hists) i =
        some st' ∧
      st'.1.width = w ∧ st'.1.height = h ∧ st'.1.channels = ch ∧
      st'.1.data.length = w * h * ch ∧ st'.2.length = ch ∧
      (∀ c, c < ch → CState9 N radius k (List.replicate N k)
        (st'.2.getD c (MedianHist.new 0 1))) ∧
      (∀ c, c < ch →
        st'.1.data.getD ((y * w + writeCol w x i) * ch + c) 0 = k) ∧
      (∀ q, st'.1.data.getD q 0 = k ∨ st'.1.data.getD q 0 = img.data.getD q 0) := by
  rw [processRowMedStep, hoc, how, List.range_eq_range']
  obtain ⟨hists', hfold, hflen, hfout, hfin⟩ :=
    chanFoldM (rowMedChannel ((((2 * radius + 1) * (2 * radius + 1) / 2 + 1 : Nat)) : Int) i)
      (fun _ => k) (fun _ hst => { hst with sums := hst.sums.set i 0 })
      (fun c hst => CState9 N radius k (List.replicate N k) hst)
      (rowMedChannel_hF9 N radius k i hi hk)
      ch 0 [] hists (by omega) (fun c hc1 hc2 => hC c (by omega))
  rw [hfold]
  simp only [Option.some_bind, List.nil_append]
  refine ⟨_, rfl, ?_, ?_, ?_, ?_, ?_, ?_, ?_, ?_⟩
  · rw [setPixel_width, h1]
  · rw [setPixel_height, h2]
  · rw [setPixel_channels, h3]
  · rw [setPixel_data, writeList_length, h4]
  · rw [setPivotsMed_length, hflen, h5]
  · intro c hc
    rw [setPivotsMed_getD _ _ i c (by rw [hflen, h5]; exact hc),
      if_pos (by rw [← List.range_eq_range', List.length_map, List.length_range]; exact hc)]
    rw [hfin c (by omega) (by omega)]
    obtain ⟨m1, m2, m3, m4, m5, m6, m7⟩ := hC c hc
    refine ⟨m1, m2, m3, m4, m5, ?_, ?_⟩
    · rw [m6, set_replicate_self]
    · rw [m7, ← List.range_eq_range', getD_map_range, if_pos hc, set_replicate_self]
  · intro c hc
    rw [setPixel_data, h1, h3, writeList_getD, if_pos]
    · rw [show (y * w + writeCol w x i) * ch + c - (y * w + writeCol w x i) * ch = c
        from by omega]
      rw [← List.range_eq_range', getD_map_range, if_pos hc]
    · refine ⟨by omega, ?_, ?_⟩
      · rw [← List.range_eq_range', List.length_map, List.length_range]
        omega
      · rw [h4]
        exact encode_lt y (writeCol w x i) c w h ch hy (writeCol_lt w x i hw) hc
  · intro q
    rw [setPixel_data, h1, h3, writeList_getD]
    by_cases hq : (y * w + writeCol w x i) * ch ≤ q ∧
        q < (y * w + writeCol w x i) * ch +
          ((List.range' 0 ch).map (fun _ => k)).length ∧ q < img.data.length
    · rw [if_pos hq]
      left
      obtain ⟨hq1, hq2, hq3⟩ := hq
      rw [← List.range_eq_range', List.length_map, List.length_range] at hq2
      rw [← List.range_eq_range', getD_map_range, if_pos (by omega)]
    · rw [if_neg hq]
      right
      rfl

theorem rowIFold9 (w h ch k N radius x y : Nat) (out : Image)
    (hw : 1 ≤ w) (hh : 1 ≤ h) (hx : x < w) (hk : k < 256) (hy : y < h)
    (how : out.width = w) (hoc : out.channels = ch) :
    ∀ (m i0 : Nat) (img : Image) (hists : List MedianHist),
      i0 + m ≤ N →
      img.width = w → img.height = h → img.channels = ch →
      img.data.length = w * h * ch → hists.length = ch →
      (∀ c, c < ch → CState9 N radius k (List.replicate N k)
        (hists.getD c (MedianHist.new 0 1))) →
      ∃ st' : Image × List MedianHist,
        (List.range' i0 m).foldlM
          (processRowMedStep out
            ((((2 * radius + 1) * (2 * radius + 1) / 2 + 1 : Nat)) : Int) x y)
          (img, hists) = some st' ∧
        st'.1.width = w ∧ st'.1.height = h ∧ st'.1.channels = ch ∧
        st'.1.data.length = w * h * ch ∧ st'.2.length = ch ∧
        (∀ c, c < ch → CState9 N radius k (List.replicate N k)
          (st'.2.getD c (MedianHist.new 0 1))) ∧
        (∀ c i', c < ch → i0 ≤ i' → i' < i0 + m →
          st'.1.data.getD ((y * w + writeCol w x i') * ch + c) 0 = k) ∧
        (∀ q, st'.1.data.getD q 0 = k ∨ st'.1.data.getD q 0 = img.data.getD q 0) := by
  intro m
  induction m with
  | zero =>
    intro i0 img hists hm h1 h2 h3 h4 h5 hC
    refine ⟨(img, hists), ?_, h1, h2, h3, h4, h5, hC,
      fun c i' _ hge hlt => absurd hlt (by omega), fun q => Or.inr rfl⟩
    rw [show List.range' i0 0 = [] from rfl, List.foldlM_nil]
    rfl
  | succ m ih =>
    intro i0 img hists hm h1 h2 h3 h4 h5 hC
    rw [List.range'_succ, List.foldlM_cons]
    obtain ⟨st1, he1, j1, j2, j3, j4, j5, j6, j7, j8⟩ :=
      processRowMedStep9 w h ch k N radius x i0 y out hw hh hx hk (by omega) hy how hoc
        img hists h1 h2 h3 h4 h5 hC
    rw [he1]
    simp only [Option.bind_eq_bind, Option.some_bind]
    obtain ⟨st', he2, k1, k2, k3, k4, k5, k6, k7, k8⟩ :=
      ih (i0 + 1) st1.1 st1.2 (by omega) j1 j2 j3 j4 j5 j6
    refine ⟨st', ?_, k1, k2, k3, k4, k5, k6, ?_, ?_⟩
    · rw [← he2]
    · intro c i' hc hge hlt
      by_cases hii : i' = i0
      · subst hii
        rcases k8 ((y * w + writeCol w x i') * ch + c) with hk8 | hk8
        · exact hk8
        · rw [hk8]
          exact j7 c hc
      · exact k7 c i' hc (by omega) (by omega)
    · intro q
      rcases k8 q with hk8 | hk8
      · exact Or.inl hk8
      · rw [hk8]
        exact j8 q

/-- Strip invariant of the constant-image median driver: the strip columns
written so far (all rows up to `j`) hold `k`, everything else still holds
`out0`, and every channel engine is in the constant delta state. -/

theorem addRowMedFold_length (slice : Nat → List (List Nat)) :
    ∀ (rows : List Nat) (hists : List MedianHist),
      (rows.foldl (fun hs j => addRowMed hs (slice j) true) hists).length =
        hists.length := by
  intro rows
  induction rows with
  | nil => intro hists; rfl
  | cons r rows ih =>
    intro hists
    rw [List.foldl_cons, ih, addRowMed_length]

theorem initColsMed9 (w h ch k N radius x : Nat)
    (hw : 1 ≤ w) (hh : 1 ≤ h) (hx : x < w) (hk : k < 256) (hN1 : 1 ≤ N)
    (hodd : N = 2 * (N / 2) + 1)
    (out0 : Image) (how : out0.width = w) (hoh : out0.height = h)
    (hoc : out0.channels = ch) (hol : out0.data.length = w * h * ch) :
    ∃ st, initColsMed (constImage w h ch k) out0
        (List.replicate ch (MedianHist.new radius N)) radius
        ((((2 * radius + 1) * (2 * radius + 1) / 2 + 1 : Nat)) : Int) N x = some st ∧
      StripInv9 w h ch k N radius out0 x 0 st := by
  rw [initColsMed_eq, show (constImage w h ch k).height = h from rfl]
  have hlenmap : (((primeRows h radius).foldl
      (fun hs j => addRowMed hs (rowSlice (constImage w h ch k) N radius x j) true)
      (List.replicate ch (MedianHist.new radius N))).map
        MedianHist.init_pivots).length = ch := by
    rw [List.length_map, addRowMedFold_length, List.length_replicate]
  obtain ⟨st, he, j1, j2, j3, j4, j5, j6, j7, j8⟩ :=
    initIFold9 w h ch k N radius x hw hh hx hk N 0 out0
      (((primeRows h radius).foldl
        (fun hs j => addRowMed hs (rowSlice (constImage w h ch k) N radius x j) true)
        (List.replicate ch (MedianHist.new radius N))).map MedianHist.init_pivots)
      (by omega) how hoh hoc hol hlenmap
      (by
        intro c hc
        rw [pivPrefix_zero N k]
        exact CState9_primed w h ch k N radius x c hw hh hx hc hk hodd)
  rw [List.range_eq_range']
  refine ⟨st, he, j1, j2, j3, j4, ?_, j8, j5, ?_⟩
  · intro y c i' hy0 hyh hc hi
    rw [show y = 0 from by omega]
    exact j7 c i' hc (by omega) (by omega)
  · intro c hc
    have := j6 c hc
    rwa [Nat.zero_add, pivPrefix_full] at this

theorem medRowStep9 (w h ch k N radius x j : Nat) (out0 : Image)
    (hw : 1 ≤ w) (hh : 1 ≤ h) (hx : x < w) (hk : k < 256) (hN1 : 1 ≤ N)
    (hodd : N = 2 * (N / 2) + 1) (hj1 : 1 ≤ j) (hj2 : j ≤ h - 1)
    (st : Image × List MedianHist)
    (hInv : StripInv9 w h ch k N radius out0 x (j - 1) st) :
    ∃ st', medRowStep (constImage w h ch k) radius
        ((((2 * radius + 1) * (2 * radius + 1) / 2 + 1 : Nat)) : Int) N x st j = some st' ∧
      StripInv9 w h ch k N radius out0 x j st' := by
  obtain ⟨i1, i2, i3, i4, i5, i6, i7, i8⟩ := hInv
  simp only [medRowStep, show (constImage w h ch k).height = h from rfl]
  have hjin : min (j + radius) (h - 1) < h := by omega
  have hjout : (iclamp ((j : Int) - (radius : Int) - 1) 0 ((h : Int) - 1)).toNat < h := by
    rw [iclamp]
    omega
  -- the two bank updates per channel
  have hlen2 : (addRowMed (addRowMed st.2
      (rowSlice (constImage w h ch k) N radius x (min (j + radius) (h - 1))) true)
      (rowSlice (constImage w h ch k) N radius x
        ((iclamp ((j : Int) - (radius : Int) - 1) 0 ((h : Int) - 1)).toNat)) false).length =
      ch := by
    rw [addRowMed_length, addRowMed_length, i7]
  have hstate : ∀ c, c < ch → CState9 N radius k (List.replicate N k)
      ((addRowMed (addRowMed st.2
        (rowSlice (constImage w h ch k) N radius x (min (j + radius) (h - 1))) true)
        (rowSlice (constImage w h ch k) N radius x
          ((iclamp ((j : Int) - (radius : Int) - 1) 0 ((h : Int) - 1)).toNat)) false).getD c
        (MedianHist.new 0 1)) := by
    intro c hc
    rw [addRowMed_getD _ _ false c (by rw [addRowMed_length, i7]; exact hc),
      addRowMed_getD _ _ true c (by rw [i7]; exact hc)]
    exact CState9_update2 (st.2.getD c (MedianHist.new 0 1)) _ _ c N radius k
      (i8 c hc) hN1 hk
      (fun idx hidx => px_rowSlice_const w h ch k N radius x _ idx c hw hjin hidx hc)
      (fun jj => px_rowSlice_const_lt w h ch k N radius x _ jj c hk)
      (fun idx hidx => px_rowSlice_const w h ch k N radius x _ idx c hw hjout hidx hc)
      (fun jj => px_rowSlice_const_lt w h ch k N radius x _ jj c hk)
      hodd
  rw [processRowMed_eq, List.range_eq_range']
  obtain ⟨st', he, k1, k2, k3, k4, k5, k6, k7, k8⟩ :=
    rowIFold9 w h ch k N radius x j st.1 hw hh hx hk (by omega) i1 i3 N 0 st.1
      (addRowMed (addRowMed st.2
        (rowSlice (constImage w h ch k) N radius x (min (j + radius) (h - 1))) true)
        (rowSlice (constImage w h ch k) N radius x
          ((iclamp ((j : Int) - (radius : Int) - 1) 0 ((h : Int) - 1)).toNat)) false)
      (by omega) i1 i2 i3 i4 hlen2 hstate
  refine ⟨st', he, k1, k2, k3, k4, ?_, ?_, k5, k6⟩
  · intro y c i' hy0 hyh hc hi
    by_cases hyj : y = j
    · subst hyj
      exact k7 c i' hc (by omega) (by omega)
    · rcases k8 ((y * w + writeCol w x i') * ch + c) with hk8 | hk8
      · exact hk8
      · rw [hk8]
        exact i5 y c i' (by omega) hyh hc hi
  · intro q
    rcases k8 q with hk8 | hk8
    · exact Or.inl hk8
    · rw [hk8]
      exact i6 q

theorem medRowFold9 (w h ch k N radius x : Nat) (out0 : Image)
    (hw : 1 ≤ w) (hh : 1 ≤ h) (hx : x < w) (hk : k < 256) (hN1 : 1 ≤ N)
    (hodd : N = 2 * (N / 2) + 1) :
    ∀ (m j0 : Nat), 1 ≤ j0 → j0 + m ≤ h →
    ∀ st, StripInv9 w h ch k N radius out0 x (j0 - 1) st →
    ∃ st', (List.range' j0 m).foldlM
        (medRowStep (constImage w h ch k) radius
          ((((2 * radius + 1) * (2 * radius + 1) / 2 + 1 : Nat)) : Int) N x) st =
        some st' ∧
      StripInv9 w h ch k N radius out0 x (j0 + m - 1) st' := by
  intro m
  induction m with
  | zero =>
    intro j0 h1 h2 st hInv
    refine ⟨st, ?_, ?_⟩
    · rw [show List.range' j0 0 = [] from rfl, List.foldlM_nil]
      rfl
    · rw [show j0 + 0 - 1 = j0 - 1 from by omega]
      exact hInv
  | succ m ih =>
    intro j0 h1 h2 st hInv
    rw [List.range'_succ, List.foldlM_cons]
    obtain ⟨st1, he1, hI1⟩ :=
      medRowStep9 w h ch k N radius x j0 out0 hw hh hx hk hN1 hodd h1 (by omega) st hInv
    rw [he1]
    simp only [Option.bind_eq_bind, Option.some_bind]
    obtain ⟨st', he2, hI2⟩ := ih (j0 + 1) (by omega) (by omega) st1
      (by rw [show j0 + 1 - 1 = j0 from by omega]; exact hI1)
    refine ⟨st', he2, ?_⟩
    rw [show j0 + (m + 1) - 1 = j0 + 1 + m - 1 from by omega]
    exact hI2

theorem processColsMed9 (w h ch k N radius x : Nat)
    (hw : 1 ≤ w) (hh : 1 ≤ h) (hx : x < w) (hk : k < 256) (hN1 : 1 ≤ N)
    (hodd : N = 2 * (N / 2) + 1)
    (out0 : Image) (how : out0.width = w) (hoh : out0.height = h)
    (hoc : out0.channels = ch) (hol : out0.data.length = w * h * ch) :
    ∃ out', processColsMed (constImage w h ch k) out0 radius N x = some out' ∧
      out'.width = w ∧ out'.height = h ∧ out'.channels = ch ∧
      out'.data.length = w * h * ch ∧
      (∀ y c i', y < h → c < ch → i' < N →
        out'.data.getD ((y * w + writeCol w x i') * ch + c) 0 = k) ∧
      (∀ q, out'.data.getD q 0 = k ∨ out'.data.getD q 0 = out0.data.getD q 0) := by
  simp only [processColsMed, show (constImage w h ch k).channels = ch from rfl,
    show (constImage w h ch k).height = h from rfl]
  obtain ⟨st, he1, hI1⟩ :=
    initColsMed9 w h ch k N radius x hw hh hx hk hN1 hodd out0 how hoh hoc hol
  rw [he1]
  simp only [Option.bind_eq_bind, Option.some_bind]
  obtain ⟨st', he2, hI2⟩ :=
    medRowFold9 w h ch k N radius x out0 hw hh hx hk hN1 hodd (h - 1) 1 (le_refl 1)
      (by omega) st (by rw [show (1 : Nat) - 1 = 0 from rfl]; exact hI1)
  rw [he2]
  simp only [Option.bind_eq_bind, Option.some_bind]
  obtain ⟨i1, i2, i3, i4, i5, i6, i7, i8⟩ := hI2
  exact ⟨st'.1, rfl, i1, i2, i3, i4,
    fun y c i' hy hc hi => i5 y c i' (by omega) hy hc hi, i6⟩

theorem stripFold9 (w h ch k N radius : Nat)
    (hw : 1 ≤ w) (hh : 1 ≤ h) (hk : k < 256) (hN1 : 1 ≤ N)
    (hodd : N = 2 * (N / 2) + 1) :
    ∀ (m s0 : Nat) (out : Image),
      (∀ s', s' < s0 + m → s' * N < w) →
      out.width = w → out.height = h → out.channels = ch →
      out.data.length = w * h * ch →
      (∀ y c col, y < h → c < ch → col < w → col < s0 * N →
        out.data.getD ((y * w + col) * ch + c) 0 = k) →
      ∃ out', (List.range' s0 m).foldlM
          (fun o s => processColsMed (constImage w h ch k) o radius N (s * N)) out =
          some out' ∧
        out'.width = w ∧ out'.height = h ∧ out'.channels = ch ∧
        out'.data.length = w * h * ch ∧
        (∀ y c col, y < h → c < ch → col < w → col < (s0 + m) * N →
          out'.data.getD ((y * w + col) * ch + c) 0 = k) := by
  intro m
  induction m with
  | zero =>
    intro s0 out hS h1 h2 h3 h4 h5
    refine ⟨out, ?_, h1, h2, h3, h4, fun y c col hy hc hcw hclt =>
      h5 y c col hy hc hcw (by rw [Nat.add_zero] at hclt; exact hclt)⟩
    rw [show List.range' s0 0 = [] from rfl, List.foldlM_nil]
    rfl
  | succ m ih =>
    intro s0 out hS h1 h2 h3 h4 h5
    rw [List.range'_succ, List.foldlM_cons]
    obtain ⟨out1, he1, j1, j2, j3, j4, j5, j6⟩ :=
      processColsMed9 w h ch k N radius (s0 * N) hw hh (hS s0 (by omega)) hk hN1 hodd
        out h1 h2 h3 h4
    rw [he1]
    simp only [Option.bind_eq_bind, Option.some_bind]
    obtain ⟨out', he2, k1, k2, k3, k4, k5⟩ := ih (s0 + 1) out1
      (fun s' hs' => hS s' (by omega)) j1 j2 j3 j4
      (by
        intro y c col hy hc hcw hclt
        have hring : (s0 + 1) * N = s0 * N + N := by ring
        by_cases hcold : col < s0 * N
        · rcases j6 ((y * w + col) * ch + c) with hj | hj
          · exact hj
          · rw [hj]
            exact h5 y c col hy hc hcw hcold
        · have hcol : writeCol w (s0 * N) (col - s0 * N) = col := by
            rw [writeCol]
            omega
          have := j5 y c (col - s0 * N) hy hc (by omega)
          rwa [hcol] at this)
    refine ⟨out', he2, k1, k2, k3, k4, ?_⟩
    intro y c col hy hc hcw hclt
    refine k5 y c col hy hc hcw ?_
    have hr1 : (s0 + (m + 1)) * N = (s0 + 1 + m) * N := by ring
    omega

theorem nColsOf_odd (radius : Nat) : nColsOf radius = 2 * (nColsOf radius / 2) + 1 := by
  simp only [nColsOf]
  by_cases hpar : nColsRaw radius % 2 = 0
  · rw [if_pos hpar]
    omega
  · rw [if_neg hpar]
    omega

theorem medianFilter_const (w h ch k radius : Nat)
    (hw : 1 ≤ w) (hh : 1 ≤ h) (hk : k < 256) :
    medianFilter (constImage w h ch k) radius = some (constImage w h ch k) := by
  have hodd : nColsOf radius = 2 * (nColsOf radius / 2) + 1 := nColsOf_odd radius
  have hN1 : 1 ≤ nColsOf radius := by omega
  rw [medianFilter, medianFilterWith, stripOrigins,
    show (constImage w h ch k).width = w from rfl, List.foldlM_map, List.range_eq_range']
  have hS : ∀ s', s' < 0 + (w + nColsOf radius - 1) / nColsOf radius →
      s' * nColsOf radius < w := by
    intro s' hs'
    have h1 : (s' + 1) * nColsOf radius ≤ w + nColsOf radius - 1 :=
      (Nat.le_div_iff_mul_le (by omega)).mp (by omega)
    have h2 : (s' + 1) * nColsOf radius = s' * nColsOf radius + nColsOf radius := by ring
    omega
  obtain ⟨out', he, k1, k2, k3, k4, k5⟩ :=
    stripFold9 w h ch k (nColsOf radius) radius hw hh hk hN1 hodd
      ((w + nColsOf radius - 1) / nColsOf radius) 0 (Image.blank (constImage w h ch k))
      hS rfl rfl rfl (by rw [show (Image.blank (constImage w h ch k)).data =
        List.replicate (w * h * ch) 0 from rfl, List.length_replicate])
      (fun y c col hy hc hcw hclt => absurd hclt (by omega))
  rw [he]
  have hcover : ∀ col, col < w →
      col < (0 + (w + nColsOf radius - 1) / nColsOf radius) * nColsOf radius := by
    intro col hcol
    have hdm := Nat.div_add_mod (w + nColsOf radius - 1) (nColsOf radius)
    have hmod : (w + nColsOf radius - 1) % nColsOf radius < nColsOf radius :=
      Nat.mod_lt _ (by omega)
    have hflip : (0 + (w + nColsOf radius - 1) / nColsOf radius) * nColsOf radius =
        nColsOf radius * ((w + nColsOf radius - 1) / nColsOf radius) := by ring
    omega
  have hdata : out'.data = List.replicate (w * h * ch) k := by
    apply List.ext_getElem (by rw [k4, List.length_replicate])
    intro i hi1 hi2
    have hgd : ∀ (l : List Nat) (i : Nat) (h : i < l.length), l[i] = l.getD i 0 := by
      intro l i h
      rw [List.getD_eq_getElem?_getD, List.getElem?_eq_getElem h]
      rfl
    rw [hgd _ _ hi1, hgd _ _ hi2]
    rw [k4] at hi1
    have hch : 0 < ch := by
      rcases Nat.eq_zero_or_pos ch with h0 | h0
      · rw [h0, Nat.mul_zero] at hi1
        omega
      · exact h0
    have hwpos : 0 < w := by omega
    have hd1 := Nat.div_add_mod i ch
    have hd2 := Nat.div_add_mod (i / ch) w
    have hylt : i / ch / w < h := by
      rw [Nat.div_lt_iff_lt_mul hwpos, Nat.div_lt_iff_lt_mul hch]
      calc i < w * h * ch := hi1
        _ = h * w * ch := by ring
    have hxlt : (i / ch) % w < w := Nat.mod_lt _ hwpos
    have hclt : i % ch < ch := Nat.mod_lt _ hch
    have he2 : ((i / ch / w) * w + (i / ch) % w) * ch + i % ch = i := by
      have e3 : ((i / ch / w) * w + (i / ch) % w) * ch + i % ch =
          ch * (w * (i / ch / w) + (i / ch) % w) + i % ch := by ring
      rw [e3, hd2, hd1]
    have hres := k5 (i / ch / w) (i % ch) ((i / ch) % w) hylt hclt hxlt
      (hcover _ hxlt)
    rw [he2] at hres
    rw [hres, getD_replicate, if_pos hi1]
  obtain ⟨ow, oh, och, od⟩ := out'
  simp only at k1 k2 k3 hdata
  rw [show constImage w h ch k =
    Image.mk w h ch (List.replicate (w * h * ch) k) from rfl, k1, k2, k3, hdata]

theorem get?_replicate {α : Type} (n i : Nat) (a : α) :
    (List.replicate n a).get? i = if i < n then some a else none := by
  rw [List.get?_eq_getElem?]
  by_cases h : i < n
  · rw [List.getElem?_eq_getElem (by rw [List.length_replicate]; exact h), if_pos h,
      List.getElem_replicate]
  · rw [List.getElem?_eq_none (by rw [List.length_replicate]; omega), if_neg h]

theorem wsub1_small (t : Nat) (h1 : 1 ≤ t) (h2 : t < 2 ^ 64) : wsub1 t = t - 1 := by
  rw [wsub1]
  have e : t + (2 ^ 64 - 1) = (t - 1) + 1 * 2 ^ 64 := by omega
  rw [e, Nat.add_mul_mod_self_right, Nat.mod_eq_of_lt (by omega)]

theorem roundDiv_const (len : Nat) (k : Nat) (hl : 1 ≤ len) :
    roundDiv ((len : Int) * k) len = k := by
  rw [roundDiv, if_pos (by positivity)]
  have e1 : ((len : Int) * k).toNat = len * k := by
    rw [show ((len : Int) * k) = ((len * k : Nat) : Int) from by push_cast; ring,
      Int.toNat_natCast]
  rw [e1]
  have e2 : len * k * 2 + len = len + k * (2 * len) := by ring
  rw [e2, Nat.add_mul_div_right _ _ (by omega), Nat.div_eq_of_lt (by omega)]
  norm_num

theorem toByte_small (k : Nat) (hk : k < 256) : toByte (k : Int) = k := by
  rw [toByte, iclamp]
  omega

theorem countTrailing_replicate (n : Nat) (k : Nat) :
    countTrailing (List.replicate n k) k = n := by
  rw [countTrailing, List.reverse_replicate]
  rw [List.takeWhile_eq_self_iff.mpr ?_, List.length_replicate]
  intro a ha
  rw [List.eq_of_mem_replicate ha]
  simp

/-- Generic prefix list: the first `n0` positions hold `b`, the rest `a`. -/

theorem prefList_zero {α : Type} (N : Nat) (a b : α) :
    prefList N a b 0 = List.replicate N a := by
  rw [prefList]
  have e : (List.range N).map (fun n => if n < 0 then b else a) =
      (List.range N).map (fun _ => a) :=
    map_congr_on _ _ _ (fun x _ => by rw [if_neg (by omega)])
  rw [e, map_const_replicate, List.length_range]

theorem prefList_full {α : Type} (N : Nat) (a b : α) :
    prefList N a b N = List.replicate N b := by
  rw [prefList]
  have e : (List.range N).map (fun n => if n < N then b else a) =
      (List.range N).map (fun _ => b) :=
    map_congr_on _ _ _ (fun x hx => by rw [if_pos (List.mem_range.mp hx)])
  rw [e, map_const_replicate, List.length_range]

theorem prefList_length {α : Type} (N : Nat) (a b : α) (n0 : Nat) :
    (prefList N a b n0).length = N := by
  rw [prefList, List.length_map, List.length_range]

theorem prefList_getD {α : Type} (N : Nat) (a b : α) (n0 n : Nat) (d : α) (hn : n < N) :
    (prefList N a b n0).getD n d = if n < n0 then b else a := by
  rw [prefList, getD_map_range, if_pos hn]

theorem prefList_set {α : Type} (N : Nat) (a b : α) (n0 : Nat) (hn : n0 < N) :
    (prefList N a b n0).set n0 b = prefList N a b (n0 + 1) := by
  apply List.ext_getElem
  · simp only [List.length_set, prefList, List.length_map]
  · intro i h1 h2
    simp only [prefList, List.length_set, List.length_map, List.length_range] at h1
    rw [List.getElem_set]
    simp only [prefList, List.getElem_map, List.getElem_range]
    by_cases hii : n0 = i
    · rw [if_pos hii, if_pos (by omega)]
    · rw [if_neg hii]
      by_cases hlt : i < n0
      · rw [if_pos hlt, if_pos (by omega)]
      · rw [if_neg hlt, if_neg (by omega)]

theorem listAddAt_set (s : List Int) (n : Nat) (v : Int) :
    listAddAt s n v = s.set n (s.getD n 0 + v) := rfl

theorem wrap32_id (v : Int) (h1 : -(2 ^ 31) ≤ v) (h2 : v < 2 ^ 31) : wrap32 v = v := by
  rw [wrap32]
  omega

theorem listAddWrap_set (s : List Int) (n : Nat) (v : Int) :
    listAddWrap s n v = s.set n (wrap32 (s.getD n 0 + v)) := rfl

theorem fillLowerGo_zero (trimN key : Nat) : ∀ (fuel : Nat) (lower : List Nat) (sum : Int),
    fillLowerGo trimN key fuel (lower, sum, 0) = (lower, sum, 0) := by
  intro fuel
  cases fuel with
  | zero => intro l s; rfl
  | succ f =>
    intro l s
    rw [fillLowerGo, if_neg (by rintro ⟨_, h⟩; omega)]

theorem fillUpperGo_zero (trimN upperTrim : Nat) (count : Int) (key : Nat) :
    ∀ (fuel : Nat) (upper : List Nat) (sum : Int),
    fillUpperGo trimN upperTrim count key fuel (upper, sum, 0) = (upper, sum, 0) := by
  intro fuel
  cases fuel with
  | zero => intro l s; rfl
  | succ f =>
    intro l s
    rw [fillUpperGo, if_neg (by rintro ⟨_, _, h⟩; omega)]

theorem fillLowerGo_run (trimN key : Nat) :
    ∀ (d m fuel : Nat) (sum add : Int), m + d = trimN → d ≤ fuel → (d : Int) ≤ add →
      0 ≤ sum - (d : Int) * (key : Int) → sum < 2 ^ 31 →
      fillLowerGo trimN key fuel (List.replicate m key, sum, add) =
        (List.replicate trimN key, sum - (d : Int) * (key : Int), add - (d : Int)) := by
  intro d
  induction d with
  | zero =>
    intro m fuel sum add hm _ _ _ _
    have hmt : m = trimN := by omega
    subst hmt
    cases fuel with
    | zero =>
      rw [fillLowerGo]
      simp
    | succ f =>
      rw [fillLowerGo, if_neg (by rintro ⟨h, _⟩; rw [List.length_replicate] at h; omega)]
      simp
  | succ d ih =>
    intro m fuel sum add hm hf ha hlo hhi
    obtain ⟨f, rfl⟩ : ∃ f, fuel = f + 1 := ⟨fuel - 1, by omega⟩
    have hexp : ((d + 1 : Nat) : Int) * (key : Int) =
        (d : Int) * (key : Int) + (key : Int) := by
      push_cast
      ring
    rw [hexp] at hlo
    have hnn : 0 ≤ (d : Int) * (key : Int) := by positivity
    rw [fillLowerGo,
      if_pos ⟨by rw [List.length_replicate]; omega, by push_cast at ha; omega⟩]
    rw [← List.replicate_succ' m key,
      wrap32_id (sum - (key : Int)) (by omega) (by omega)]
    rw [ih (m + 1) f (sum - key) (add - 1) (by omega) (by omega)
      (by push_cast at ha ⊢; omega) (by omega) (by omega)]
    simp only [Prod.mk.injEq]
    exact ⟨trivial, by push_cast; ring, by push_cast; ring⟩

theorem fillUpperGo_run (trimN upperTrim : Nat) (count : Int) (key : Nat)
    (hut : upperTrim < count.toNat) :
    ∀ (d m fuel : Nat) (sum add : Int), m + d = trimN → d ≤ fuel → (d : Int) ≤ add →
      0 ≤ sum - (d : Int) * (key : Int) → sum < 2 ^ 31 →
      fillUpperGo trimN upperTrim count key fuel (List.replicate m key, sum, add) =
        (List.replicate trimN key, sum - (d : Int) * (key : Int), add - (d : Int)) := by
  intro d
  induction d with
  | zero =>
    intro m fuel sum add hm _ _ _ _
    have hmt : m = trimN := by omega
    subst hmt
    cases fuel with
    | zero =>
      rw [fillUpperGo]
      simp
    | succ f =>
      rw [fillUpperGo,
        if_neg (by rintro ⟨_, h, _⟩; rw [List.length_replicate] at h; omega)]
      simp
  | succ d ih =>
    intro m fuel sum add hm hf ha hlo hhi
    obtain ⟨f, rfl⟩ : ∃ f, fuel = f + 1 := ⟨fuel - 1, by omega⟩
    have hexp : ((d + 1 : Nat) : Int) * (key : Int) =
        (d : Int) * (key : Int) + (key : Int) := by
      push_cast
      ring
    rw [hexp] at hlo
    have hnn : 0 ≤ (d : Int) * (key : Int) := by positivity
    rw [fillUpperGo,
      if_pos ⟨hut, by rw [List.length_replicate]; omega, by push_cast at ha; omega⟩]
    rw [← List.replicate_succ key m,
      wrap32_id (sum - (key : Int)) (by omega) (by omega)]
    rw [ih (m + 1) f (sum - key) (add - 1) (by omega) (by omega)
      (by push_cast at ha ⊢; omega) (by omega) (by omega)]
    simp only [Prod.mk.injEq]
    exact ⟨trivial, by push_cast; ring, by push_cast; ring⟩

theorem initMeanKey_zero (ph : PartHist) (i trimN upperTrim : Nat) (st : MeanInit)
    (key : Nat) (h0 : ph.get_count key i = 0)
    (hc1 : -(2 ^ 31) ≤ st.count) (hc2 : st.count < 2 ^ 31)
    (hs1 : -(2 ^ 31) ≤ st.sum) (hs2 : st.sum < 2 ^ 31) :
    initMeanKey ph i trimN upperTrim st key = st := by
  simp only [initMeanKey, h0, zero_mul, add_zero,
    show wrap32 0 = 0 from by rw [wrap32]; decide, wrap32_id st.count hc1 hc2,
    wrap32_id st.sum hs1 hs2]
  rw [fillLowerGo_zero, fillUpperGo_zero]

theorem initMeanKey_hit (ph : PartHist) (i trimN upperTrim k : Nat) (W : Int)
    (hW : ph.get_count k i = W) (h2 : 2 * (trimN : Int) ≤ W)
    (hut : upperTrim < W.toNat)
    (hW31 : W < 2 ^ 31) (hWk31 : W * (k : Int) < 2 ^ 31) :
    initMeanKey ph i trimN upperTrim { count := 0, sum := 0, upper := [], lower := [] } k =
      { count := W, sum := W * (k : Int) - 2 * (trimN : Int) * (k : Int),
        upper := List.replicate trimN k, lower := List.replicate trimN k } := by
  have hWnn : 0 ≤ W := by
    have : 0 ≤ 2 * (trimN : Int) := by positivity
    omega
  have htk : 0 ≤ (trimN : Int) * (k : Int) := by positivity
  have htk2 : 2 * ((trimN : Int) * (k : Int)) ≤ W * (k : Int) := by
    have := mul_le_mul_of_nonneg_right h2 (show (0 : Int) ≤ (k : Int) from by positivity)
    calc 2 * ((trimN : Int) * (k : Int)) = 2 * (trimN : Int) * (k : Int) := by ring
      _ ≤ W * (k : Int) := this
  have hWknn : 0 ≤ W * (k : Int) := by positivity
  have e1 := fillLowerGo_run trimN k trimN 0 trimN (W * (k : Int)) W (by omega)
    (le_refl _) (by omega) (by omega) (by omega)
  have e2 := fillUpperGo_run trimN upperTrim W k hut trimN 0 trimN
    (W * (k : Int) - (trimN : Int) * (k : Int)) (W - (trimN : Int)) (by omega)
    (le_refl _) (by omega) (by omega) (by omega)
  simp only [initMeanKey, hW, zero_add,
    show ([] : List Nat) = List.replicate 0 k from rfl,
    wrap32_id (W * (k : Int)) (by omega) hWk31, wrap32_id W (by omega) hW31, e1, e2]
  congr 1
  push_cast
  ring

theorem initMeanColumn_delta (ph : PartHist) (i k trimN upperTrim : Nat) (W : Int)
    (hk : k < 256)
    (hprof : ∀ key, key < 256 → ph.get_count key i = if key = k then W else 0)
    (h2 : 2 * (trimN : Int) ≤ W) (hut : upperTrim < W.toNat)
    (hW31 : W < 2 ^ 31) (hWk31 : W * (k : Int) < 2 ^ 31) :
    initMeanColumn ph i trimN upperTrim =
      { count := W, sum := W * (k : Int) - 2 * (trimN : Int) * (k : Int),
        upper := List.replicate trimN k, lower := List.replicate trimN k } := by
  have hWnn : 0 ≤ W := by
    have : 0 ≤ 2 * (trimN : Int) := by positivity
    omega
  have htk : 0 ≤ (trimN : Int) * (k : Int) := by positivity
  have htk2 : 2 * ((trimN : Int) * (k : Int)) ≤ W * (k : Int) := by
    have := mul_le_mul_of_nonneg_right h2 (show (0 : Int) ≤ (k : Int) from by positivity)
    calc 2 * ((trimN : Int) * (k : Int)) = 2 * (trimN : Int) * (k : Int) := by ring
      _ ≤ W * (k : Int) := this
  have hWknn : 0 ≤ W * (k : Int) := by positivity
  rw [initMeanColumn, List.range_eq_range']
  have hsplit : List.range' 0 256 = List.range' 0 k ++ List.range' k (256 - k) := by
    have h := List.range'_append_1 0 k (256 - k)
    rw [Nat.zero_add] at h
    rw [show (256 : Nat) - k + k = 256 from by omega] at h
    exact h.symm
  rw [hsplit, List.foldl_append]
  rw [foldl_fix_pt _ (List.range' 0 k) _ (by
    intro a ha
    have hm := List.mem_range'_1.mp ha
    exact initMeanKey_zero ph i trimN upperTrim _ a
      (by rw [hprof a (by omega), if_neg (by omega)])
      (by decide) (by decide) (by decide) (by decide))]
  rw [show List.range' k (256 - k) = k :: List.range' (k + 1) (255 - k) from by
    rw [show 256 - k = (255 - k) + 1 from by omega, List.range'_succ]]
  rw [List.foldl_cons, initMeanKey_hit ph i trimN upperTrim k W
    (by rw [hprof k hk, if_pos rfl]) h2 hut hW31 hWk31]
  rw [foldl_fix_pt _ (List.range' (k + 1) (255 - k)) _ (by
    intro a ha
    have hm := List.mem_range'_1.mp ha
    exact initMeanKey_zero ph i trimN upperTrim _ a
      (by rw [hprof a (by omega), if_neg (by omega)])
      (by
        show -(2 ^ 31) ≤ W
        omega)
      (by
        show W < 2 ^ 31
        omega)
      (by
        show -(2 ^ 31) ≤ W * (k : Int) - 2 * (trimN : Int) * (k : Int)
        have e : 2 * (trimN : Int) * (k : Int) = 2 * ((trimN : Int) * (k : Int)) := by ring
        omega)
      (by
        show W * (k : Int) - 2 * (trimN : Int) * (k : Int) < 2 ^ 31
        have e : 2 * (trimN : Int) * (k : Int) = 2 * ((trimN : Int) * (k : Int)) := by ring
        omega))]

/-- Per-channel engine state of the constant-image mean run: bank of weight
`Wb` at key `k`, sums vector `sums`, both deques `deq` (each column holding
`alpha/2` copies of `k` once initialised). -/

theorem DeltaBank_single (st : PartHist) (pIn : List (List Nat)) (ci k : Nat) (W : Int)
    (add : Bool) (hodd : st.nCols = 2 * st.nHalf + 1) (hsz : st.size = 2 * st.radius + 1)
    (hconst : ∀ j, j < st.nCols + 2 * st.radius → px pIn j ci = k)
    (h256 : ∀ j, px pIn j ci < 256) (hdb : DeltaBank st k W) :
    DeltaBank (st.update pIn ci add) k
      (W + (if add then ((st.size : Nat) : Int) else -((st.size : Nat) : Int))) := by
  obtain ⟨hwf, hprof⟩ := hdb
  constructor
  · rw [update_nCols]
    exact hwf_update st pIn ci add hodd hwf
  · intro i k' hi hk'
    rw [update_nCols] at hi
    rw [get_count_update st pIn ci add hodd hsz hwf h256 i k' hi hk', hprof i k' hi hk',
      windowCount_const pIn ci st.size i k k' (fun j h1 h2 => hconst j (by omega))]
    by_cases hkk : k' = k
    · rw [if_pos hkk, if_pos hkk, if_pos hkk]
      cases add
      · simp only [Bool.false_eq_true, if_false]
        ring
      · simp only [if_true]
        ring
    · rw [if_neg hkk, if_neg hkk, if_neg hkk]
      ring

theorem addStep_const (st : MeanHist) (pIn : List (List Nat)) (ci n i N alpha k : Nat)
    (hN : n < N) (htrim : st.trim = alpha / 2) (ht1 : 1 ≤ alpha / 2)
    (ht64 : alpha / 2 < 2 ^ 64)
    (hlo : st.lower = List.replicate N (List.replicate (alpha / 2) k))
    (hup : st.upper = List.replicate N (List.replicate (alpha / 2) k))
    (hpx : px pIn i ci = k) :
    st.addStep pIn ci n i = some { st with sums := listAddWrap st.sums n (k : Int) } := by
  simp only [MeanHist.addStep, MeanHist.lowerPiv, MeanHist.upperPiv, hlo, hup, htrim, hpx,
    getD_replicate, if_pos hN, wsub1_small (alpha / 2) ht1 ht64, get?_replicate,
    if_pos (show alpha / 2 - 1 < alpha / 2 from by omega), Option.some_bind,
    Option.bind_eq_bind]
  rw [if_neg (by omega), if_neg (by omega)]

theorem countsFold_const (pIn : List (List Nat)) (ci k : Nat) :
    ∀ (l : List Nat) (p : Int × Int), (∀ j ∈ l, px pIn j ci = k) →
      l.foldl (fun (p : Int × Int) j =>
        if px pIn j ci = k then (p.1 + 1, p.2)
        else if px pIn j ci = k then (p.1, p.2 + 1) else p) p =
      (p.1 + (l.length : Int), p.2) := by
  intro l
  induction l with
  | nil =>
    intro p _
    simp
  | cons x l ih =>
    intro p hall
    rw [List.foldl_cons, if_pos (hall x (List.mem_cons_self x l)),
      ih _ (fun j hj => hall j (List.mem_cons_of_mem x hj))]
    simp only [Prod.mk.injEq, List.length_cons]
    refine ⟨by push_cast; ring, trivial⟩

theorem removeStep_const (st : MeanHist) (pIn : List (List Nat)) (ci n i N alpha k : Nat)
    (W : Int) (hN : n < N) (hNc : st.data.nCols = N) (htrim : st.trim = alpha / 2)
    (ht1 : 1 ≤ alpha / 2) (ht64 : alpha / 2 < 2 ^ 64)
    (hlo : st.lower = List.replicate N (List.replicate (alpha / 2) k))
    (hup : st.upper = List.replicate N (List.replicate (alpha / 2) k))
    (hk : k < 256)
    (hdb : DeltaBank st.data k W) (htw : ((alpha / 2 : Nat) : Int) < W)
    (hi : i < n + st.data.size)
    (hconst : ∀ j, j < n + st.data.size → px pIn j ci = k) :
    st.removeStep pIn ci n i = some { st with sums := listAddWrap st.sums n (-(k : Int)) } := by
  have hgc : st.data.get_count k n = W := by
    have := hdb.2 n k (by rw [hNc]; exact hN) hk
    rwa [if_pos rfl] at this
  simp only [MeanHist.removeStep, MeanHist.lowerPiv, MeanHist.upperPiv, hlo, hup, htrim,
    getD_replicate, if_pos hN, wsub1_small (alpha / 2) ht1 ht64, get?_replicate,
    if_pos (show alpha / 2 - 1 < alpha / 2 from by omega), Option.some_bind,
    Option.bind_eq_bind, hgc]
  have hcf := countsFold_const pIn ci k (List.range' i (n + st.data.size - i)) (W, W)
    (fun j hj => hconst j (by have := List.mem_range'_1.mp hj; omega))
  have hpxi := hconst i hi
  simp only [hcf, countTrailing_replicate, List.length_range']
  rw [if_neg (by
    rintro ⟨_, h0⟩
    omega)]
  rw [if_neg (by omega)]
  rw [if_neg (by
    rintro ⟨_, h0⟩
    omega)]
  rw [if_neg (by omega)]
  rw [hconst i hi]

theorem addInnerFold_const (pIn : List (List Nat)) (ci n N alpha k : Nat)
    (hN : n < N) (ht1 : 1 ≤ alpha / 2) (ht64 : alpha / 2 < 2 ^ 64) :
    ∀ (m a : Nat) (st : MeanHist) (s0 : Int),
      st.trim = alpha / 2 →
      st.lower = List.replicate N (List.replicate (alpha / 2) k) →
      st.upper = List.replicate N (List.replicate (alpha / 2) k) →
      n < st.sums.length →
      st.sums.getD n 0 = s0 →
      0 ≤ s0 → s0 + (m : Int) * (k : Int) < 2 ^ 31 →
      (∀ j, a ≤ j → j < a + m → px pIn j ci = k) →
      (List.range' a m).foldlM (fun st i => st.addStep pIn ci n i) st =
        some { st with sums := st.sums.set n (s0 + (m : Int) * (k : Int)) } := by
  intro m
  induction m with
  | zero =>
    intro a st s0 h1 h2 h3 h4 hgd hs0 hb h5
    rw [show List.range' a 0 = [] from rfl, List.foldlM_nil]
    rw [show s0 + ((0 : Nat) : Int) * (k : Int) = s0 from by push_cast; ring, ← hgd,
      set_getD_self]
    rfl
  | succ m ih =>
    intro a st s0 h1 h2 h3 h4 hgd hs0 hb h5
    have hexp : s0 + ((m + 1 : Nat) : Int) * (k : Int) =
        s0 + (m : Int) * (k : Int) + (k : Int) := by
      push_cast
      ring
    rw [hexp] at hb
    have hmk : 0 ≤ (m : Int) * (k : Int) := by positivity
    rw [List.range'_succ, List.foldlM_cons,
      addStep_const st pIn ci n a N alpha k hN h1 ht1 ht64 h2 h3
        (h5 a (le_refl a) (by omega))]
    simp only [Option.bind_eq_bind, Option.some_bind]
    have hw : listAddWrap st.sums n (k : Int) = st.sums.set n (s0 + (k : Int)) := by
      rw [listAddWrap_set, hgd, wrap32_id (s0 + (k : Int)) (by omega) (by omega)]
    rw [hw]
    rw [ih (a + 1) { st with sums := st.sums.set n (s0 + (k : Int)) } (s0 + (k : Int))
      h1 h2 h3
      (by rw [List.length_set]; exact h4)
      (by rw [show ({ st with sums := st.sums.set n (s0 + (k : Int)) } : MeanHist).sums =
          st.sums.set n (s0 + (k : Int)) from rfl, getD_set_eqD, if_pos ⟨rfl, h4⟩])
      (by omega) (by omega)
      (fun j hj1 hj2 => h5 j (by omega) (by omega))]
    have he : (st.sums.set n (s0 + (k : Int))).set n
        (s0 + (k : Int) + (m : Int) * (k : Int)) =
        st.sums.set n (s0 + ((m + 1 : Nat) : Int) * (k : Int)) := by
      rw [List.set_set]
      congr 1
      push_cast
      ring
    rw [show ({ st with sums := st.sums.set n (s0 + (k : Int)) } : MeanHist).sums =
      st.sums.set n (s0 + (k : Int)) from rfl, he]

theorem removeInnerFold_const (pIn : List (List Nat)) (ci n N alpha k : Nat) (W : Int)
    (hN : n < N) (ht1 : 1 ≤ alpha / 2) (ht64 : alpha / 2 < 2 ^ 64)
    (hk : k < 256) (htw : ((alpha / 2 : Nat) : Int) < W) :
    ∀ (m a : Nat) (st : MeanHist) (s0 : Int),
      st.trim = alpha / 2 →
      st.lower = List.replicate N (List.replicate (alpha / 2) k) →
      st.upper = List.replicate N (List.replicate (alpha / 2) k) →
      n < st.sums.length →
      st.data.nCols = N →
      DeltaBank st.data k W →
      a + m ≤ n + st.data.size →
      st.sums.getD n 0 = s0 →
      0 ≤ s0 - (m : Int) * (k : Int) → s0 < 2 ^ 31 →
      (∀ j, j < n + st.data.size → px pIn j ci = k) →
      (List.range' a m).foldlM (fun st i => st.removeStep pIn ci n i) st =
        some { st with sums := st.sums.set n (s0 - (m : Int) * (k : Int)) } := by
  intro m
  induction m with
  | zero =>
    intro a st s0 h1 h2 h3 h4 h5 h6 h7 hgd hlo hhi h8
    rw [show List.range' a 0 = [] from rfl, List.foldlM_nil]
    rw [show s0 - ((0 : Nat) : Int) * (k : Int) = s0 from by push_cast; ring, ← hgd,
      set_getD_self]
    rfl
  | succ m ih =>
    intro a st s0 h1 h2 h3 h4 h5 h6 h7 hgd hlo hhi h8
    have hexp : s0 - ((m + 1 : Nat) : Int) * (k : Int) =
        s0 - (m : Int) * (k : Int) - (k : Int) := by
      push_cast
      ring
    rw [hexp] at hlo
    have hmk : 0 ≤ (m : Int) * (k : Int) := by positivity
    rw [List.range'_succ, List.foldlM_cons,
      removeStep_const st pIn ci n a N alpha k W hN h5 h1 ht1 ht64 h2 h3 hk h6 htw
        (by omega) h8]
    simp only [Option.bind_eq_bind, Option.some_bind]
    have hw : listAddWrap st.sums n (-(k : Int)) = st.sums.set n (s0 - (k : Int)) := by
      rw [listAddWrap_set, hgd,
        show s0 + -(k : Int) = s0 - (k : Int) from by ring,
        wrap32_id (s0 - (k : Int)) (by omega) (by omega)]
    rw [hw]
    rw [ih (a + 1) { st with sums := st.sums.set n (s0 - (k : Int)) } (s0 - (k : Int))
      h1 h2 h3
      (by rw [List.length_set]; exact h4) h5 h6
      (by show a + 1 + m ≤ n + st.data.size; omega)
      (by rw [show ({ st with sums := st.sums.set n (s0 - (k : Int)) } : MeanHist).sums =
          st.sums.set n (s0 - (k : Int)) from rfl, getD_set_eqD, if_pos ⟨rfl, h4⟩])
      (by omega) (by omega) h8]
    have he : (st.sums.set n (s0 - (k : Int))).set n
        (s0 - (k : Int) - (m : Int) * (k : Int)) =
        st.sums.set n (s0 - ((m + 1 : Nat) : Int) * (k : Int)) := by
      rw [List.set_set]
      congr 1
      push_cast
      ring
    rw [show ({ st with sums := st.sums.set n (s0 - (k : Int)) } : MeanHist).sums =
      st.sums.set n (s0 - (k : Int)) from rfl, he]

theorem addOuterFold_const (pIn : List (List Nat)) (ci N radius alpha k : Nat) (s0 : Int)
    (ht1 : 1 ≤ alpha / 2) (ht64 : alpha / 2 < 2 ^ 64)
    (hs0 : 0 ≤ s0)
    (hb31 : s0 + ((2 * radius + 1 : Nat) : Int) * (k : Int) < 2 ^ 31)
    (hconst : ∀ j, j < N + 2 * radius → px pIn j ci = k) :
    ∀ (m n0 : Nat) (st : MeanHist),
      st.trim = alpha / 2 →
      st.lower = List.replicate N (List.replicate (alpha / 2) k) →
      st.upper = List.replicate N (List.replicate (alpha / 2) k) →
      st.data.size = 2 * radius + 1 →
      st.sums = prefList N s0 (s0 + ((2 * radius + 1 : Nat) : Int) * (k : Int)) n0 →
      n0 + m = N →
      (List.range' n0 m).foldlM
        (fun st n => (List.range' n st.data.size).foldlM
          (fun st i => st.addStep pIn ci n i) st) st =
        some { st with sums :=
          List.replicate N (s0 + ((2 * radius + 1 : Nat) : Int) * (k : Int)) } := by
  intro m
  induction m with
  | zero =>
    intro n0 st h1 h2 h3 h4 h5 h6
    have h9 : st.sums = List.replicate N (s0 + ((2 * radius + 1 : Nat) : Int) * (k : Int)) := by
      rw [h5, show n0 = N from by omega, prefList_full]
    rw [show List.range' n0 0 = [] from rfl, List.foldlM_nil, ← h9]
    rfl
  | succ m ih =>
    intro n0 st h1 h2 h3 h4 h5 h6
    have hn0 : n0 < N := by omega
    rw [List.range'_succ, List.foldlM_cons]
    rw [addInnerFold_const pIn ci n0 N alpha k hn0 ht1 ht64 st.data.size n0 st s0 h1 h2 h3
      (by rw [h5, prefList_length]; exact hn0)
      (by rw [h5, prefList_getD _ _ _ _ _ _ hn0, if_neg (by omega)])
      hs0 (by rw [h4]; exact hb31)
      (fun j hj1 hj2 => hconst j (by rw [h4] at hj2; omega))]
    simp only [Option.bind_eq_bind, Option.some_bind]
    have hsums : st.sums.set n0 (s0 + ((st.data.size : Nat) : Int) * (k : Int)) =
        prefList N s0 (s0 + ((2 * radius + 1 : Nat) : Int) * (k : Int)) (n0 + 1) := by
      rw [h5, h4, prefList_set _ _ _ _ hn0]
    exact ih (n0 + 1) { st with sums := st.sums.set n0 (s0 + ((st.data.size : Nat) : Int) * (k : Int)) } h1 h2 h3 h4 hsums (by omega)

theorem removeOuterFold_const (pIn : List (List Nat)) (ci N radius alpha k : Nat)
    (s0 W : Int) (ht1 : 1 ≤ alpha / 2) (ht64 : alpha / 2 < 2 ^ 64) (hk : k < 256)
    (htw : ((alpha / 2 : Nat) : Int) < W)
    (hs0m : 0 ≤ s0 - ((2 * radius + 1 : Nat) : Int) * (k : Int))
    (hb31 : s0 < 2 ^ 31)
    (hconst : ∀ j, j < N + 2 * radius → px pIn j ci = k) :
    ∀ (m n0 : Nat) (st : MeanHist),
      st.trim = alpha / 2 →
      st.lower = List.replicate N (List.replicate (alpha / 2) k) →
      st.upper = List.replicate N (List.replicate (alpha / 2) k) →
      st.data.size = 2 * radius + 1 →
      st.data.nCols = N →
      DeltaBank st.data k W →
      st.sums = prefList N s0 (s0 - ((2 * radius + 1 : Nat) : Int) * (k : Int)) n0 →
      n0 + m = N →
      (List.range' n0 m).foldlM
        (fun st n => (List.range' n st.data.size).foldlM
          (fun st i => st.removeStep pIn ci n i) st) st =
        some { st with sums :=
          List.replicate N (s0 - ((2 * radius + 1 : Nat) : Int) * (k : Int)) } := by
  intro m
  induction m with
  | zero =>
    intro n0 st h1 h2 h3 h4 h5 h6 h7 h8
    have h9 : st.sums = List.replicate N (s0 - ((2 * radius + 1 : Nat) : Int) * (k : Int)) := by
      rw [h7, show n0 = N from by omega, prefList_full]
    rw [show List.range' n0 0 = [] from rfl, List.foldlM_nil, ← h9]
    rfl
  | succ m ih =>
    intro n0 st h1 h2 h3 h4 h5 h6 h7 h8
    have hn0 : n0 < N := by omega
    rw [List.range'_succ, List.foldlM_cons]
    rw [removeInnerFold_const pIn ci n0 N alpha k W hn0 ht1 ht64 hk htw st.data.size n0 st
      s0 h1 h2 h3 (by rw [h7, prefList_length]; exact hn0) h5 h6 (le_refl _)
      (by rw [h7, prefList_getD _ _ _ _ _ _ hn0, if_neg (by omega)])
      (by rw [h4]; exact hs0m) hb31
      (fun j hj => hconst j (by rw [h4] at hj; omega))]
    simp only [Option.bind_eq_bind, Option.some_bind]
    have hsums : st.sums.set n0 (s0 - ((st.data.size : Nat) : Int) * (k : Int)) =
        prefList N s0 (s0 - ((2 * radius + 1 : Nat) : Int) * (k : Int)) (n0 + 1) := by
      rw [h7, h4, prefList_set _ _ _ _ hn0]
    exact ih (n0 + 1) { st with sums := st.sums.set n0 (s0 - ((st.data.size : Nat) : Int) * (k : Int)) } h1 h2 h3 h4 h5 h6 hsums (by omega)

theorem meanUpdate_add_const (pIn : List (List Nat)) (ci N radius alpha k : Nat)
    (Wb s0 : Int) (st : MeanHist)
    (hN1 : 1 ≤ N) (hNodd : N = 2 * (N / 2) + 1)
    (ht1 : 1 ≤ alpha / 2) (ht64 : alpha / 2 < 2 ^ 64)
    (hs0 : 0 ≤ s0)
    (hb31 : s0 + ((2 * radius + 1 : Nat) : Int) * (k : Int) < 2 ^ 31)
    (hconst : ∀ j, j < N + 2 * radius → px pIn j ci = k)
    (h256 : ∀ j, px pIn j ci < 256)
    (hcs : MeanCState N radius alpha k Wb (List.replicate N s0)
      (List.replicate N (List.replicate (alpha / 2) k))
      (List.replicate N (List.replicate (alpha / 2) k)) st) :
    ∃ st', st.update pIn ci true = some st' ∧
      MeanCState N radius alpha k (Wb + ((2 * radius + 1 : Nat) : Int))
        (List.replicate N (s0 + ((2 * radius + 1 : Nat) : Int) * (k : Int)))
        (List.replicate N (List.replicate (alpha / 2) k))
        (List.replicate N (List.replicate (alpha / 2) k)) st' := by
  obtain ⟨h1, h2, h3, h4, h5, h6, h7, h8, h9, h10⟩ := hcs
  have hne : st.sums.isEmpty = false := by
    rw [h6]
    cases N with
    | zero => exact absurd hN1 (by omega)
    | succ n => rfl
  refine ⟨{ st with data := st.data.update pIn ci true, sums := List.replicate N (s0 + ((2 * radius + 1 : Nat) : Int) * (k : Int)) }, ?_, ?_⟩
  · rw [MeanHist.update, hne]
    simp only [Bool.false_eq_true, if_false, if_true]
    rw [h1, List.range_eq_range',
      addOuterFold_const pIn ci N radius alpha k s0 ht1 ht64 hs0 hb31 hconst N 0 st
        h9 h7 h8 h4 (by rw [h6, prefList_zero]) (by omega)]
    rfl
  · refine ⟨by rw [update_nCols]; exact h1, by rw [update_nHalf]; exact h2,
      by rw [update_radius]; exact h3, by rw [update_size]; exact h4, ?_,
      rfl, h7, h8, h9, h10⟩
    have hdb := DeltaBank_single st.data pIn ci k Wb true
      (by rw [h1, h2]; exact hNodd) (by rw [h4, h3]) (by rw [h1, h3]; exact hconst) h256 h5
    rw [if_pos rfl, h4] at hdb
    exact hdb

theorem meanUpdate_remove_const (pIn : List (List Nat)) (ci N radius alpha k : Nat)
    (Wb s0 : Int) (st : MeanHist)
    (hN1 : 1 ≤ N) (hNodd : N = 2 * (N / 2) + 1)
    (ht1 : 1 ≤ alpha / 2) (ht64 : alpha / 2 < 2 ^ 64) (hk : k < 256)
    (htw : ((alpha / 2 : Nat) : Int) < Wb - ((2 * radius + 1 : Nat) : Int))
    (hs0m : 0 ≤ s0 - ((2 * radius + 1 : Nat) : Int) * (k : Int))
    (hb31 : s0 < 2 ^ 31)
    (hconst : ∀ j, j < N + 2 * radius → px pIn j ci = k)
    (h256 : ∀ j, px pIn j ci < 256)
    (hcs : MeanCState N radius alpha k Wb (List.replicate N s0)
      (List.replicate N (List.replicate (alpha / 2) k))
      (List.replicate N (List.replicate (alpha / 2) k)) st) :
    ∃ st', st.update pIn ci false = some st' ∧
      MeanCState N radius alpha k (Wb - ((2 * radius + 1 : Nat) : Int))
        (List.replicate N (s0 - ((2 * radius + 1 : Nat) : Int) * (k : Int)))
        (List.replicate N (List.replicate (alpha / 2) k))
        (List.replicate N (List.replicate (alpha / 2) k)) st' := by
  obtain ⟨h1, h2, h3, h4, h5, h6, h7, h8, h9, h10⟩ := hcs
  have hne : st.sums.isEmpty = false := by
    rw [h6]
    cases N with
    | zero => exact absurd hN1 (by omega)
    | succ n => rfl
  have hdb := DeltaBank_single st.data pIn ci k Wb false
    (by rw [h1, h2]; exact hNodd) (by rw [h4, h3]) (by rw [h1, h3]; exact hconst) h256 h5
  rw [if_neg (by simp), h4] at hdb
  refine ⟨{ st with data := st.data.update pIn ci false, sums := List.replicate N (s0 - ((2 * radius + 1 : Nat) : Int) * (k : Int)) }, ?_, ?_⟩
  · rw [MeanHist.update, hne]
    simp only [Bool.false_eq_true, if_false]
    rw [show (({ st with data := st.data.update pIn ci false } : MeanHist)).data.nCols =
      st.data.nCols from update_nCols st.data pIn ci false, h1, List.range_eq_range',
      removeOuterFold_const pIn ci N radius alpha k s0
        (Wb - ((2 * radius + 1 : Nat) : Int)) ht1 ht64 hk htw hs0m hb31 hconst N 0
        { st with data := st.data.update pIn ci false } h9 h7 h8
        (by rw [show ({ st with data := st.data.update pIn ci false } : MeanHist).data =
          st.data.update pIn ci false from rfl, update_size]; exact h4)
        (by rw [show ({ st with data := st.data.update pIn ci false } : MeanHist).data =
          st.data.update pIn ci false from rfl, update_nCols]; exact h1)
        hdb (by rw [show ({ st with data := st.data.update pIn ci false } : MeanHist).sums =
          st.sums from rfl, h6, prefList_zero]) (by omega)]
  · exact ⟨by rw [update_nCols]; exact h1, by rw [update_nHalf]; exact h2,
      by rw [update_radius]; exact h3, by rw [update_size]; exact h4, hdb,
      rfl, h7, h8, h9, h10⟩

theorem addRowMean_eq (hists : List MeanHist) (pIn : List (List Nat)) (add : Bool) :
    addRowMean hists pIn add = (List.range' 0 hists.length).foldlM
      (fun hs c => (MeanHist.update (hs.getD c (MeanHist.new 0 1 0)) pIn c add).bind
        (fun h => some (hs.set c h))) hists := by
  rw [addRowMean, List.range_eq_range']
  rfl

theorem meanChanFold (pIn : List (List Nat)) (add : Bool) (P Q : Nat → MeanHist → Prop)
    (hF : ∀ c h, P c h → ∃ h', MeanHist.update h pIn c add = some h' ∧ Q c h') :
    ∀ (m c0 : Nat) (hists : List MeanHist), c0 + m ≤ hists.length →
      (∀ c, c0 ≤ c → c < c0 + m → P c (hists.getD c (MeanHist.new 0 1 0))) →
      ∃ hists', (List.range' c0 m).foldlM
          (fun hs c => (MeanHist.update (hs.getD c (MeanHist.new 0 1 0)) pIn c add).bind
            (fun h => some (hs.set c h))) hists = some hists' ∧
        hists'.length = hists.length ∧
        (∀ c, c < c0 ∨ c0 + m ≤ c →
          hists'.getD c (MeanHist.new 0 1 0) = hists.getD c (MeanHist.new 0 1 0)) ∧
        (∀ c, c0 ≤ c → c < c0 + m → Q c (hists'.getD c (MeanHist.new 0 1 0))) := by
  intro m
  induction m with
  | zero =>
    intro c0 hists hlen hP
    exact ⟨hists, by rw [show List.range' c0 0 = [] from rfl, List.foldlM_nil]; rfl,
      rfl, fun c _ => rfl, fun c hc1 hc2 => absurd hc2 (by omega)⟩
  | succ m ih =>
    intro c0 hists hlen hP
    obtain ⟨h', heq, hQ⟩ := hF c0 (hists.getD c0 (MeanHist.new 0 1 0))
      (hP c0 (le_refl c0) (by omega))
    obtain ⟨hists', hrun, hlen', hout, hin⟩ := ih (c0 + 1) (hists.set c0 h')
      (by rw [List.length_set]; omega)
      (fun c hc1 hc2 => by
        rw [getD_set_eqD, if_neg (by rintro ⟨rfl, _⟩; omega)]
        exact hP c (by omega) (by omega))
    refine ⟨hists', ?_, by rw [hlen', List.length_set], ?_, ?_⟩
    · rw [List.range'_succ, List.foldlM_cons, heq]
      simp only [Option.bind_eq_bind, Option.some_bind]
      exact hrun
    · intro c hc
      rw [hout c (by omega), getD_set_eqD, if_neg (by rintro ⟨rfl, _⟩; omega)]
    · intro c hc1 hc2
      by_cases hcc : c = c0
      · subst hcc
        rw [hout c (by omega), getD_set_eqD, if_pos ⟨rfl, by omega⟩]
        exact hQ
      · exact hin c (by omega) (by omega)

theorem meanUpdate_empty (st : MeanHist) (pIn : List (List Nat)) (ci : Nat) (add : Bool)
    (he : st.sums = []) :
    st.update pIn ci add = some { st with data := st.data.update pIn ci add } := by
  rw [MeanHist.update, if_pos (by rw [he]; rfl)]

theorem meanChanFoldT (pIn : List (List Nat)) (add : Bool) (T : Nat → MeanHist → MeanHist)
    (P : Nat → MeanHist → Prop)
    (hF : ∀ c h, P c h → MeanHist.update h pIn c add = some (T c h)) :
    ∀ (m c0 : Nat) (hists : List MeanHist), c0 + m ≤ hists.length →
      (∀ c, c0 ≤ c → c < c0 + m → P c (hists.getD c (MeanHist.new 0 1 0))) →
      ∃ hists', (List.range' c0 m).foldlM
          (fun hs c => (MeanHist.update (hs.getD c (MeanHist.new 0 1 0)) pIn c add).bind
            (fun h => some (hs.set c h))) hists = some hists' ∧
        hists'.length = hists.length ∧
        (∀ c, c < c0 ∨ c0 + m ≤ c →
          hists'.getD c (MeanHist.new 0 1 0) = hists.getD c (MeanHist.new 0 1 0)) ∧
        (∀ c, c0 ≤ c → c < c0 + m →
          hists'.getD c (MeanHist.new 0 1 0) = T c (hists.getD c (MeanHist.new 0 1 0))) := by
  intro m
  induction m with
  | zero =>
    intro c0 hists hlen hP
    exact ⟨hists, by rw [show List.range' c0 0 = [] from rfl, List.foldlM_nil]; rfl,
      rfl, fun c _ => rfl, fun c hc1 hc2 => absurd hc2 (by omega)⟩
  | succ m ih =>
    intro c0 hists hlen hP
    have heq := hF c0 (hists.getD c0 (MeanHist.new 0 1 0)) (hP c0 (le_refl c0) (by omega))
    obtain ⟨hists', hrun, hlen', hout, hin⟩ := ih (c0 + 1)
      (hists.set c0 (T c0 (hists.getD c0 (MeanHist.new 0 1 0))))
      (by rw [List.length_set]; omega)
      (fun c hc1 hc2 => by
        rw [getD_set_eqD, if_neg (by rintro ⟨rfl, _⟩; omega)]
        exact hP c (by omega) (by omega))
    refine ⟨hists', ?_, by rw [hlen', List.length_set], ?_, ?_⟩
    · rw [List.range'_succ, List.foldlM_cons, heq]
      simp only [Option.bind_eq_bind, Option.some_bind]
      exact hrun
    · intro c hc
      rw [hout c (by omega), getD_set_eqD, if_neg (by rintro ⟨rfl, _⟩; omega)]
    · intro c hc1 hc2
      by_cases hcc : c = c0
      · subst hcc
        rw [hout c (by omega), getD_set_eqD, if_pos ⟨rfl, by omega⟩]
      · rw [hin c (by omega) (by omega), getD_set_eqD, if_neg (by rintro ⟨rfl, _⟩; omega)]

theorem meanFoldAdd_proj (slice : Nat → List (List Nat)) (c : Nat) :
    ∀ (rows : List Nat) (h0 : MeanHist),
      rows.foldl (fun h j => { h with data := h.data.update (slice j) c true }) h0 =
        { h0 with data := rows.foldl (fun d j => d.update (slice j) c true) h0.data } := by
  intro rows
  induction rows with
  | nil => intro h0; rfl
  | cons r rows ih =>
    intro h0
    rw [List.foldl_cons, List.foldl_cons, ih]

theorem meanPrimeFold (slice : Nat → List (List Nat)) :
    ∀ (rows : List Nat) (hists : List MeanHist),
      (∀ c, c < hists.length → (hists.getD c (MeanHist.new 0 1 0)).sums = []) →
      ∃ hists', rows.foldlM (fun hs j => addRowMean hs (slice j) true) hists = some hists' ∧
        hists'.length = hists.length ∧
        ∀ c, c < hists.length → hists'.getD c (MeanHist.new 0 1 0) =
          rows.foldl (fun hst j => { hst with data := hst.data.update (slice j) c true })
            (hists.getD c (MeanHist.new 0 1 0)) := by
  intro rows
  induction rows with
  | nil =>
    intro hists hemp
    exact ⟨hists, rfl, rfl, fun c _ => rfl⟩
  | cons r rows ih =>
    intro hists hemp
    obtain ⟨hists1, hrun1, hlen1, hout1, hin1⟩ :=
      meanChanFoldT (slice r) true
        (fun c hst => { hst with data := hst.data.update (slice r) c true })
        (fun c hst => hst.sums = [])
        (fun c hst hP => meanUpdate_empty hst (slice r) c true hP)
        hists.length 0 hists (by omega) (fun c hc1 hc2 => hemp c (by omega))
    obtain ⟨hists2, hrun2, hlen2, hin2⟩ := ih hists1
      (fun c hc => by
        rw [hlen1] at hc
        rw [hin1 c (by omega) (by omega)]
        exact hemp c hc)
    refine ⟨hists2, ?_, by rw [hlen2, hlen1], ?_⟩
    · rw [List.foldlM_cons, addRowMean_eq, hrun1]
      simp only [Option.bind_eq_bind, Option.some_bind]
      exact hrun2
    · intro c hc
      rw [List.foldl_cons, hin2 c (by rw [hlen1]; exact hc), hin1 c (by omega) (by omega)]

theorem MeanCState_primed (w h ch k N radius alpha x : Nat)
    (hw : 1 ≤ w) (hh : 1 ≤ h) (hx : x < w) (hk : k < 256)
    (hodd : N = 2 * (N / 2) + 1) :
    ∃ hists1, (primeRows h radius).foldlM
        (fun hs j => addRowMean hs (rowSlice (constImage w h ch k) N radius x j) true)
        (List.replicate ch (MeanHist.new radius N alpha)) = some hists1 ∧
      hists1.length = ch ∧
      (∀ c, c < ch → MeanCState N radius alpha k
        (((2 * radius + 1 : Nat) : Int) * ((2 * radius + 1 : Nat) : Int))
        (List.replicate N 0) (List.replicate N []) (List.replicate N [])
        ((hists1.map MeanHist.init).getD c (MeanHist.new 0 1 0))) := by
  obtain ⟨hists1, hrun, hlen1, hin⟩ := meanPrimeFold
    (fun j => rowSlice (constImage w h ch k) N radius x j) (primeRows h radius)
    (List.replicate ch (MeanHist.new radius N alpha))
    (fun c hc => by
      rw [List.length_replicate] at hc
      rw [getD_replicate, if_pos hc]
      rfl)
  refine ⟨hists1, hrun, by rw [hlen1, List.length_replicate], ?_⟩
  intro c hc
  rw [getD_map' MeanHist.init hists1 c (MeanHist.new 0 1 0) (MeanHist.new 0 1 0)
    (by rw [hlen1, List.length_replicate]; exact hc)]
  rw [hin c (by rw [List.length_replicate]; exact hc), getD_replicate, if_pos hc,
    meanFoldAdd_proj, show (MeanHist.new radius N alpha).data = PartHist.new radius N
      from rfl]
  have hfields := foldAdd_fields (fun j => rowSlice (constImage w h ch k) N radius x j) c
    (primeRows h radius) (PartHist.new radius N)
  have hnc : ((primeRows h radius).foldl
      (fun d j => d.update (rowSlice (constImage w h ch k) N radius x j) c true)
      (PartHist.new radius N)).nCols = N := hfields.1
  have hoddnew : (PartHist.new radius N).nCols = 2 * (PartHist.new radius N).nHalf + 1 := by
    show N = 2 * (N / 2) + 1
    exact hodd
  refine ⟨hnc, hfields.2.1, hfields.2.2.1, hfields.2.2.2, ⟨?_, ?_⟩, ?_, ?_, ?_, rfl, rfl⟩
  · show HWF ((primeRows h radius).foldl
      (fun d j => d.update (rowSlice (constImage w h ch k) N radius x j) c true)
      (PartHist.new radius N)).nCols ((primeRows h radius).foldl
      (fun d j => d.update (rowSlice (constImage w h ch k) N radius x j) c true)
      (PartHist.new radius N)).data
    rw [hnc]
    exact foldAdd_hwf (fun j => rowSlice (constImage w h ch k) N radius x j) c
      (primeRows h radius) (PartHist.new radius N) hoddnew (hwf_new radius N)
  · show ∀ i k2, i < ((primeRows h radius).foldl
      (fun d j => d.update (rowSlice (constImage w h ch k) N radius x j) c true)
      (PartHist.new radius N)).nCols → k2 < 256 →
      ((primeRows h radius).foldl
        (fun d j => d.update (rowSlice (constImage w h ch k) N radius x j) c true)
        (PartHist.new radius N)).get_count k2 i =
      if k2 = k then ((2 * radius + 1 : Nat) : Int) * ((2 * radius + 1 : Nat) : Int) else 0
    intro i k' hi hk'
    rw [hnc] at hi
    rw [foldAdd_get_count (fun j => rowSlice (constImage w h ch k) N radius x j) c
      (primeRows h radius) (PartHist.new radius N) hoddnew rfl (hwf_new radius N)
      (fun rr j => px_rowSlice_const_lt w h ch k N radius x rr j c hk) i k'
      (by exact hi) hk', get_count_new, new_size]
    have hwc : ((primeRows h radius).map
        (fun rr => windowCount (rowSlice (constImage w h ch k) N radius x rr) c
          (2 * radius + 1) i k')) =
        ((primeRows h radius).map
          (fun _ => if k' = k then ((2 * radius + 1 : Nat) : Int) else 0)) := by
      apply map_congr_on
      intro rr hrr
      exact windowCount_const _ c (2 * radius + 1) i k k'
        (fun j hj1 hj2 => px_rowSlice_const w h ch k N radius x rr j c hw
          (primeRows_lt h radius hh rr hrr) (by omega) hc)
    rw [hwc, sum_const_int, primeRows_length]
    by_cases hkk : k' = k
    · rw [if_pos hkk, if_pos hkk]
      push_cast
      ring
    · rw [if_neg hkk, if_neg hkk]
      ring
  · show List.replicate ((primeRows h radius).foldl
      (fun d j => d.update (rowSlice (constImage w h ch k) N radius x j) c true)
      (PartHist.new radius N)).nCols (0 : Int) = List.replicate N 0
    rw [hnc]
  · show List.replicate ((primeRows h radius).foldl
      (fun d j => d.update (rowSlice (constImage w h ch k) N radius x j) c true)
      (PartHist.new radius N)).nCols ([] : List Nat) = List.replicate N []
    rw [hnc]
  · show List.replicate ((primeRows h radius).foldl
      (fun d j => d.update (rowSlice (constImage w h ch k) N radius x j) c true)
      (PartHist.new radius N)).nCols ([] : List Nat) = List.replicate N []
    rw [hnc]

theorem meanPureChanFold (step : List Nat × List MeanHist → Nat → List Nat × List MeanHist)
    (G : Nat → MeanHist → MeanHist) (val : Nat) (P : MeanHist → Prop)
    (hstep : ∀ (a : List Nat) (hs : List MeanHist) (c : Nat),
      P (hs.getD c (MeanHist.new 0 1 0)) →
      step (a, hs) c = (a ++ [val], hs.set c (G c (hs.getD c (MeanHist.new 0 1 0))))) :
    ∀ (m c0 : Nat) (a : List Nat) (hists : List MeanHist), c0 + m ≤ hists.length →
      (∀ c, c0 ≤ c → c < c0 + m → P (hists.getD c (MeanHist.new 0 1 0))) →
      ∃ hists', (List.range' c0 m).foldl step (a, hists) =
          (a ++ List.replicate m val, hists') ∧
        hists'.length = hists.length ∧
        (∀ c, c < c0 ∨ c0 + m ≤ c →
          hists'.getD c (MeanHist.new 0 1 0) = hists.getD c (MeanHist.new 0 1 0)) ∧
        (∀ c, c0 ≤ c → c < c0 + m →
          hists'.getD c (MeanHist.new 0 1 0) = G c (hists.getD c (MeanHist.new 0 1 0))) := by
  intro m
  induction m with
  | zero =>
    intro c0 a hists hlen hP
    exact ⟨hists, by rw [show List.range' c0 0 = [] from rfl, List.foldl_nil,
        List.replicate_zero, List.append_nil],
      rfl, fun c _ => rfl, fun c hc1 hc2 => absurd hc2 (by omega)⟩
  | succ m ih =>
    intro c0 a hists hlen hP
    obtain ⟨hists', hrun, hlen', hout, hin⟩ := ih (c0 + 1) (a ++ [val])
      (hists.set c0 (G c0 (hists.getD c0 (MeanHist.new 0 1 0))))
      (by rw [List.length_set]; omega)
      (fun c hc1 hc2 => by
        rw [getD_set_eqD, if_neg (by rintro ⟨rfl, _⟩; omega)]
        exact hP c (by omega) (by omega))
    refine ⟨hists', ?_, by rw [hlen', List.length_set], ?_, ?_⟩
    · rw [List.range'_succ, List.foldl_cons, hstep a hists c0 (hP c0 (le_refl c0) (by omega)),
        hrun, List.append_assoc]
      rw [show ([val] ++ List.replicate m val : List Nat) = List.replicate (m + 1) val from by
        rw [List.replicate_succ]; rfl]
    · intro c hc
      rw [hout c (by omega), getD_set_eqD, if_neg (by rintro ⟨rfl, _⟩; omega)]
    · intro c hc1 hc2
      by_cases hcc : c = c0
      · subst hcc
        rw [hout c (by omega), getD_set_eqD, if_pos ⟨rfl, by omega⟩]
      · rw [hin c (by omega) (by omega), getD_set_eqD, if_neg (by rintro ⟨rfl, _⟩; omega)]

theorem initColsMean_eq (input output : Image) (hists : List MeanHist)
    (radius alpha nCols x : Nat) :
    initColsMean input output hists radius alpha nCols x =
      ((primeRows input.height radius).foldlM
        (fun hs j => addRowMean hs (rowSlice input nCols radius x j) true) hists).bind
      (fun hists1 => some ((List.range nCols).foldl
        (initMeanColStep input x (alpha / 2)
          ((2 * radius + 1) * (2 * radius + 1) - alpha / 2))
        (output, hists1.map MeanHist.init))) := rfl

theorem castSq (radius : Nat) :
    ((2 * radius + 1 : Nat) : Int) * ((2 * radius + 1 : Nat) : Int) =
      (((2 * radius + 1) * (2 * radius + 1) : Nat) : Int) := by
  push_cast
  ring

theorem wbound1 (radius k : Nat)
    (hsumB : ((2 * radius + 1) * (2 * radius + 1) + (2 * radius + 1)) * k < 2 ^ 31) :
    ((2 * radius + 1 : Nat) : Int) * ((2 * radius + 1 : Nat) : Int) * (k : Int) < 2 ^ 31 := by
  rw [castSq]
  rw [show (((2 * radius + 1) * (2 * radius + 1) : Nat) : Int) * (k : Int) =
    (((2 * radius + 1) * (2 * radius + 1) * k : Nat) : Int) from by push_cast; ring]
  have hle : (2 * radius + 1) * (2 * radius + 1) * k ≤
      ((2 * radius + 1) * (2 * radius + 1) + (2 * radius + 1)) * k :=
    Nat.mul_le_mul_right k (by omega)
  omega

theorem sValBound (radius alpha k : Nat)
    (hal : alpha ≤ (2 * radius + 1) * (2 * radius + 1))
    (hsumB : ((2 * radius + 1) * (2 * radius + 1) + (2 * radius + 1)) * k < 2 ^ 31) :
    (((2 * radius + 1) * (2 * radius + 1) - alpha : Nat) : Int) * (k : Int) +
      ((2 * radius + 1 : Nat) : Int) * (k : Int) < 2 ^ 31 := by
  rw [show (((2 * radius + 1) * (2 * radius + 1) - alpha : Nat) : Int) * (k : Int) =
    ((((2 * radius + 1) * (2 * radius + 1) - alpha) * k : Nat) : Int) from by push_cast; ring,
    show ((2 * radius + 1 : Nat) : Int) * (k : Int) =
    (((2 * radius + 1) * k : Nat) : Int) from by push_cast; ring]
  have hle : ((2 * radius + 1) * (2 * radius + 1) - alpha) * k + (2 * radius + 1) * k ≤
      ((2 * radius + 1) * (2 * radius + 1) + (2 * radius + 1)) * k := by
    rw [← Nat.add_mul]
    exact Nat.mul_le_mul_right k (by omega)
  omega

theorem initMean_r (N radius alpha k i : Nat) (h : MeanHist) (hk : k < 256) (hi : i < N)
    (ht1 : 1 ≤ alpha / 2) (heven : alpha % 2 = 0)
    (hlt : alpha < (2 * radius + 1) * (2 * radius + 1))
    (hszB : (2 * radius + 1) * (2 * radius + 1) < 2 ^ 31)
    (hsumB : ((2 * radius + 1) * (2 * radius + 1) + (2 * radius + 1)) * k < 2 ^ 31)
    (hcs : InitMState N radius alpha k i h) :
    initMeanColumn h.data i (alpha / 2) ((2 * radius + 1) * (2 * radius + 1) - alpha / 2) =
      { count := ((2 * radius + 1 : Nat) : Int) * ((2 * radius + 1 : Nat) : Int),
        sum := (((2 * radius + 1) * (2 * radius + 1) - alpha : Nat) : Int) * (k : Int),
        upper := List.replicate (alpha / 2) k,
        lower := List.replicate (alpha / 2) k } := by
  obtain ⟨h1, h2, h3, h4, h5, h6, h7, h8, h9, h10⟩ := hcs
  rw [initMeanColumn_delta h.data i k (alpha / 2)
    ((2 * radius + 1) * (2 * radius + 1) - alpha / 2)
    (((2 * radius + 1 : Nat) : Int) * ((2 * radius + 1 : Nat) : Int)) hk
    (fun key hkey => h5.2 i key (by rw [h1]; exact hi) hkey)
    (by rw [castSq]; omega)
    (by rw [castSq]; omega)
    (by rw [castSq]; omega)
    (wbound1 radius k hsumB)]
  have e2 : 2 * ((alpha / 2 : Nat) : Int) = (alpha : Int) := by omega
  have e3 : (((2 * radius + 1) * (2 * radius + 1) - alpha : Nat) : Int) =
      (((2 * radius + 1) * (2 * radius + 1) : Nat) : Int) - (alpha : Int) := by omega
  rw [MeanInit.mk.injEq]
  refine ⟨rfl, ?_, rfl, rfl⟩
  rw [castSq, e3]
  rw [show ((((2 * radius + 1) * (2 * radius + 1) : Nat) : Int) - (alpha : Int)) * (k : Int) =
    (((2 * radius + 1) * (2 * radius + 1) : Nat) : Int) * (k : Int) -
      (alpha : Int) * (k : Int) from by ring]
  rw [show (2 : Int) * ((alpha / 2 : Nat) : Int) * (k : Int) = (alpha : Int) * (k : Int) from by
    rw [show (2 : Int) * ((alpha / 2 : Nat) : Int) * (k : Int) =
      (2 * ((alpha / 2 : Nat) : Int)) * (k : Int) from by ring, e2]]

theorem initMeanChanStep (N radius alpha k i : Nat) (h : MeanHist) (hk : k < 256) (hi : i < N)
    (ht1 : 1 ≤ alpha / 2) (heven : alpha % 2 = 0)
    (hlt : alpha < (2 * radius + 1) * (2 * radius + 1))
    (hcs : InitMState N radius alpha k i h) :
    ({ h with
        sums := h.sums.set i
          ((((2 * radius + 1) * (2 * radius + 1) - alpha : Nat) : Int) * (k : Int)),
        upper := h.upper.set i (List.replicate (alpha / 2) k),
        lower := h.lower.set i (List.replicate (alpha / 2) k) } : MeanHist).get_mean i = k ∧
    InitMState N radius alpha k (i + 1)
      { h with
        sums := h.sums.set i
          ((((2 * radius + 1) * (2 * radius + 1) - alpha : Nat) : Int) * (k : Int)),
        upper := h.upper.set i (List.replicate (alpha / 2) k),
        lower := h.lower.set i (List.replicate (alpha / 2) k) } := by
  obtain ⟨h1, h2, h3, h4, h5, h6, h7, h8, h9, h10⟩ := hcs
  constructor
  · rw [MeanHist.get_mean]
    rw [show ({ h with
        sums := h.sums.set i
          ((((2 * radius + 1) * (2 * radius + 1) - alpha : Nat) : Int) * (k : Int)),
        upper := h.upper.set i (List.replicate (alpha / 2) k),
        lower := h.lower.set i (List.replicate (alpha / 2) k) } : MeanHist).sums =
      h.sums.set i ((((2 * radius + 1) * (2 * radius + 1) - alpha : Nat) : Int) * (k : Int))
      from rfl]
    rw [getD_set_eqD, if_pos ⟨rfl, by rw [h6, prefList_length]; exact hi⟩]
    rw [show ({ h with
        sums := h.sums.set i
          ((((2 * radius + 1) * (2 * radius + 1) - alpha : Nat) : Int) * (k : Int)),
        upper := h.upper.set i (List.replicate (alpha / 2) k),
        lower := h.lower.set i (List.replicate (alpha / 2) k) } : MeanHist).len = h.len
      from rfl, h10]
    rw [roundDiv_const ((2 * radius + 1) * (2 * radius + 1) - alpha) k (by omega)]
    exact toByte_small k hk
  · refine ⟨h1, h2, h3, h4, h5, ?_, ?_, ?_, h9, h10⟩
    · rw [show ({ h with
          sums := h.sums.set i
            ((((2 * radius + 1) * (2 * radius + 1) - alpha : Nat) : Int) * (k : Int)),
          upper := h.upper.set i (List.replicate (alpha / 2) k),
          lower := h.lower.set i (List.replicate (alpha / 2) k) } : MeanHist).sums =
        h.sums.set i ((((2 * radius + 1) * (2 * radius + 1) - alpha : Nat) : Int) * (k : Int))
        from rfl, h6, prefList_set _ _ _ _ hi]
    · rw [show ({ h with
          sums := h.sums.set i
            ((((2 * radius + 1) * (2 * radius + 1) - alpha : Nat) : Int) * (k : Int)),
          upper := h.upper.set i (List.replicate (alpha / 2) k),
          lower := h.lower.set i (List.replicate (alpha / 2) k) } : MeanHist).lower =
        h.lower.set i (List.replicate (alpha / 2) k)
        from rfl, h7, prefList_set _ _ _ _ hi]
    · rw [show ({ h with
          sums := h.sums.set i
            ((((2 * radius + 1) * (2 * radius + 1) - alpha : Nat) : Int) * (k : Int)),
          upper := h.upper.set i (List.replicate (alpha / 2) k),
          lower := h.lower.set i (List.replicate (alpha / 2) k) } : MeanHist).upper =
        h.upper.set i (List.replicate (alpha / 2) k)
        from rfl, h8, prefList_set _ _ _ _ hi]

theorem initMean_G (N radius alpha k i : Nat) (h : MeanHist) (hk : k < 256) (hi : i < N)
    (ht1 : 1 ≤ alpha / 2) (heven : alpha % 2 = 0)
    (hlt : alpha < (2 * radius + 1) * (2 * radius + 1))
    (hszB : (2 * radius + 1) * (2 * radius + 1) < 2 ^ 31)
    (hsumB : ((2 * radius + 1) * (2 * radius + 1) + (2 * radius + 1)) * k < 2 ^ 31)
    (hcs : InitMState N radius alpha k i h) :
    ({ h with
        sums := h.sums.set i
          (initMeanColumn h.data i (alpha / 2)
            ((2 * radius + 1) * (2 * radius + 1) - alpha / 2)).sum,
        upper := h.upper.set i
          (initMeanColumn h.data i (alpha / 2)
            ((2 * radius + 1) * (2 * radius + 1) - alpha / 2)).upper,
        lower := h.lower.set i
          (initMeanColumn h.data i (alpha / 2)
            ((2 * radius + 1) * (2 * radius + 1) - alpha / 2)).lower } : MeanHist) =
    { h with
        sums := h.sums.set i
          ((((2 * radius + 1) * (2 * radius + 1) - alpha : Nat) : Int) * (k : Int)),
        upper := h.upper.set i (List.replicate (alpha / 2) k),
        lower := h.lower.set i (List.replicate (alpha / 2) k) } := by
  rw [initMean_r N radius alpha k i h hk hi ht1 heven hlt hszB hsumB hcs]

theorem initMeanChanBody_eq (N radius alpha k i : Nat) (hk : k < 256) (hi : i < N)
    (ht1 : 1 ≤ alpha / 2) (heven : alpha % 2 = 0)
    (hlt : alpha < (2 * radius + 1) * (2 * radius + 1))
    (hszB : (2 * radius + 1) * (2 * radius + 1) < 2 ^ 31)
    (hsumB : ((2 * radius + 1) * (2 * radius + 1) + (2 * radius + 1)) * k < 2 ^ 31)
    (a : List Nat) (hs : List MeanHist) (c : Nat)
    (hP : InitMState N radius alpha k i (hs.getD c (MeanHist.new 0 1 0))) :
    initMeanChanBody i (alpha / 2) ((2 * radius + 1) * (2 * radius + 1) - alpha / 2)
      (a, hs) c =
    (a ++ [k], hs.set c
      { hs.getD c (MeanHist.new 0 1 0) with
          sums := (hs.getD c (MeanHist.new 0 1 0)).sums.set i
            ((((2 * radius + 1) * (2 * radius + 1) - alpha : Nat) : Int) * (k : Int)),
          upper := (hs.getD c (MeanHist.new 0 1 0)).upper.set i
            (List.replicate (alpha / 2) k),
          lower := (hs.getD c (MeanHist.new 0 1 0)).lower.set i
            (List.replicate (alpha / 2) k) }) := by
  have hG := initMean_G N radius alpha k i (hs.getD c (MeanHist.new 0 1 0))
    hk hi ht1 heven hlt hszB hsumB hP
  have hM := initMeanChanStep N radius alpha k i (hs.getD c (MeanHist.new 0 1 0))
    hk hi ht1 heven hlt hP
  show (a ++ [({ hs.getD c (MeanHist.new 0 1 0) with
        sums := (hs.getD c (MeanHist.new 0 1 0)).sums.set i
          (initMeanColumn (hs.getD c (MeanHist.new 0 1 0)).data i (alpha / 2)
            ((2 * radius + 1) * (2 * radius + 1) - alpha / 2)).sum,
        upper := (hs.getD c (MeanHist.new 0 1 0)).upper.set i
          (initMeanColumn (hs.getD c (MeanHist.new 0 1 0)).data i (alpha / 2)
            ((2 * radius + 1) * (2 * radius + 1) - alpha / 2)).upper,
        lower := (hs.getD c (MeanHist.new 0 1 0)).lower.set i
          (initMeanColumn (hs.getD c (MeanHist.new 0 1 0)).data i (alpha / 2)
            ((2 * radius + 1) * (2 * radius + 1) - alpha / 2)).lower } : MeanHist).get_mean i],
      hs.set c { hs.getD c (MeanHist.new 0 1 0) with
        sums := (hs.getD c (MeanHist.new 0 1 0)).sums.set i
          (initMeanColumn (hs.getD c (MeanHist.new 0 1 0)).data i (alpha / 2)
            ((2 * radius + 1) * (2 * radius + 1) - alpha / 2)).sum,
        upper := (hs.getD c (MeanHist.new 0 1 0)).upper.set i
          (initMeanColumn (hs.getD c (MeanHist.new 0 1 0)).data i (alpha / 2)
            ((2 * radius + 1) * (2 * radius + 1) - alpha / 2)).upper,
        lower := (hs.getD c (MeanHist.new 0 1 0)).lower.set i
          (initMeanColumn (hs.getD c (MeanHist.new 0 1 0)).data i (alpha / 2)
            ((2 * radius + 1) * (2 * radius + 1) - alpha / 2)).lower }) = _
  rw [hG, hM.1]

theorem initMeanColStep9 (w h ch k N radius alpha x i : Nat)
    (hw : 1 ≤ w) (hh : 1 ≤ h) (hx : x < w) (hk : k < 256) (hi : i < N)
    (ht1 : 1 ≤ alpha / 2) (heven : alpha % 2 = 0)
    (hlt : alpha < (2 * radius + 1) * (2 * radius + 1))
    (hszB : (2 * radius + 1) * (2 * radius + 1) < 2 ^ 31)
    (hsumB : ((2 * radius + 1) * (2 * radius + 1) + (2 * radius + 1)) * k < 2 ^ 31)
    (img : Image) (hists : List MeanHist)
    (h1 : img.width = w) (h2 : img.height = h) (h3 : img.channels = ch)
    (h4 : img.data.length = w * h * ch) (h5 : hists.length = ch)
    (hC : ∀ c, c < ch → InitMState N radius alpha k i (hists.getD c (MeanHist.new 0 1 0))) :
    ∃ st' : Image × List MeanHist,
      initMeanColStep (constImage w h ch k) x (alpha / 2)
        ((2 * radius + 1) * (2 * radius + 1) - alpha / 2) (img, hists) i = st' ∧
      st'.1.width = w ∧ st'.1.height = h ∧ st'.1.channels = ch ∧
      st'.1.data.length = w * h * ch ∧ st'.2.length = ch ∧
      (∀ c, c < ch →
        InitMState N radius alpha k (i + 1) (st'.2.getD c (MeanHist.new 0 1 0))) ∧
      (∀ c, c < ch →
        st'.1.data.getD ((0 * w + writeCol w x i) * ch + c) 0 = k) ∧
      (∀ q, st'.1.data.getD q 0 = k ∨ st'.1.data.getD q 0 = img.data.getD q 0) := by
  obtain ⟨hists', hfold, hflen, hfout, hfin⟩ :=
    meanPureChanFold (initMeanChanBody i (alpha / 2)
        ((2 * radius + 1) * (2 * radius + 1) - alpha / 2))
      (fun _ hst => { hst with
          sums := hst.sums.set i
            ((((2 * radius + 1) * (2 * radius + 1) - alpha : Nat) : Int) * (k : Int)),
          upper := hst.upper.set i (List.replicate (alpha / 2) k),
          lower := hst.lower.set i (List.replicate (alpha / 2) k) })
      k (InitMState N radius alpha k i)
      (fun a hs c hP => initMeanChanBody_eq N radius alpha k i hk hi ht1 heven hlt hszB hsumB a hs c hP)
      ch 0 [] hists (by omega) (fun c hc1 hc2 => hC c (by omega))
  rw [initMeanColStep, show (constImage w h ch k).channels = ch from rfl,
    show (constImage w h ch k).width = w from rfl, List.range_eq_range', hfold]
  simp only [List.nil_append]
  refine ⟨_, rfl, ?_, ?_, ?_, ?_, ?_, ?_, ?_, ?_⟩
  · rw [setPixel_width, h1]
  · rw [setPixel_height, h2]
  · rw [setPixel_channels, h3]
  · rw [setPixel_data, writeList_length, h4]
  · rw [hflen, h5]
  · intro c hc
    rw [hfin c (by omega) (by omega)]
    exact (initMeanChanStep N radius alpha k i (hists.getD c (MeanHist.new 0 1 0))
      hk hi ht1 heven hlt (hC c hc)).2
  · intro c hc
    rw [setPixel_data, h1, h3, writeList_getD, if_pos]
    · rw [show (0 * w + writeCol w x i) * ch + c - (0 * w + writeCol w x i) * ch = c
        from by omega]
      rw [getD_replicate, if_pos hc]
    · refine ⟨by omega, ?_, ?_⟩
      · rw [List.length_replicate]
        omega
      · rw [h4]
        exact encode_lt 0 (writeCol w x i) c w h ch hh (writeCol_lt w x i hw) hc
  · intro q
    rw [setPixel_data, h1, h3, writeList_getD]
    by_cases hq : (0 * w + writeCol w x i) * ch ≤ q ∧
        q < (0 * w + writeCol w x i) * ch + (List.replicate ch k).length ∧
        q < img.data.length
    · rw [if_pos hq]
      left
      obtain ⟨hq1, hq2, hq3⟩ := hq
      rw [List.length_replicate] at hq2
      rw [getD_replicate, if_pos (by omega)]
    · rw [if_neg hq]
      right
      rfl

theorem initMeanIFold (w h ch k N radius alpha x : Nat)
    (hw : 1 ≤ w) (hh : 1 ≤ h) (hx : x < w) (hk : k < 256)
    (ht1 : 1 ≤ alpha / 2) (heven : alpha % 2 = 0)
    (hlt : alpha < (2 * radius + 1) * (2 * radius + 1))
    (hszB : (2 * radius + 1) * (2 * radius + 1) < 2 ^ 31)
    (hsumB : ((2 * radius + 1) * (2 * radius + 1) + (2 * radius + 1)) * k < 2 ^ 31)
    :
    ∀ (m i0 : Nat) (img : Image) (hists : List MeanHist),
      i0 + m ≤ N →
      img.width = w → img.height = h → img.channels = ch →
      img.data.length = w * h * ch → hists.length = ch →
      (∀ c, c < ch → InitMState N radius alpha k i0 (hists.getD c (MeanHist.new 0 1 0))) →
      ∃ st' : Image × List MeanHist,
        (List.range' i0 m).foldl
          (initMeanColStep (constImage w h ch k) x (alpha / 2)
            ((2 * radius + 1) * (2 * radius + 1) - alpha / 2))
          (img, hists) = st' ∧
        st'.1.width = w ∧ st'.1.height = h ∧ st'.1.channels = ch ∧
        st'.1.data.length = w * h * ch ∧ st'.2.length = ch ∧
        (∀ c, c < ch →
          InitMState N radius alpha k (i0 + m) (st'.2.getD c (MeanHist.new 0 1 0))) ∧
        (∀ c i', c < ch → i0 ≤ i' → i' < i0 + m →
          st'.1.data.getD ((0 * w + writeCol w x i') * ch + c) 0 = k) ∧
        (∀ q, st'.1.data.getD q 0 = k ∨ st'.1.data.getD q 0 = img.data.getD q 0) := by
  intro m
  induction m with
  | zero =>
    intro i0 img hists hm h1 h2 h3 h4 h5 hC
    refine ⟨(img, hists), ?_, h1, h2, h3, h4, h5,
      (by rw [Nat.add_zero]; exact hC), fun c i' _ hge hlt2 => absurd hlt2 (by omega),
      fun q => Or.inr rfl⟩
    rw [show List.range' i0 0 = [] from rfl, List.foldl_nil]
  | succ m ih =>
    intro i0 img hists hm h1 h2 h3 h4 h5 hC
    rw [List.range'_succ, List.foldl_cons]
    obtain ⟨st1, he1, j1, j2, j3, j4, j5, j6, j7, j8⟩ :=
      initMeanColStep9 w h ch k N radius alpha x i0 hw hh hx hk (by omega) ht1 heven hlt
        hszB hsumB img hists h1 h2 h3 h4 h5 hC
    rw [he1]
    obtain ⟨st', he2, k1, k2, k3, k4, k5, k6, k7, k8⟩ :=
      ih (i0 + 1) st1.1 st1.2 (by omega) j1 j2 j3 j4 j5 j6
    refine ⟨st', ?_, k1, k2, k3, k4, k5, ?_, ?_, ?_⟩
    · rw [← he2]
    · rw [show i0 + (m + 1) = i0 + 1 + m from by omega]
      exact k6
    · intro c i' hc hge hlt2
      by_cases hii : i' = i0
      · subst hii
        rcases k8 ((0 * w + writeCol w x i') * ch + c) with hk8 | hk8
        · exact hk8
        · rw [hk8]
          exact j7 c hc
      · exact k7 c i' hc (by omega) (by omega)
    · intro q
      rcases k8 q with hk8 | hk8
      · exact Or.inl hk8
      · rw [hk8]
        exact j8 q

theorem initColsMean9 (w h ch k N radius alpha x : Nat)
    (hw : 1 ≤ w) (hh : 1 ≤ h) (hx : x < w) (hk : k < 256)
    (hodd : N = 2 * (N / 2) + 1)
    (ht1 : 1 ≤ alpha / 2) (heven : alpha % 2 = 0)
    (hlt : alpha < (2 * radius + 1) * (2 * radius + 1))
    (hszB : (2 * radius + 1) * (2 * radius + 1) < 2 ^ 31)
    (hsumB : ((2 * radius + 1) * (2 * radius + 1) + (2 * radius + 1)) * k < 2 ^ 31)
    (output : Image)
    (ho1 : output.width = w) (ho2 : output.height = h) (ho3 : output.channels = ch)
    (ho4 : output.data.length = w * h * ch) :
    ∃ st' : Image × List MeanHist,
      initColsMean (constImage w h ch k) output
        (List.replicate ch (MeanHist.new radius N alpha)) radius alpha N x = some st' ∧
      st'.1.width = w ∧ st'.1.height = h ∧ st'.1.channels = ch ∧
      st'.1.data.length = w * h * ch ∧ st'.2.length = ch ∧
      (∀ c, c < ch → InitMState N radius alpha k N (st'.2.getD c (MeanHist.new 0 1 0))) ∧
      (∀ c i', c < ch → i' < N →
        st'.1.data.getD ((0 * w + writeCol w x i') * ch + c) 0 = k) ∧
      (∀ q, st'.1.data.getD q 0 = k ∨ st'.1.data.getD q 0 = output.data.getD q 0) := by
  rw [initColsMean_eq, show (constImage w h ch k).height = h from rfl]
  obtain ⟨hists1, hrun, hlen1, hCS⟩ :=
    MeanCState_primed w h ch k N radius alpha x hw hh hx hk hodd
  rw [hrun]
  simp only [Option.some_bind]
  obtain ⟨st', he, k1, k2, k3, k4, k5, k6, k7, k8⟩ :=
    initMeanIFold w h ch k N radius alpha x hw hh hx hk ht1 heven hlt hszB hsumB N 0 output
      (hists1.map MeanHist.init) (by omega) ho1 ho2 ho3 ho4
      (by rw [List.length_map, hlen1])
      (fun c hc => by
        rw [InitMState, prefList_zero, prefList_zero]
        exact hCS c hc)
  rw [List.range_eq_range', he]
  refine ⟨st', rfl, k1, k2, k3, k4, k5, ?_, fun c i' hc hi' => k7 c i' hc (by omega)
    (by omega), k8⟩
  intro c hc
  have := k6 c hc
  rwa [Nat.zero_add] at this

theorem SteadyM_get_mean (N radius alpha k i : Nat) (h : MeanHist)
    (hk : k < 256) (hi : i < N)
    (hlt : alpha < (2 * radius + 1) * (2 * radius + 1))
    (hcs : SteadyM N radius alpha k h) : h.get_mean i = k := by
  obtain ⟨h1, h2, h3, h4, h5, h6, h7, h8, h9, h10⟩ := hcs
  rw [MeanHist.get_mean, h6, h10, getD_replicate, if_pos hi,
    roundDiv_const ((2 * radius + 1) * (2 * radius + 1) - alpha) k (by omega)]
  exact toByte_small k hk

theorem SteadyM_of_init (N radius alpha k : Nat) (h : MeanHist)
    (hcs : InitMState N radius alpha k N h) : SteadyM N radius alpha k h := by
  rw [InitMState, prefList_full, prefList_full] at hcs
  exact hcs

theorem processRowMean_F (output : Image) (hists : List MeanHist) (w ch N x y k : Nat)
    (ho1 : output.width = w) (ho3 : output.channels = ch)
    (hmean : ∀ c i, c < ch → i < N →
      (hists.getD c (MeanHist.new 0 1 0)).get_mean i = k) :
    processRowMean output hists N x y =
      (List.range' 0 N).foldl
        (fun o i => o.setPixel (writeCol w x i) y (List.replicate ch k)) output := by
  rw [processRowMean, show List.range N = List.range' 0 N from List.range_eq_range' N]
  apply List.foldl_ext
  intro o i hi
  have hiN : i < N := by
    have := List.mem_range'_1.mp hi
    omega
  rw [ho1, ho3]
  have hmap : (List.range ch).map (fun c => (hists.getD c (MeanHist.new 0 1 0)).get_mean i) =
      (List.range ch).map (fun _ => k) :=
    map_congr_on _ _ _ (fun c hc => hmean c i (List.mem_range.mp hc) hiN)
  rw [hmap, map_const_replicate, List.length_range]

theorem meanWriteFold (w hgt ch k N x y : Nat)
    (hw : 1 ≤ w) (hh : 1 ≤ hgt) (hy : y < hgt) :
    ∀ (m i0 : Nat) (out : Image),
      out.width = w → out.height = hgt → out.channels = ch →
      out.data.length = w * hgt * ch →
      ∃ out' : Image,
        (List.range' i0 m).foldl
          (fun o i => o.setPixel (writeCol w x i) y (List.replicate ch k)) out = out' ∧
        out'.width = w ∧ out'.height = hgt ∧ out'.channels = ch ∧
        out'.data.length = w * hgt * ch ∧
        (∀ c i', c < ch → i0 ≤ i' → i' < i0 + m →
          out'.data.getD ((y * w + writeCol w x i') * ch + c) 0 = k) ∧
        (∀ q, out'.data.getD q 0 = k ∨ out'.data.getD q 0 = out.data.getD q 0) := by
  intro m
  induction m with
  | zero =>
    intro i0 out h1 h2 h3 h4
    exact ⟨out, by rw [show List.range' i0 0 = [] from rfl, List.foldl_nil], h1, h2, h3, h4,
      fun c i' _ hge hlt2 => absurd hlt2 (by omega), fun q => Or.inr rfl⟩
  | succ m ih =>
    intro i0 out h1 h2 h3 h4
    rw [List.range'_succ, List.foldl_cons]
    obtain ⟨out', he, k1, k2, k3, k4, k5, k6⟩ :=
      ih (i0 + 1) (out.setPixel (writeCol w x i0) y (List.replicate ch k))
        (by rw [setPixel_width, h1]) (by rw [setPixel_height, h2])
        (by rw [setPixel_channels, h3]) (by rw [setPixel_data, writeList_length, h4])
    refine ⟨out', he, k1, k2, k3, k4, ?_, ?_⟩
    · intro c i' hc hge hlt2
      by_cases hii : i' = i0
      · subst hii
        rcases k6 ((y * w + writeCol w x i') * ch + c) with hk6 | hk6
        · exact hk6
        · rw [hk6, setPixel_data, h1, h3, writeList_getD, if_pos]
          · rw [show (y * w + writeCol w x i') * ch + c - (y * w + writeCol w x i') * ch = c
              from by omega]
            rw [getD_replicate, if_pos hc]
          · refine ⟨by omega, ?_, ?_⟩
            · rw [List.length_replicate]
              omega
            · rw [h4]
              exact encode_lt y (writeCol w x i') c w hgt ch hy (writeCol_lt w x i' hw) hc
      · exact k5 c i' hc (by omega) (by omega)
    · intro q
      rcases k6 q with hk6 | hk6
      · exact Or.inl hk6
      · rw [hk6, setPixel_data, h1, h3, writeList_getD]
        by_cases hq : (y * w + writeCol w x i0) * ch ≤ q ∧
            q < (y * w + writeCol w x i0) * ch + (List.replicate ch k).length ∧
            q < out.data.length
        · rw [if_pos hq]
          left
          obtain ⟨hq1, hq2, hq3⟩ := hq
          rw [List.length_replicate] at hq2
          rw [getD_replicate, if_pos (by omega)]
        · rw [if_neg hq]
          right
          rfl

theorem meanAddRow_const (w h ch k N radius alpha x row : Nat)
    (hw : 1 ≤ w) (hh : 1 ≤ h) (hk : k < 256) (hN1 : 1 ≤ N)
    (hodd : N = 2 * (N / 2) + 1) (ht1 : 1 ≤ alpha / 2) (ht64 : alpha / 2 < 2 ^ 64)
    (hlt : alpha < (2 * radius + 1) * (2 * radius + 1))
    (hsumB : ((2 * radius + 1) * (2 * radius + 1) + (2 * radius + 1)) * k < 2 ^ 31)
    (hrow : row < h)
    (hists : List MeanHist) (hlen : hists.length = ch)
    (hS : ∀ c, c < ch → SteadyM N radius alpha k (hists.getD c (MeanHist.new 0 1 0))) :
    ∃ hists1, addRowMean hists (rowSlice (constImage w h ch k) N radius x row) true =
        some hists1 ∧ hists1.length = ch ∧
      (∀ c, c < ch → MidM N radius alpha k (hists1.getD c (MeanHist.new 0 1 0))) := by
  obtain ⟨hists1, hrun, hlen1, hout, hin⟩ := meanChanFold
    (rowSlice (constImage w h ch k) N radius x row) true
    (fun c hst => c < ch ∧ SteadyM N radius alpha k hst)
    (fun _ hst => MidM N radius alpha k hst)
    (fun c hst hP => by
      obtain ⟨hc, hcs⟩ := hP
      exact meanUpdate_add_const (rowSlice (constImage w h ch k) N radius x row) c
        N radius alpha k
        (((2 * radius + 1 : Nat) : Int) * ((2 * radius + 1 : Nat) : Int))
        ((((2 * radius + 1) * (2 * radius + 1) - alpha : Nat) : Int) * (k : Int))
        hst hN1 hodd ht1 ht64 (by positivity)
        (sValBound radius alpha k (by omega) hsumB)
        (fun j hj => px_rowSlice_const w h ch k N radius x row j c hw hrow hj hc)
        (fun j => px_rowSlice_const_lt w h ch k N radius x row j c hk) hcs)
    hists.length 0 hists (by omega)
    (fun c hc1 hc2 => ⟨by omega, hS c (by omega)⟩)
  refine ⟨hists1, ?_, by rw [hlen1, hlen], fun c hc => hin c (by omega) (by omega)⟩
  rw [addRowMean_eq]
  exact hrun

theorem meanRemoveRow_const (w h ch k N radius alpha x row : Nat)
    (hw : 1 ≤ w) (hh : 1 ≤ h) (hk : k < 256) (hN1 : 1 ≤ N)
    (hodd : N = 2 * (N / 2) + 1) (ht1 : 1 ≤ alpha / 2) (ht64 : alpha / 2 < 2 ^ 64)
    (hlt : alpha < (2 * radius + 1) * (2 * radius + 1))
    (hsumB : ((2 * radius + 1) * (2 * radius + 1) + (2 * radius + 1)) * k < 2 ^ 31)
    (hrow : row < h)
    (hists : List MeanHist) (hlen : hists.length = ch)
    (hS : ∀ c, c < ch → MidM N radius alpha k (hists.getD c (MeanHist.new 0 1 0))) :
    ∃ hists1, addRowMean hists (rowSlice (constImage w h ch k) N radius x row) false =
        some hists1 ∧ hists1.length = ch ∧
      (∀ c, c < ch → SteadyM N radius alpha k (hists1.getD c (MeanHist.new 0 1 0))) := by
  obtain ⟨hists1, hrun, hlen1, hout, hin⟩ := meanChanFold
    (rowSlice (constImage w h ch k) N radius x row) false
    (fun c hst => c < ch ∧ MidM N radius alpha k hst)
    (fun _ hst => SteadyM N radius alpha k hst)
    (fun c hst hP => by
      obtain ⟨hc, hcs⟩ := hP
      obtain ⟨st', heq, hcs2⟩ := meanUpdate_remove_const
        (rowSlice (constImage w h ch k) N radius x row) c N radius alpha k
        (((2 * radius + 1 : Nat) : Int) * ((2 * radius + 1 : Nat) : Int) +
          ((2 * radius + 1 : Nat) : Int))
        ((((2 * radius + 1) * (2 * radius + 1) - alpha : Nat) : Int) * (k : Int) +
          ((2 * radius + 1 : Nat) : Int) * (k : Int))
        hst hN1 hodd ht1 ht64 hk
        (by rw [castSq]; omega)
        (by rw [add_sub_cancel_right]; positivity)
        (sValBound radius alpha k (by omega) hsumB)
        (fun j hj => px_rowSlice_const w h ch k N radius x row j c hw hrow hj hc)
        (fun j => px_rowSlice_const_lt w h ch k N radius x row j c hk) hcs
      rw [show ((2 * radius + 1 : Nat) : Int) * ((2 * radius + 1 : Nat) : Int) +
          ((2 * radius + 1 : Nat) : Int) - ((2 * radius + 1 : Nat) : Int) =
          ((2 * radius + 1 : Nat) : Int) * ((2 * radius + 1 : Nat) : Int) from by ring,
        show (((2 * radius + 1) * (2 * radius + 1) - alpha : Nat) : Int) * (k : Int) +
          ((2 * radius + 1 : Nat) : Int) * (k : Int) -
          ((2 * radius + 1 : Nat) : Int) * (k : Int) =
          (((2 * radius + 1) * (2 * radius + 1) - alpha : Nat) : Int) * (k : Int)
          from by ring] at hcs2
      exact ⟨st', heq, hcs2⟩)
    hists.length 0 hists (by omega)
    (fun c hc1 hc2 => ⟨by omega, hS c (by omega)⟩)
  refine ⟨hists1, ?_, by rw [hlen1, hlen], fun c hc => hin c (by omega) (by omega)⟩
  rw [addRowMean_eq]
  exact hrun

theorem initColsMean9S (w h ch k N radius alpha x : Nat)
    (hw : 1 ≤ w) (hh : 1 ≤ h) (hx : x < w) (hk : k < 256)
    (hodd : N = 2 * (N / 2) + 1)
    (ht1 : 1 ≤ alpha / 2) (heven : alpha % 2 = 0)
    (hlt : alpha < (2 * radius + 1) * (2 * radius + 1))
    (hszB : (2 * radius + 1) * (2 * radius + 1) < 2 ^ 31)
    (hsumB : ((2 * radius + 1) * (2 * radius + 1) + (2 * radius + 1)) * k < 2 ^ 31)
    (out0 : Image) (how : out0.width = w) (hoh : out0.height = h)
    (hoc : out0.channels = ch) (hol : out0.data.length = w * h * ch) :
    ∃ st, initColsMean (constImage w h ch k) out0
        (List.replicate ch (MeanHist.new radius N alpha)) radius alpha N x = some st ∧
      StripInvM w h ch k N radius alpha out0 x 0 st := by
  obtain ⟨st, he, j1, j2, j3, j4, j5, j6, j7, j8⟩ :=
    initColsMean9 w h ch k N radius alpha x hw hh hx hk hodd ht1 heven hlt hszB hsumB
      out0 how hoh hoc hol
  refine ⟨st, he, j1, j2, j3, j4, ?_, j8, j5, ?_⟩
  · intro y c i' hy0 hyh hc hi
    rw [show y = 0 from by omega]
    exact j7 c i' hc hi
  · intro c hc
    exact SteadyM_of_init N radius alpha k _ (j6 c hc)

theorem meanRowStepM (w h ch k N radius alpha x j : Nat) (out0 : Image)
    (hw : 1 ≤ w) (hh : 1 ≤ h) (hx : x < w) (hk : k < 256) (hN1 : 1 ≤ N)
    (hodd : N = 2 * (N / 2) + 1)
    (ht1 : 1 ≤ alpha / 2) (ht64 : alpha / 2 < 2 ^ 64)
    (hlt : alpha < (2 * radius + 1) * (2 * radius + 1))
    (hsumB : ((2 * radius + 1) * (2 * radius + 1) + (2 * radius + 1)) * k < 2 ^ 31)
    (hj1 : 1 ≤ j) (hj2 : j ≤ h - 1)
    (st : Image × List MeanHist)
    (hInv : StripInvM w h ch k N radius alpha out0 x (j - 1) st) :
    ∃ st', meanRowStep (constImage w h ch k) radius N x st j = some st' ∧
      StripInvM w h ch k N radius alpha out0 x j st' := by
  obtain ⟨i1, i2, i3, i4, i5, i6, i7, i8⟩ := hInv
  simp only [meanRowStep, show (constImage w h ch k).height = h from rfl]
  have hjin : min (j + radius) (h - 1) < h := by omega
  have hjout : (iclamp ((j : Int) - (radius : Int) - 1) 0 ((h : Int) - 1)).toNat < h := by
    rw [iclamp]
    omega
  obtain ⟨hists1, he1, hlen1, hM1⟩ :=
    meanAddRow_const w h ch k N radius alpha x (min (j + radius) (h - 1))
      hw hh hk hN1 hodd ht1 ht64 hlt hsumB hjin st.2 i7 i8
  rw [he1]
  simp only [Option.bind_eq_bind, Option.some_bind]
  obtain ⟨hists2, he2, hlen2, hS2⟩ :=
    meanRemoveRow_const w h ch k N radius alpha x
      ((iclamp ((j : Int) - (radius : Int) - 1) 0 ((h : Int) - 1)).toNat)
      hw hh hk hN1 hodd ht1 ht64 hlt hsumB hjout hists1 hlen1 hM1
  rw [he2]
  simp only [Option.bind_eq_bind, Option.some_bind]
  rw [processRowMean_F st.1 hists2 w ch N x j k i1 i3
    (fun c i hc hi => SteadyM_get_mean N radius alpha k i _ hk hi hlt (hS2 c hc))]
  obtain ⟨out', he3, k1, k2, k3, k4, k5, k6⟩ :=
    meanWriteFold w h ch k N x j hw hh (by omega) N 0 st.1 i1 i2 i3 i4
  rw [he3]
  refine ⟨(out', hists2), rfl, k1, k2, k3, k4, ?_, ?_, hlen2, hS2⟩
  · intro y c i' hy0 hyh hc hi
    by_cases hyj : y = j
    · subst hyj
      exact k5 c i' hc (by omega) (by omega)
    · rcases k6 ((y * w + writeCol w x i') * ch + c) with hk6 | hk6
      · exact hk6
      · rw [hk6]
        exact i5 y c i' (by omega) hyh hc hi
  · intro q
    rcases k6 q with hk6 | hk6
    · exact Or.inl hk6
    · rw [hk6]
      exact i6 q

theorem meanRowFoldM (w h ch k N radius alpha x : Nat) (out0 : Image)
    (hw : 1 ≤ w) (hh : 1 ≤ h) (hx : x < w) (hk : k < 256) (hN1 : 1 ≤ N)
    (hodd : N = 2 * (N / 2) + 1)
    (ht1 : 1 ≤ alpha / 2) (ht64 : alpha / 2 < 2 ^ 64)
    (hlt : alpha < (2 * radius + 1) * (2 * radius + 1))
    (hsumB : ((2 * radius + 1) * (2 * radius + 1) + (2 * radius + 1)) * k < 2 ^ 31) :
    ∀ (m j0 : Nat), 1 ≤ j0 → j0 + m ≤ h →
    ∀ st, StripInvM w h ch k N radius alpha out0 x (j0 - 1) st →
    ∃ st', (List.range' j0 m).foldlM
        (meanRowStep (constImage w h ch k) radius N x) st = some st' ∧
      StripInvM w h ch k N radius alpha out0 x (j0 + m - 1) st' := by
  intro m
  induction m with
  | zero =>
    intro j0 h1 h2 st hInv
    refine ⟨st, ?_, ?_⟩
    · rw [show List.range' j0 0 = [] from rfl, List.foldlM_nil]
      rfl
    · rw [show j0 + 0 - 1 = j0 - 1 from by omega]
      exact hInv
  | succ m ih =>
    intro j0 h1 h2 st hInv
    rw [List.range'_succ, List.foldlM_cons]
    obtain ⟨st1, he1, hI1⟩ :=
      meanRowStepM w h ch k N radius alpha x j0 out0 hw hh hx hk hN1 hodd ht1 ht64 hlt
        hsumB h1 (by omega) st hInv
    rw [he1]
    simp only [Option.bind_eq_bind, Option.some_bind]
    obtain ⟨st', he2, hI2⟩ := ih (j0 + 1) (by omega) (by omega) st1
      (by rw [show j0 + 1 - 1 = j0 from by omega]; exact hI1)
    refine ⟨st', he2, ?_⟩
    rw [show j0 + (m + 1) - 1 = j0 + 1 + m - 1 from by omega]
    exact hI2

theorem processColsMean9 (w h ch k N radius alpha x : Nat)
    (hw : 1 ≤ w) (hh : 1 ≤ h) (hx : x < w) (hk : k < 256) (hN1 : 1 ≤ N)
    (hodd : N = 2 * (N / 2) + 1)
    (ht1 : 1 ≤ alpha / 2) (heven : alpha % 2 = 0) (ht64 : alpha / 2 < 2 ^ 64)
    (hlt : alpha < (2 * radius + 1) * (2 * radius + 1))
    (hszB : (2 * radius + 1) * (2 * radius + 1) < 2 ^ 31)
    (hsumB : ((2 * radius + 1) * (2 * radius + 1) + (2 * radius + 1)) * k < 2 ^ 31)
    (out0 : Image) (how : out0.width = w) (hoh : out0.height = h)
    (hoc : out0.channels = ch) (hol : out0.data.length = w * h * ch) :
    ∃ out', processColsMean (constImage w h ch k) out0 radius alpha N x = some out' ∧
      out'.width = w ∧ out'.height = h ∧ out'.channels = ch ∧
      out'.data.length = w * h * ch ∧
      (∀ y c i', y < h → c < ch → i' < N →
        out'.data.getD ((y * w + writeCol w x i') * ch + c) 0 = k) ∧
      (∀ q, out'.data.getD q 0 = k ∨ out'.data.getD q 0 = out0.data.getD q 0) := by
  simp only [processColsMean, show (constImage w h ch k).channels = ch from rfl,
    show (constImage w h ch k).height = h from rfl]
  obtain ⟨st, he1, hI1⟩ :=
    initColsMean9S w h ch k N radius alpha x hw hh hx hk hodd ht1 heven hlt hszB hsumB
      out0 how hoh hoc hol
  rw [he1]
  simp only [Option.bind_eq_bind, Option.some_bind]
  obtain ⟨st', he2, hI2⟩ :=
    meanRowFoldM w h ch k N radius alpha x out0 hw hh hx hk hN1 hodd ht1 ht64 hlt hsumB
      (h - 1) 1 (le_refl 1) (by omega) st
      (by rw [show (1 : Nat) - 1 = 0 from rfl]; exact hI1)
  rw [he2]
  simp only [Option.bind_eq_bind, Option.some_bind]
  obtain ⟨i1, i2, i3, i4, i5, i6, i7, i8⟩ := hI2
  exact ⟨st'.1, rfl, i1, i2, i3, i4,
    fun y c i' hy hc hi => i5 y c i' (by omega) hy hc hi, i6⟩

theorem stripFoldM (w h ch k N radius alpha : Nat)
    (hw : 1 ≤ w) (hh : 1 ≤ h) (hk : k < 256) (hN1 : 1 ≤ N)
    (hodd : N = 2 * (N / 2) + 1)
    (ht1 : 1 ≤ alpha / 2) (heven : alpha % 2 = 0) (ht64 : alpha / 2 < 2 ^ 64)
    (hlt : alpha < (2 * radius + 1) * (2 * radius + 1))
    (hszB : (2 * radius + 1) * (2 * radius + 1) < 2 ^ 31)
    (hsumB : ((2 * radius + 1) * (2 * radius + 1) + (2 * radius + 1)) * k < 2 ^ 31) :
    ∀ (m s0 : Nat) (out : Image),
      (∀ s', s' < s0 + m → s' * N < w) →
      out.width = w → out.height = h → out.channels = ch →
      out.data.length = w * h * ch →
      (∀ y c col, y < h → c < ch → col < w → col < s0 * N →
        out.data.getD ((y * w + col) * ch + c) 0 = k) →
      ∃ out', (List.range' s0 m).foldlM
          (fun o s => processColsMean (constImage w h ch k) o radius alpha N (s * N)) out =
          some out' ∧
        out'.width = w ∧ out'.height = h ∧ out'.channels = ch ∧
        out'.data.length = w * h * ch ∧
        (∀ y c col, y < h → c < ch → col < w → col < (s0 + m) * N →
          out'.data.getD ((y * w + col) * ch + c) 0 = k) := by
  intro m
  induction m with
  | zero =>
    intro s0 out hS h1 h2 h3 h4 h5
    refine ⟨out, ?_, h1, h2, h3, h4, fun y c col hy hc hcw hclt =>
      h5 y c col hy hc hcw (by rw [Nat.add_zero] at hclt; exact hclt)⟩
    rw [show List.range' s0 0 = [] from rfl, List.foldlM_nil]
    rfl
  | succ m ih =>
    intro s0 out hS h1 h2 h3 h4 h5
    rw [List.range'_succ, List.foldlM_cons]
    obtain ⟨out1, he1, j1, j2, j3, j4, j5, j6⟩ :=
      processColsMean9 w h ch k N radius alpha (s0 * N) hw hh (hS s0 (by omega)) hk hN1
        hodd ht1 heven ht64 hlt hszB hsumB out h1 h2 h3 h4
    rw [he1]
    simp only [Option.bind_eq_bind, Option.some_bind]
    obtain ⟨out', he2, k1, k2, k3, k4, k5⟩ := ih (s0 + 1) out1
      (fun s' hs' => hS s' (by omega)) j1 j2 j3 j4
      (by
        intro y c col hy hc hcw hclt
        have hring : (s0 + 1) * N = s0 * N + N := by ring
        by_cases hcold : col < s0 * N
        · rcases j6 ((y * w + col) * ch + c) with hj | hj
          · exact hj
          · rw [hj]
            exact h5 y c col hy hc hcw hcold
        · have hcol : writeCol w (s0 * N) (col - s0 * N) = col := by
            rw [writeCol]
            omega
          have := j5 y c (col - s0 * N) hy hc (by omega)
          rwa [hcol] at this)
    refine ⟨out', he2, k1, k2, k3, k4, ?_⟩
    intro y c col hy hc hcw hclt
    refine k5 y c col hy hc hcw ?_
    have hr1 : (s0 + (m + 1)) * N = (s0 + 1 + m) * N := by ring
    omega

theorem alphaTrimmedMeanFilter_const (w h ch k radius alpha : Nat)
    (hw : 1 ≤ w) (hh : 1 ≤ h) (hk : k < 256)
    (heven : alpha % 2 = 0) (hal2 : 2 ≤ alpha)
    (hlt : alpha < (2 * radius + 1) * (2 * radius + 1))
    (hszB : (2 * radius + 1) * (2 * radius + 1) < 2 ^ 31)
    (hsumB : ((2 * radius + 1) * (2 * radius + 1) + (2 * radius + 1)) * k < 2 ^ 31) :
    alphaTrimmedMeanFilter (constImage w h ch k) radius alpha =
      .ok (constImage w h ch k) := by
  have hsz : (2 * radius + 1) * (2 * radius + 1) < 2 ^ 32 := by omega
  have hodd : nColsOf radius = 2 * (nColsOf radius / 2) + 1 := nColsOf_odd radius
  have hN1 : 1 ≤ nColsOf radius := by omega
  have hszlin : 2 * radius + 1 ≤ (2 * radius + 1) * (2 * radius + 1) :=
    Nat.le_mul_of_pos_left _ (by omega)
  have ht1 : 1 ≤ alpha / 2 := by omega
  have ht64 : alpha / 2 < 2 ^ 64 := by omega
  simp only [alphaTrimmedMeanFilter]
  rw [Nat.mod_eq_of_lt (show 2 * radius + 1 < 2 ^ 32 from by omega),
    Nat.mod_eq_of_lt hsz, if_neg (fun hC => hC heven), if_neg (by omega)]
  rw [meanFilterWith, stripOrigins,
    show (constImage w h ch k).width = w from rfl, List.foldlM_map, List.range_eq_range']
  have hS : ∀ s', s' < 0 + (w + nColsOf radius - 1) / nColsOf radius →
      s' * nColsOf radius < w := by
    intro s' hs'
    have h1 : (s' + 1) * nColsOf radius ≤ w + nColsOf radius - 1 :=
      (Nat.le_div_iff_mul_le (by omega)).mp (by omega)
    have h2 : (s' + 1) * nColsOf radius = s' * nColsOf radius + nColsOf radius := by ring
    omega
  obtain ⟨out', he, k1, k2, k3, k4, k5⟩ :=
    stripFoldM w h ch k (nColsOf radius) radius alpha hw hh hk hN1 hodd ht1 heven ht64 hlt
      hszB hsumB
      ((w + nColsOf radius - 1) / nColsOf radius) 0 (Image.blank (constImage w h ch k))
      hS rfl rfl rfl (by rw [show (Image.blank (constImage w h ch k)).data =
        List.replicate (w * h * ch) 0 from rfl, List.length_replicate])
      (fun y c col hy hc hcw hclt => absurd hclt (by omega))
  rw [he]
  have hcover : ∀ col, col < w →
      col < (0 + (w + nColsOf radius - 1) / nColsOf radius) * nColsOf radius := by
    intro col hcol
    have hdm := Nat.div_add_mod (w + nColsOf radius - 1) (nColsOf radius)
    have hmod : (w + nColsOf radius - 1) % nColsOf radius < nColsOf radius :=
      Nat.mod_lt _ (by omega)
    have hflip : (0 + (w + nColsOf radius - 1) / nColsOf radius) * nColsOf radius =
        nColsOf radius * ((w + nColsOf radius - 1) / nColsOf radius) := by ring
    omega
  have hdata : out'.data = List.replicate (w * h * ch) k := by
    apply List.ext_getElem (by rw [k4, List.length_replicate])
    intro i hi1 hi2
    have hgd : ∀ (l : List Nat) (i : Nat) (h : i < l.length), l[i] = l.getD i 0 := by
      intro l i h
      rw [List.getD_eq_getElem?_getD, List.getElem?_eq_getElem h]
      rfl
    rw [hgd _ _ hi1, hgd _ _ hi2]
    rw [k4] at hi1
    have hch : 0 < ch := by
      rcases Nat.eq_zero_or_pos ch with h0 | h0
      · rw [h0, Nat.mul_zero] at hi1
        omega
      · exact h0
    have hwpos : 0 < w := by omega
    have hd1 := Nat.div_add_mod i ch
    have hd2 := Nat.div_add_mod (i / ch) w
    have hylt : i / ch / w < h := by
      rw [Nat.div_lt_iff_lt_mul hwpos, Nat.div_lt_iff_lt_mul hch]
      calc i < w * h * ch := hi1
        _ = h * w * ch := by ring
    have hxlt : (i / ch) % w < w := Nat.mod_lt _ hwpos
    have hclt : i % ch < ch := Nat.mod_lt _ hch
    have he2 : ((i / ch / w) * w + (i / ch) % w) * ch + i % ch = i := by
      have e3 : ((i / ch / w) * w + (i / ch) % w) * ch + i % ch =
          ch * (w * (i / ch / w) + (i / ch) % w) + i % ch := by ring
      rw [e3, hd2, hd1]
    have hres := k5 (i / ch / w) (i % ch) ((i / ch) % w) hylt hclt hxlt
      (hcover _ hxlt)
    rw [he2] at hres
    rw [hres, getD_replicate, if_pos hi1]
  obtain ⟨ow, oh, och, od⟩ := out'
  simp only at k1 k2 k3 hdata
  rw [show constImage w h ch k =
    Image.mk w h ch (List.replicate (w * h * ch) k) from rfl, k1, k2, k3, hdata]

/-- C9 (amended): inside the `i32` envelope — `(2*radius+1)^2 < 2^31`, so every
histogram count fits `i32`, and `((2*radius+1)^2 + (2*radius+1))*k < 2^31`, so
every engine sum (whose magnitude peaks at `((2r+1)^2 - alpha + (2r+1))*k`
during a steady-state update) fits `i32` — `median_filter` maps every constant
image to itself, and `alpha_trimmed_mean_filter` does so for every even
`alpha` with `2 ≤ alpha < (2*radius+1)^2`; the originally claimed valid trim
`alpha = 0` instead panics (see the counterexample), and beyond the envelope
the wrapping `i32` sums, modelled by `wrap32`, leave the identity unproven. -/

theorem C9_constant_identity (w h ch k radius alpha : Nat)
    (hw : 1 ≤ w) (hh : 1 ≤ h) (hk : k < 256)
    (heven : alpha % 2 = 0) (hal2 : 2 ≤ alpha)
    (hlt : alpha < (2 * radius + 1) * (2 * radius + 1))
    (hszB : (2 * radius + 1) * (2 * radius + 1) < 2 ^ 31)
    (hsumB : ((2 * radius + 1) * (2 * radius + 1) + (2 * radius + 1)) * k < 2 ^ 31) :
    medianFilter (constImage w h ch k) radius = some (constImage w h ch k) ∧
    alphaTrimmedMeanFilter (constImage w h ch k) radius alpha =
      .ok (constImage w h ch k) :=
  ⟨medianFilter_const w h ch k radius hw hh hk,
   alphaTrimmedMeanFilter_const w h ch k radius alpha hw hh hk heven hal2 hlt hszB hsumB⟩

/-- Witness for C9 at the 3x3 constant image of value 7, radius 1,
alpha 2. -/

theorem C9_constant_identity_witness :
    (1 ≤ 3 ∧ 7 < 256 ∧ 2 % 2 = 0 ∧ 2 ≤ 2 ∧
      2 < (2 * 1 + 1) * (2 * 1 + 1) ∧ (2 * 1 + 1) * (2 * 1 + 1) < 2 ^ 31 ∧
      ((2 * 1 + 1) * (2 * 1 + 1) + (2 * 1 + 1)) * 7 < 2 ^ 31) ∧
    (medianFilter (constImage 3 3 1 7) 1 = some (constImage 3 3 1 7) ∧
     alphaTrimmedMeanFilter (constImage 3 3 1 7) 1 2 = .ok (constImage 3 3 1 7)) :=
  ⟨⟨by decide, by decide, by decide, by decide, by decide, by decide, by decide⟩,
   C9_constant_identity 3 3 1 7 1 2 (by decide) (by decide) (by decide) (by decide)
     (by decide) (by decide) (by decide) (by decide)⟩

theorem med63w5_eval : medianFilterWith 1 5 img63 = some medOut63 := by decide

/-- Evaluation of `Image.blank` on `img63`. -/

theorem blank63_eval : Image.blank img63 = z63 := by decide

/-- Strip origins of the width-1 driver on a width-6 image. -/

theorem so63_eval : stripOrigins img63.width 1 = [0, 1, 2, 3, 4, 5] := by decide

/-- Evaluation of the degenerate strips 0–4 (all-zero columns). -/

theorem strip63_0 : processColsMed img63 z63 1 1 0 = some z63 := by decide

/-- Evaluation of strip 1. -/

theorem strip63_1 : processColsMed img63 z63 1 1 1 = some z63 := by decide

/-- Evaluation of strip 2. -/

theorem strip63_2 : processColsMed img63 z63 1 1 2 = some z63 := by decide

/-- Evaluation of strip 3. -/

theorem strip63_3 : processColsMed img63 z63 1 1 3 = some z63 := by decide

/-- Evaluation of strip 4. -/

theorem strip63_4 : processColsMed img63 z63 1 1 4 = some z63 := by decide

/-- Evaluation of the final strip of the width-1 driver. -/

theorem strip63_5 : processColsMed img63 z63 1 1 5 = some med63cols1 := by decide

/-- Composition: the width-1 driver on `img63`. -/

theorem med63cols1_eval : medianFilterWith 1 1 img63 = some med63cols1 := by
  rw [medianFilterWith, so63_eval]
  simp only [List.foldlM, blank63_eval, strip63_0, strip63_1, strip63_2, strip63_3,
    strip63_4, strip63_5, Option.bind_eq_bind, Option.some_bind, Option.pure_def]

/-- Chunk 0–63 of the first-mean scan of column 2 of `phC2`. -/

theorem meanScanChunk0 :
    (List.range' 0 64).foldl (initMeanKey phC2 2 2 7) ⟨0, 0, [], []⟩ = miC2 := by decide

/-- Chunk 64–127 (no samples, state unchanged). -/

theorem meanScanChunk1 :
    (List.range' 64 64).foldl (initMeanKey phC2 2 2 7) miC2 = miC2 := by decide

/-- Chunk 128–191. -/

theorem meanScanChunk2 :
    (List.range' 128 64).foldl (initMeanKey phC2 2 2 7) miC2 = miC2 := by decide

/-- Chunk 192–255. -/

theorem meanScanChunk3 :
    (List.range' 192 64).foldl (initMeanKey phC2 2 2 7) miC2 = miC2 := by decide

/-- Composition of the four chunks: the full 256-key scan of column 2. -/

theorem meanScanC2 : initMeanColumn phC2 2 2 7 = miC2 := by
  have h : List.range 256 =
      List.range' 0 64 ++ (List.range' 64 64 ++ (List.range' 128 64 ++ List.range' 192 64)) := by
    decide
  rw [initMeanColumn, h, List.foldl_append, List.foldl_append, List.foldl_append,
    meanScanChunk0, meanScanChunk1, meanScanChunk2, meanScanChunk3]

/-! ### Claim theorems: concrete divergences -/

/-- C1: the claim that `median_filter` agrees byte-for-byte with the
brute-force clamp-to-edge median on every image up to 64×64 for
`radius ∈ {1,2,3}` fails on the code: on the 6×3 image `img63` with
radius 1 (strip width `n_cols(1) = 5`, truncated final strip) the driver
rewrites column 5 with values of windows centred at clamped phantom
columns, so output pixel `(5,1)` is 1 while the median of its window
is 0. -/

theorem C1_median_truncated_strip_diverges :
    medianFilter img63 1 = some medOut63 ∧
    medOut63.getPixel 5 1 = [1] ∧
    bruteMedianPixel img63 1 5 1 0 = 0 ∧
    medOut63 ≠ bruteMedianImage img63 1 := by
  refine ⟨?_, by decide, by decide, by decide⟩
  have h : nColsOf 1 = 5 := by decide
  rw [medianFilter, h, med63w5_eval]

/-- C2: the claim that `alpha_trimmed_mean_filter` agrees byte-for-byte
with the brute-force trimmed mean for every valid `(radius, alpha)` fails
on the code: on `imgC2` with radius 1 and `alpha = 4`, the first-mean scan
of `init_cols_mean` over-trims at the key where the cumulative count first
exceeds `size² - trim` — on the primed column-2 window
`{0,0,0,0,0,0,10,10,30}` it moves both 10s into the upper deque, leaving
`sum = 30`, so the engine emits `round(30/5) = 6` at `(2,0)` where the
brute-force reference gives `round(10/5) = 2`. -/

theorem C2_mean_init_overtrim_diverges :
    ((primeRows imgC2.height 1).foldlM
        (fun hs j => addRowMean hs (rowSlice imgC2 5 1 0 j) true)
        [MeanHist.new 1 5 4] = some [mhPrimedC2]) ∧
    initMeanColumn phC2 2 2 7 = miC2 ∧
    toByte (roundDiv miC2.sum 5) = 6 ∧
    bruteMeanPixel imgC2 1 4 2 0 0 = 2 := by
  exact ⟨by decide, meanScanC2, by decide, by decide⟩

/-- C4: the claim describes the spec's steady-state insertion and removal
rules for the upper deque; the code instead binary-searches the *lower*
deque in both `val > upper` arms (lines 366 and 428).  On the state `mhC4`
(window `{0,0,0,0,0,0,10,10,30}`, `upper = [30,10]`) inserting `val = 25`
yields `upper = [25,30]` — not the descending insertion `[30,25]` of the
spec — and on the state `mhC4b` (`upper = [30,25]`) removing `val = 30`
leaves the upper deque untouched and merely subtracts 30 from `sums`,
although a binary search of the upper deque itself would find it at
position 0. -/

theorem C4_upper_arm_searches_lower_deque :
    (MeanHist.addStep mhC4 [[25],[0],[0]] 0 0 0).map
        (fun s => (s.upper.getD 0 [], s.sums.getD 0 0)) = some ([25, 30], 20) ∧
    insertDesc 25 [30] = [30, 25] ∧ ([25, 30] : List Nat) ≠ [30, 25] ∧
    (MeanHist.removeStep mhC4b [[30],[0],[0]] 0 0 0).map
        (fun s => (s.upper.getD 0 [], s.sums.getD 0 0)) = some ([30, 25], -10) ∧
    binarySearch (fun e => compare 30 e) [30, 25] = Sum.inr 0 := by
  exact ⟨by decide, by decide, by decide, by decide, by decide⟩

/-- C5: the claim that `alpha_trimmed_mean_filter` is total on every valid
input, in particular that `alpha = 0` is valid and the 3×3 single-255
scenario yields all pixels 28, fails on the code: with `trim = 0` the
pivot read `self.lower[n][self.trim - 1]` underflows and panics during the
first steady-state row, so the filter panics on every image of height ≥ 2;
the brute-force value demanded by the claim is indeed 28 everywhere. -/

theorem C5_alpha_zero_panics :
    alphaTrimmedMeanFilter imgS2 1 0 = MeanResult.panicked ∧
    bruteMeanImage imgS2 1 0 = constImage 3 3 1 28 ∧
    toByte (roundDiv 255 9) = 28 := by
  exact ⟨by decide, by decide, by decide⟩

/-- C6 counterexample: at `radius = 32768` the validation computes
`size*size` in wrapping `u32` arithmetic (`65537² mod 2³² = 131073`), so
the even `alpha = 200000 < (2·32768+1)²` is rejected with
`InvalidArgument`, contradicting the claim's `if and only if`. -/

theorem C6_wrapping_validation_counterexample :
    alphaTrimmedMeanFilter imgS2 32768 200000 = MeanResult.invalidArg ∧
    200000 % 2 = 0 ∧ 200000 < (2 * 32768 + 1) ^ 2 := by
  exact ⟨by decide, by decide, by decide⟩

/-- C7 counterexample: in the truncated final strip of `img63` (origin 5,
`n_cols = 5`) all five strip columns write to output column 5, so position
`(5,1)` is not written exactly once, and the surviving value is the one
computed for the window centred at strip column `5 + 4 = 9`, not the value
of the window centred at `(5,1)` itself (which is 0). -/

theorem C7_multiple_clamped_writes_counterexample :
    (List.range 5).map (writeCol 6 5) = [5, 5, 5, 5, 5] ∧
    medianFilter img63 1 = some medOut63 ∧
    medOut63.getPixel 5 1 = [1] ∧
    bruteMedianPixel img63 1 5 1 0 = 0 := by
  refine ⟨by decide, ?_, by decide, by decide⟩
  have h : nColsOf 1 = 5 := by decide
  rw [medianFilter, h, med63w5_eval]

/-- C8: the claim that the reference strip width and the degenerate
`n_cols = 1` driver produce byte-identical outputs fails on the code:
on `img63` with radius 1 the reference width is 5 and the two drivers
disagree (at pixel `(5,1)`), because only the width-5 run has a truncated
strip whose clamped writes overwrite column 5 with phantom-window
values. -/

theorem C8_strip_width_changes_output :
    nColsOf 1 = 5 ∧
    medianFilterWith 1 5 img63 = some medOut63 ∧
    medianFilterWith 1 1 img63 = some med63cols1 ∧
    medOut63 ≠ med63cols1 := by
  exact ⟨by decide, med63w5_eval, med63cols1_eval, by decide⟩

/-- C9 counterexample: on the constant 3×3 image of value 7 the
alpha-trimmed mean filter with the valid argument `alpha = 0` does not
return the input image — it panics (the `trim = 0` underflow), so the
identity claimed for every valid `α` fails at `α = 0`. -/

theorem C9_constant_alpha_zero_counterexample :
    alphaTrimmedMeanFilter (constImage 3 3 1 7) 1 0 = MeanResult.panicked := by
  decide

/-! ### Claim theorems: validation and strip layout -/

/-- C6 (amended): for every radius whose kernel bound fits in `u32`
(`radius ≤ 32767`, so `(2r+1)²` is computed exactly) and every `u32`
alpha, `alpha_trimmed_mean_filter` returns `InvalidArgument` if and only
if `alpha` is odd or `alpha ≥ (2·radius+1)²`.  The validation is the
entry of the function and the error constructor carries no image, so no
output is observable on error.  (For larger radii the bound is compared
after wrapping `u32` multiplication, as the counterexample shows.) -/

theorem C6_validation_iff (img : Image) (radius alpha : Nat)
    (hr : radius ≤ 32767) (ha : alpha < 2 ^ 32) :
    alphaTrimmedMeanFilter img radius alpha = MeanResult.invalidArg ↔
      alpha % 2 = 1 ∨ (2 * radius + 1) * (2 * radius + 1) ≤ alpha := by
  have hsize : (2 * radius + 1) % 2 ^ 32 = 2 * radius + 1 :=
    Nat.mod_eq_of_lt (by omega)
  have hsq : ((2 * radius + 1) * (2 * radius + 1)) % 2 ^ 32 =
      (2 * radius + 1) * (2 * radius + 1) := by
    refine Nat.mod_eq_of_lt ?_
    calc (2 * radius + 1) * (2 * radius + 1)
        ≤ 65535 * 65535 := Nat.mul_le_mul (by omega) (by omega)
      _ < 2 ^ 32 := by norm_num
  rw [alphaTrimmedMeanFilter]
  simp only [hsize, hsq]
  by_cases hodd : alpha % 2 = 0
  · rw [if_neg (by simp [hodd])]
    by_cases hge : (2 * radius + 1) * (2 * radius + 1) ≤ alpha
    · rw [if_pos hge]
      simp [hge]
    · rw [if_neg hge]
      cases hm : meanFilterWith radius alpha (nColsOf radius) img with
      | none => simp [hodd]; omega
      | some out => simp [hodd]; omega
  · rw [if_pos (by simp [hodd])]
    simp
    omega

/-- Witness for C6 at the spec's scenario S6: radius 2, alpha 25. -/

theorem C6_validation_iff_witness :
    2 ≤ 32767 ∧ 25 < 2 ^ 32 ∧
    (alphaTrimmedMeanFilter imgS2 2 25 = MeanResult.invalidArg ↔
      25 % 2 = 1 ∨ (2 * 2 + 1) * (2 * 2 + 1) ≤ 25) :=
  ⟨by decide, by decide, C6_validation_iff imgS2 2 25 (by decide) (by decide)⟩

/-- C7 (amended): the strip driver iterates exactly the origins
`k·n_cols < width`; every pixel write of a strip targets the clamped
column `min(x+i, width-1) < width`, so no pixel beyond column `width-1`
is ever written; but every strip column with `x+i ≥ width-1` writes to
column `width-1`, so in a truncated final strip that column is written
once per overflowing strip column (the last write carrying the value of
the window centred at strip column `x+n_cols-1`, as the counterexample
shows) rather than exactly once. -/

theorem C7_strip_layout (w n x i : Nat) (hn : 1 ≤ n) (hw : 1 ≤ w) :
    (x ∈ stripOrigins w n ↔ ∃ k, x = k * n ∧ x < w) ∧
    writeCol w x i < w ∧
    (w ≤ x + i + 1 → writeCol w x i = w - 1) := by
  have hdiv : ∀ k : Nat, k < (w + n - 1) / n ↔ k * n < w := by
    intro k
    rw [Nat.lt_iff_add_one_le, Nat.le_div_iff_mul_le hn, add_mul, one_mul]
    omega
  refine ⟨?_, ?_, ?_⟩
  · rw [stripOrigins]
    simp only [List.mem_map, List.mem_range]
    constructor
    · rintro ⟨k, hk, rfl⟩
      exact ⟨k, rfl, (hdiv k).mp hk⟩
    · rintro ⟨k, rfl, hk⟩
      exact ⟨k, (hdiv k).mpr hk, rfl⟩
  · rw [writeCol]
    omega
  · intro h
    rw [writeCol]
    omega

/-- Witness for C7 at the counterexample geometry: width 6, strip width 5,
origin 5, strip column 4. -/

theorem C7_strip_layout_witness :
    1 ≤ 5 ∧ 1 ≤ 6 ∧
    ((5 ∈ stripOrigins 6 5 ↔ ∃ k, 5 = k * 5 ∧ 5 < 6) ∧
      writeCol 6 5 4 < 6 ∧ (6 ≤ 5 + 4 + 1 → writeCol 6 5 4 = 6 - 1)) :=
  ⟨by decide, by decide, C7_strip_layout 6 5 5 4 (by decide) (by decide)⟩
